import Mathlib

/-! # sampleMovieLensMPS

A shallow embedding of `sampleMovieLensMPS.cpp`: the process coordination of `main`
(fork loop, the semaphore "/engine_built", the shared-memory segment
"/sampleMovieLens.modelStream", the wait loop and the unlinks), the command-line
scan `parseArgs`, the ratings-file reader `parseMovieLensData` with
`readInputSample`, the input-buffer fill of the worker branch and the comparison
computed by `printInferenceOutput`.
-/

namespace MovieLensMPS

/-! ## Part 1: the processes of `main`

Every process runs the same text of `main`; a process is a record of the local
variables that the coordination depends on and a program point.  `fork()` copies the
calling process.  The operating system's choices (the value `fork` returns, a file
descriptor, the size of the serialized engine, which terminated child `wait` reaps)
come with the scheduled action. -/

/-- Program points of `main`, from the fork loop (line 485) to the end. -/
inductive Pc where
  /-- line 485: `i < args.nbProcesses` is tested and, when true, `fork()` is called -/
  | forkLoop (i : Int)
  /-- lines 489-492: `pid` is tested after `fork()` returned -/
  | forkTest (i : Int)
  /-- lines 495-498: `isParentProcess = (pid != 0)` and the branch on it -/
  | afterLoop
  /-- lines 501-516: build the engine, `assert(engine != nullptr)`, serialize -/
  | build
  /-- lines 518-520: `shm_open(..., O_RDWR | O_CREAT, 0666)`, throw when `fd <= 0` -/
  | shmCreate (modelStreamSize : Nat)
  /-- lines 521-527: `fallocate`, `mmap`, `memcpy`, `close`, `destroy` -/
  | publish (modelStreamSize : Nat)
  /-- lines 569-570: `j < args.nbProcesses` is tested and, when true, `sem_post` -/
  | postLoop (j : Int)
  /-- lines 578-579: `i < args.nbProcesses` is tested and, when true, `wait(&status)` -/
  | waitLoop (i : Int)
  /-- line 585: `shm_unlink` -/
  | shmUnlink
  /-- lines 586-589: `sem_unlink`, `sem_close`, `return EXIT_SUCCESS` -/
  | semUnlink
  /-- `main` has returned -/
  | returned
  /-- lines 532-543: allocate and fill the input buffers (`at` may throw) -/
  | fill
  /-- line 546: `sem_wait(semEngineBuilt)` -/
  | semWait
  /-- lines 549-551: `shm_open(..., O_RDONLY, 0666)`, throw when `fd <= 0` -/
  | shmOpen
  /-- lines 553-557: `fstat`, `int modelStreamSize = sb.st_size`, throw when `<= 0` -/
  | fstat
  /-- lines 560-561: `mmap(..., PROT_READ, ...)`, `close` -/
  | mmap (modelStreamSize : Int)
  /-- line 564: `doInference` -/
  | infer
  /-- line 565: `exit(0)` was called -/
  | exited
  /-- an exception left `main`, or an assertion failed: the process was terminated -/
  | aborted
  deriving DecidableEq, Repr

/-- The process has terminated (a parent's `wait` can collect it). -/
def Pc.terminated : Pc → Bool
  | .returned => true
  | .exited => true
  | .aborted => true
  | _ => false

/-- One process.  `ppid` is the position (in the list of processes) of the process
whose `fork()` created this one, `none` for the process the user started. -/
structure Proc where
  ppid : Option Nat
  /-- the local variable `pid_t pid` (line 483) -/
  pid : Int
  /-- the local variable `bool isParentProcess` (line 495), `none` before it is declared -/
  isParentProcess : Option Bool
  pc : Pc
  /-- a `wait` of the creating process has collected this process -/
  reaped : Bool
  deriving DecidableEq, Repr

/-- What a process did, recorded in the trace with the position of the process. -/
inductive Event where
  | fork (p child : Nat)
  | forkFailed (p : Nat)
  | memcpy (p : Nat)
  | semPost (p : Nat)
  /-- `sem_wait` returned in process `p` -/
  | semWait (p : Nat)
  /-- the worker's `shm_open(..., O_RDONLY, ...)` -/
  | shmOpen (p : Nat)
  /-- the worker's `mmap(..., PROT_READ, ...)` -/
  | mmap (p : Nat)
  | wait (p : Nat)
  | shmUnlink (p : Nat)
  | semUnlink (p : Nat)
  deriving DecidableEq, Repr

/-- The process an event belongs to. -/
def Event.proc : Event → Nat
  | .fork p _ => p
  | .forkFailed p => p
  | .memcpy p => p
  | .semPost p => p
  | .semWait p => p
  | .shmOpen p => p
  | .mmap p => p
  | .wait p => p
  | .shmUnlink p => p
  | .semUnlink p => p

/-- The processes and the two named kernel objects.  `trace` lists the events so far,
the newest first. -/
structure World where
  /-- `args.nbProcesses` -/
  nbProcesses : Int
  procs : List Proc
  /-- the value of the semaphore "/engine_built" -/
  sem : Nat
  /-- the name "/sampleMovieLens.modelStream" exists -/
  shmLinked : Bool
  /-- the size in bytes of the shared-memory object -/
  shmSize : Nat
  trace : List Event
  deriving DecidableEq, Repr

/-- A scheduling choice: process `proc` takes its next step, and `val` is what the
operating system or the library answers in that step. -/
structure Action where
  proc : Nat
  val : Int
  deriving DecidableEq, Repr

/-- Conversion of a 64-bit size to `int` (line 555), two's complement. -/
def toInt32 (n : Int) : Int := (n + 2 ^ 31) % 2 ^ 32 - 2 ^ 31

/-- The world after `sem_open("/engine_built", O_CREAT | O_EXCL, ..., 0)` succeeded
(line 479): one process at the head of the fork loop, the semaphore at its initial
value 0.  `pid0` is the indeterminate content of the uninitialised `pid_t pid`. -/
def init (nbProcesses pid0 : Int) : World :=
  { nbProcesses := nbProcesses
    procs := [{ ppid := none, pid := pid0, isParentProcess := none, pc := .forkLoop 0,
                reaped := false }]
    sem := 0
    shmLinked := false
    shmSize := 0
    trace := [] }

/-- Replace process `i`, record the event. -/
def World.update (w : World) (i : Nat) (p : Proc) (ev : List Event) : World :=
  { w with procs := w.procs.set i p, trace := ev ++ w.trace }

/-- Process `p` has a child that no `wait` has collected yet. -/
def World.hasChild (w : World) (p : Nat) : Bool :=
  w.procs.any fun c => c.ppid == some p && !c.reaped

/-- Process `q` is a terminated, not yet collected child of `p`. -/
def World.reapable (w : World) (p q : Nat) : Bool :=
  match w.procs[q]? with
  | some c => c.ppid == some p && !c.reaped && c.pc.terminated
  | none => false

/-- Mark process `q` as collected. -/
def World.reap (w : World) (q : Nat) : World :=
  match w.procs[q]? with
  | some c => { w with procs := w.procs.set q { c with reaped := true } }
  | none => w

/-- One step of process `a.proc`; `none` when the process does not exist, has
terminated, is blocked (`sem_wait` at value 0, `wait` with no terminated child), or
when `a.val` is not an answer the operating system can give. -/
def step (w : World) (a : Action) : Option World :=
  match w.procs[a.proc]? with
  | none => none
  | some p =>
    match p.pc with
    | .forkLoop i =>
      if i < w.nbProcesses then
        if a.val = -1 then
          some (w.update a.proc { p with pid := -1, pc := .forkTest i } [.forkFailed a.proc])
        else if 0 < a.val then
          let child : Proc :=
            { ppid := some a.proc, pid := 0, isParentProcess := p.isParentProcess,
              pc := .forkTest i, reaped := false }
          some { w with
            procs := w.procs.set a.proc { p with pid := a.val, pc := .forkTest i } ++ [child]
            trace := .fork a.proc w.procs.length :: w.trace }
        else none
      else some (w.update a.proc { p with pc := .afterLoop } [])
    | .forkTest i =>
      if p.pid = 0 then some (w.update a.proc { p with pc := .afterLoop } [])
      else if p.pid = -1 then some (w.update a.proc { p with pc := .aborted } [])
      else some (w.update a.proc { p with pc := .forkLoop (i + 1) } [])
    | .afterLoop =>
      let isParentProcess := decide (p.pid ≠ 0)
      some (w.update a.proc
        { p with isParentProcess := some isParentProcess
                 pc := if isParentProcess then .build else .fill } [])
    | .build =>
      if a.val < 0 then some (w.update a.proc { p with pc := .aborted } [])
      else some (w.update a.proc { p with pc := .shmCreate a.val.toNat } [])
    | .shmCreate sz =>
      if a.val < 0 then some (w.update a.proc { p with pc := .aborted } [])
      else
        let w1 : World :=
          { w with shmLinked := true, shmSize := if w.shmLinked then w.shmSize else 0 }
        if a.val = 0 then some (w1.update a.proc { p with pc := .aborted } [])
        else some (w1.update a.proc { p with pc := .publish sz } [])
    | .publish sz =>
      some ({ w with shmSize := max w.shmSize sz }.update a.proc
        { p with pc := .postLoop 0 } [.memcpy a.proc])
    | .postLoop j =>
      if j < w.nbProcesses then
        some ({ w with sem := w.sem + 1 }.update a.proc
          { p with pc := .postLoop (j + 1) } [.semPost a.proc])
      else some (w.update a.proc { p with pc := .waitLoop 0 } [])
    | .waitLoop i =>
      if i < w.nbProcesses then
        if w.hasChild a.proc then
          if 0 ≤ a.val ∧ w.reapable a.proc a.val.toNat then
            some ((w.reap a.val.toNat).update a.proc
              { p with pc := .waitLoop (i + 1) } [.wait a.proc])
          else none
        else some (w.update a.proc { p with pc := .waitLoop (i + 1) } [.wait a.proc])
      else some (w.update a.proc { p with pc := .shmUnlink } [])
    | .shmUnlink =>
      some ({ w with shmLinked := false }.update a.proc
        { p with pc := .semUnlink } [.shmUnlink a.proc])
    | .semUnlink =>
      some (w.update a.proc { p with pc := .returned } [.semUnlink a.proc])
    | .returned => none
    | .fill =>
      if a.val = 0 then some (w.update a.proc { p with pc := .semWait } [])
      else some (w.update a.proc { p with pc := .aborted } [])
    | .semWait =>
      if 0 < w.sem then
        some ({ w with sem := w.sem - 1 }.update a.proc
          { p with pc := .shmOpen } [.semWait a.proc])
      else none
    | .shmOpen =>
      if w.shmLinked ∧ 0 < a.val then
        some (w.update a.proc { p with pc := .fstat } [.shmOpen a.proc])
      else some (w.update a.proc { p with pc := .aborted } [.shmOpen a.proc])
    | .fstat =>
      let modelStreamSize := toInt32 w.shmSize
      if modelStreamSize ≤ 0 then some (w.update a.proc { p with pc := .aborted } [])
      else some (w.update a.proc { p with pc := .mmap modelStreamSize } [])
    | .mmap _ =>
      some (w.update a.proc { p with pc := .infer } [.mmap a.proc])
    | .infer =>
      if a.val = 0 then some (w.update a.proc { p with pc := .exited } [])
      else some (w.update a.proc { p with pc := .aborted } [])
    | .exited => none
    | .aborted => none

/-- Run a schedule; `none` when some action of it is not enabled. -/
def run (w : World) : List Action → Option World
  | [] => some w
  | a :: rest =>
    match step w a with
    | some w1 => run w1 rest
    | none => none

/-- A schedule for two workers in which every call succeeds: the parent forks
twice, both workers fill their buffers and reach `sem_wait`, the parent builds,
publishes and posts twice, both workers run to `exit(0)`, the parent waits twice and
unlinks. -/
def sched2 : List Action :=
  [⟨0, 11⟩, ⟨0, 0⟩, ⟨0, 12⟩, ⟨0, 0⟩, ⟨0, 0⟩,
   ⟨1, 0⟩, ⟨1, 0⟩, ⟨1, 0⟩, ⟨2, 0⟩, ⟨2, 0⟩, ⟨2, 0⟩,
   ⟨0, 0⟩, ⟨0, 64⟩, ⟨0, 3⟩, ⟨0, 0⟩,
   ⟨0, 0⟩, ⟨0, 0⟩, ⟨0, 0⟩,
   ⟨2, 0⟩, ⟨2, 3⟩, ⟨2, 0⟩, ⟨2, 0⟩, ⟨2, 0⟩,
   ⟨1, 0⟩, ⟨1, 3⟩, ⟨1, 0⟩, ⟨1, 0⟩, ⟨1, 0⟩,
   ⟨0, 2⟩, ⟨0, 1⟩, ⟨0, 0⟩, ⟨0, 0⟩, ⟨0, 0⟩]

/-! ### Invariants of the process model -/

/-- The parent has copied the serialized engine into the segment. -/
def Published (t : List Event) : Prop := Event.memcpy 0 ∈ t

/-- Number of `sem_post` calls in a trace. -/
def posts (t : List Event) : Nat :=
  t.countP fun e => match e with
    | .semPost _ => true
    | _ => false

/-- Number of returned `sem_wait` calls in a trace. -/
def passes (t : List Event) : Nat :=
  t.countP fun e => match e with
    | .semWait _ => true
    | _ => false

/-- The program points after the post loop of the parent (lines 572-589). -/
def Pc.pastPostLoop : Pc → Bool
  | .waitLoop _ => true
  | .shmUnlink => true
  | .semUnlink => true
  | .returned => true
  | _ => false

/-- The program points of the worker branch (lines 531-565) and its abnormal end. -/
def Pc.inWorkerBranch : Pc → Bool
  | .fill => true
  | .semWait => true
  | .shmOpen => true
  | .fstat => true
  | .mmap _ => true
  | .infer => true
  | .exited => true
  | .aborted => true
  | _ => false

/-- What holds of process `i` at each program point: `nb` is `args.nbProcesses`,
`n` the number of processes and `t` the trace. -/
def ProcOk (nb : Int) (n : Nat) (t : List Event) (i : Nat) (p : Proc) : Prop :=
  (i = 0 → p.ppid = none) ∧ (i ≠ 0 → p.ppid = some 0 ∧ p.pid = 0) ∧
  (i = 0 → p.isParentProcess = some false → nb = 0) ∧
  match p.pc with
  | .forkLoop k =>
    i = 0 ∧ p.isParentProcess = none ∧ 0 ≤ k ∧ k ≤ nb ∧ (n : Int) = k + 1 ∧
      (0 < k → 0 < p.pid) ∧
      t.count (.semPost i) = 0 ∧ t.count (.semWait i) = 0 ∧ t.count (.wait i) = 0 ∧
      t.count (.shmUnlink i) = 0 ∧ t.count (.semUnlink i) = 0
  | .forkTest k =>
    p.isParentProcess = none ∧
      (i = 0 → 0 ≤ k ∧ k < nb ∧
        ((p.pid = -1 ∧ (n : Int) = k + 1) ∨ (0 < p.pid ∧ (n : Int) = k + 2))) ∧
      t.count (.semPost i) = 0 ∧ t.count (.semWait i) = 0 ∧ t.count (.wait i) = 0 ∧
      t.count (.shmUnlink i) = 0 ∧ t.count (.semUnlink i) = 0
  | .afterLoop =>
    p.isParentProcess = none ∧ (i = 0 → (0 < nb → 0 < p.pid) ∧ (n : Int) = nb + 1) ∧
      t.count (.semPost i) = 0 ∧ t.count (.semWait i) = 0 ∧ t.count (.wait i) = 0 ∧
      t.count (.shmUnlink i) = 0 ∧ t.count (.semUnlink i) = 0
  | .build | .shmCreate _ | .publish _ =>
    i = 0 ∧ p.isParentProcess = some true ∧ (n : Int) = nb + 1 ∧
      t.count (.semPost i) = 0 ∧ t.count (.semWait i) = 0 ∧ t.count (.wait i) = 0 ∧
      t.count (.shmUnlink i) = 0 ∧ t.count (.semUnlink i) = 0
  | .postLoop j =>
    i = 0 ∧ p.isParentProcess = some true ∧ (n : Int) = nb + 1 ∧ Published t ∧
      0 ≤ j ∧ j ≤ nb ∧ (t.count (.semPost i) : Int) = j ∧
      t.count (.semWait i) = 0 ∧ t.count (.wait i) = 0 ∧
      t.count (.shmUnlink i) = 0 ∧ t.count (.semUnlink i) = 0
  | .waitLoop k =>
    i = 0 ∧ p.isParentProcess = some true ∧ (n : Int) = nb + 1 ∧ Published t ∧
      0 ≤ k ∧ k ≤ nb ∧ (t.count (.semPost i) : Int) = nb ∧
      t.count (.semWait i) = 0 ∧ (t.count (.wait i) : Int) = k ∧
      t.count (.shmUnlink i) = 0 ∧ t.count (.semUnlink i) = 0
  | .shmUnlink =>
    i = 0 ∧ p.isParentProcess = some true ∧ (n : Int) = nb + 1 ∧ Published t ∧
      (t.count (.semPost i) : Int) = nb ∧
      t.count (.semWait i) = 0 ∧ (t.count (.wait i) : Int) = nb ∧
      t.count (.shmUnlink i) = 0 ∧ t.count (.semUnlink i) = 0
  | .semUnlink =>
    i = 0 ∧ p.isParentProcess = some true ∧ (n : Int) = nb + 1 ∧ Published t ∧
      (t.count (.semPost i) : Int) = nb ∧
      t.count (.semWait i) = 0 ∧ (t.count (.wait i) : Int) = nb ∧
      t.count (.shmUnlink i) = 1 ∧ t.count (.semUnlink i) = 0
  | .returned =>
    i = 0 ∧ p.isParentProcess = some true ∧ (n : Int) = nb + 1 ∧ Published t ∧
      (t.count (.semPost i) : Int) = nb ∧
      t.count (.semWait i) = 0 ∧ (t.count (.wait i) : Int) = nb ∧
      t.count (.shmUnlink i) = 1 ∧ t.count (.semUnlink i) = 1
  | .fill | .semWait =>
    p.isParentProcess = some false ∧
      t.count (.semPost i) = 0 ∧ t.count (.semWait i) = 0 ∧
      t.count (.shmUnlink i) = 0 ∧ t.count (.semUnlink i) = 0
  | .shmOpen =>
    p.isParentProcess = some false ∧ Published t ∧
      t.count (.semPost i) = 0 ∧ t.count (.semWait i) = 1 ∧
      t.count (.shmUnlink i) = 0 ∧ t.count (.semUnlink i) = 0
  | .fstat | .mmap _ =>
    p.isParentProcess = some false ∧ Published t ∧
      t.count (.semPost i) = 0 ∧ t.count (.semWait i) = 1 ∧ Event.shmOpen i ∈ t ∧
      t.count (.shmUnlink i) = 0 ∧ t.count (.semUnlink i) = 0
  | .infer | .exited =>
    p.isParentProcess = some false ∧ Published t ∧
      t.count (.semPost i) = 0 ∧ t.count (.semWait i) = 1 ∧ Event.shmOpen i ∈ t ∧
      Event.mmap i ∈ t ∧
      t.count (.shmUnlink i) = 0 ∧ t.count (.semUnlink i) = 0
  | .aborted =>
    (p.isParentProcess = some true → i = 0 ∧ (n : Int) = nb + 1) ∧
      t.count (.semPost i) = 0 ∧ t.count (.semWait i) ≤ 1 ∧
      t.count (.shmUnlink i) = 0 ∧ t.count (.semUnlink i) = 0

/-- What holds of an event `e` with respect to the events `pre` before it. -/
def EventOk (nb : Int) (e : Event) (pre : List Event) : Prop :=
  match e with
  | .fork p _ => p = 0
  | .memcpy p => p = 0
  | .semPost p => p = 0 ∧ Published pre
  | .semWait p => Event.semWait p ∉ pre
  | .shmOpen p => Event.semWait p ∈ pre ∧ Published pre
  | .mmap p => Event.shmOpen p ∈ pre ∧ Event.semWait p ∈ pre ∧ Published pre
  | .shmUnlink p => p = 0 ∧ (pre.count (.wait 0) : Int) = nb
  | .semUnlink p => p = 0 ∧ (pre.count (.wait 0) : Int) = nb ∧ Event.shmUnlink 0 ∈ pre
  | _ => True

/-- Every event of the trace satisfies `EventOk` with respect to the older events. -/
def Ordered (nb : Int) (t : List Event) : Prop :=
  ∀ post e pre, t = post ++ e :: pre → EventOk nb e pre

/-- The invariant of the process model. -/
structure Inv (w : World) : Prop where
  nb_nonneg : 0 ≤ w.nbProcesses
  procs_ok : ∀ i p, w.procs[i]? = some p → ProcOk w.nbProcesses w.procs.length w.trace i p
  sem_eq : w.sem + passes w.trace = posts w.trace
  ordered : Ordered w.nbProcesses w.trace
  bound : ∀ e ∈ w.trace, e.proc < w.procs.length


/-! ## Part 2: strings, numbers and the command line

A C++ string is a list of characters.  `std::stoi` and `std::atoi` are the C library's
`strtol` in base 10 followed by a range check (`stoi`) or a plain conversion to `int`
(`atoi`).  `std::stof` returns a floating-point number: it is taken as a parameter
`stof`, with `F` the type of its results. -/

/-- A `std::string` or a C string. -/
abbrev Str := List Char

/-- The exceptions thrown by the standard library calls of the program. -/
inductive Exc where
  | invalid_argument
  | out_of_range
  | length_error
  deriving DecidableEq, Repr

/-- Equality of results is decidable, so that examples can be evaluated. -/
instance instDecidableEqExcept {ε α : Type} [DecidableEq ε] [DecidableEq α] :
    DecidableEq (Except ε α)
  | .ok a, .ok b =>
    if h : a = b then isTrue (congrArg Except.ok h)
    else isFalse fun h1 => h (Except.ok.inj h1)
  | .error a, .error b =>
    if h : a = b then isTrue (congrArg Except.error h)
    else isFalse fun h1 => h (Except.error.inj h1)
  | .ok _, .error _ => isFalse fun h => Except.noConfusion h
  | .error _, .ok _ => isFalse fun h => Except.noConfusion h

/-- The characters `isspace` accepts in the C locale. -/
def isspace (c : Char) : Bool :=
  c == ' ' || c == '\t' || c == '\n' || c == '\x0b' || c == '\x0c' || c == '\r'

/-- The value of a run of decimal digits. -/
def digitsVal (ds : Str) : Nat :=
  ds.foldl (fun acc c => 10 * acc + (c.toNat - 48)) 0

/-- The number `strtol(s, _, 10)` reads before any range check: leading white space,
an optional sign, then the longest run of digits; `none` when there is no digit. -/
def strtolVal (s : Str) : Option Int :=
  let s1 := s.dropWhile isspace
  let ds := (match s1 with
    | '-' :: t => t
    | '+' :: t => t
    | _ => s1).takeWhile Char.isDigit
  if ds.isEmpty then none
  else match s1 with
    | '-' :: _ => some (-(digitsVal ds : Int))
    | _ => some (digitsVal ds : Int)

/-- `std::stoi`: `invalid_argument` when no number can be read, `out_of_range` when it
does not fit an `int`. -/
def stoi (s : Str) : Except Exc Int :=
  match strtolVal s with
  | none => .error .invalid_argument
  | some v => if v < -2 ^ 31 ∨ 2 ^ 31 - 1 < v then .error .out_of_range else .ok v

/-- `std::atoi`: 0 when no number can be read; otherwise the value of `strtol`
(clamped to the range of `long`) converted to `int`. -/
def atoi (s : Str) : Int :=
  match strtolVal s with
  | none => 0
  | some v => toInt32 (max (-2 ^ 63) (min (2 ^ 63 - 1) v))

/-- `struct OutputArgs` (lines 67-74). -/
structure OutputArgs (F : Type) where
  userId : Int
  expectedPredictedMaxRatingItem : Int
  expectedPredictedMaxRatingItemProb : F
  allItems : List Int
  itemProbPairVec : List (Int × F)
  deriving DecidableEq, Repr

/-- `struct Args` (lines 76-97) with its default member initialisers; a `std::map` is
the list of its (key, value) pairs in increasing key order. -/
structure Args (F : Type) where
  embeddingVecSize : Int := 32
  numUsers : Int := 32
  topKMovies : Int := 1
  numMoviesPerUser : Int := 100
  nbProcesses : Int := 1
  weightFile : Str := "sampleMovieLens.wts2".toList
  ratingInputFile : Str := "movielens_ratings.txt".toList
  uffFile : Str := "sampleMovieLens.uff".toList
  engineFile : Str := "sampleMovieLens.engine".toList
  enableFP16 : Bool := false
  enableVerbose : Bool := false
  enablePerf : Bool := true
  success : Bool := true
  useDLACore : Int := -1
  userToItemsMap : List (Int × List Int) := []
  userToExpectedItemProbMap : List (Int × List (Int × F)) := []
  device : Int := 0
  pargsVec : List (OutputArgs F) := []
  deriving DecidableEq, Repr

/-- The string literal that `printHelp` writes after the program name (lines 167-172). -/
def usageText : Str :=
  (" [-h] [-b NUM_USERS] [-p NUM_PROCESSES] [--useDLACore] [--verbose]\n" ++
   "\t-h           Display help information. All single dash options enable perf mode.\n" ++
   "\t-b           Number of Users i.e. Batch Size (default numUsers=32).\n" ++
   "\t-p           Number of child processes to launch (default nbProcesses=1. " ++
   "Using MPS with this option is strongly recommended).\n" ++
   "\t--useDLACore Enables use of DLA engine for layers that support DLA.\n" ++
   "\t--verbose    Enable verbose perf mode.\n").toList

/-- The text `printHelp` writes to `std::cout` (lines 163-174). -/
def printHelp (appName : Str) : Str :=
  "Usage:\n\t ".toList ++ appName ++ usageText ++ ['\n']

/-- How a call of `parseArgs` ends. -/
inductive ParseArgsResult (F : Type) where
  /-- the function returned, with the arguments as it left them -/
  | returned (args : Args F)
  /-- `exit(status)` was called after writing `cout` and `cerr` -/
  | exited (status : Int) (cout cerr : Str)
  /-- an exception left the function -/
  | threw (e : Exc)
  /-- `argv[i]` was passed to `atoi` for `i = argc`, where `argv` holds a null pointer -/
  | nullArg (i : Nat)
  deriving DecidableEq, Repr

/-- The program ends with a failure status: `exit` with a non-zero status, an exception
that nothing catches (`std::terminate` aborts the process), or the read through the
null pointer. -/
def ParseArgsResult.isFailure {F : Type} : ParseArgsResult F → Bool
  | .returned _ => false
  | .exited status _ _ => status != 0
  | .threw _ => true
  | .nullArg _ => true

/-- The loop of `parseArgs` (lines 180-213) from index `i` on: the list holds
`argv[i], ..., argv[argc-1]`. -/
def parseArgsFrom {F : Type} (appName : Str) (args : Args F) (i : Nat) :
    List Str → ParseArgsResult F
  | [] => .returned args
  | argStr :: rest =>
    if argStr = "-h".toList then .exited 0 (printHelp appName) []
    else if argStr = "-b".toList then
      match rest with
      | [] => .nullArg (i + 1)
      | v :: rest1 => parseArgsFrom appName { args with numUsers := atoi v } (i + 2) rest1
    else if argStr = "-p".toList then
      match rest with
      | [] => .nullArg (i + 1)
      | v :: rest1 => parseArgsFrom appName { args with nbProcesses := atoi v } (i + 2) rest1
    else if argStr = "--verbose".toList then
      parseArgsFrom appName { args with enableVerbose := true } (i + 1) rest
    else if argStr.take 13 = "--useDLACore=".toList ∧ 13 < argStr.length then
      match stoi (argStr.drop 13) with
      | .ok v => parseArgsFrom appName { args with useDLACore := v } (i + 1) rest
      | .error e => .threw e
    else
      .exited 1 (printHelp appName) ("Invalid argument: ".toList ++ argStr ++ ['\n'])

/-- `parseArgs(args, argc, argv)` (lines 178-214) with `argv` the list of the `argc`
argument strings. -/
def parseArgs {F : Type} (args : Args F) (argv : List Str) : ParseArgsResult F :=
  match argv with
  | [] => .returned args
  | appName :: rest => parseArgsFrom appName args 1 rest

/-! ### The words of the claims about the command line -/

/-- The tokens scanned as options, each with the token that follows it: the first
token after the program name is scanned as an option; the token after "-b" or "-p" is
its value, and the scan goes on after the value; after any other token it goes on
with the next one. -/
def optionTokens : List Str → List (Str × Option Str)
  | [] => []
  | t :: tl =>
    if t = "-b".toList ∨ t = "-p".toList then
      match tl with
      | [] => [(t, none)]
      | v :: rest => (t, some v) :: optionTokens rest
    else (t, tl.head?) :: optionTokens tl

/-- The token following the last occurrence of `flag` among the scanned options. -/
def valueAfterLast (flag : Str) (l : List Str) : Option Str :=
  match ((optionTokens l).filter fun x => x.1 == flag).getLast? with
  | some x => x.2
  | none => none

/-- A token of the form `--useDLACore=<non-empty value>`. -/
def isDLAOption (t : Str) : Bool :=
  t.take 13 == "--useDLACore=".toList && decide (13 < t.length)

/-- A token that is none of "-h", "-b", "-p", "--verbose", "--useDLACore=<value>". -/
def unrecognised (t : Str) : Bool :=
  !(t == "-h".toList || t == "-b".toList || t == "-p".toList || t == "--verbose".toList
    || isDLAOption t)

/-- An argument list (after the program name) made only of recognised options with
their values: "-b" and "-p" are followed by a value. -/
def recognisedOnly : List Str → Bool
  | [] => true
  | t :: tl =>
    if t = "-b".toList ∨ t = "-p".toList then
      match tl with
      | [] => false
      | _ :: rest => recognisedOnly rest
    else !unrecognised t && recognisedOnly tl

/-- As `recognisedOnly`, and the value of every `--useDLACore=` option is a number
that `stoi` accepts. -/
def recognisedNumeric : List Str → Bool
  | [] => true
  | t :: tl =>
    if t = "-b".toList ∨ t = "-p".toList then
      match tl with
      | [] => false
      | _ :: rest => recognisedNumeric rest
    else
      !unrecognised t && (!isDLAOption t || (stoi (t.drop 13)).isOk) && recognisedNumeric tl

/-- Every field of `Args` other than `numUsers`, `nbProcesses`, `enableVerbose` and
`useDLACore` has in `a` the value it has in `a0`. -/
def otherFieldsUnchanged {F : Type} (a0 a : Args F) : Prop :=
  a.embeddingVecSize = a0.embeddingVecSize ∧ a.topKMovies = a0.topKMovies ∧
  a.numMoviesPerUser = a0.numMoviesPerUser ∧ a.weightFile = a0.weightFile ∧
  a.ratingInputFile = a0.ratingInputFile ∧ a.uffFile = a0.uffFile ∧
  a.engineFile = a0.engineFile ∧ a.enableFP16 = a0.enableFP16 ∧
  a.enablePerf = a0.enablePerf ∧ a.success = a0.success ∧
  a.userToItemsMap = a0.userToItemsMap ∧
  a.userToExpectedItemProbMap = a0.userToExpectedItemProbMap ∧
  a.device = a0.device ∧ a.pargsVec = a0.pargsVec

/-! ## Part 3: the ratings file

`std::ifstream` is the list of the bytes not yet read with the stream's `eofbit` and
`failbit`.  A position or count of type `size_t` that may be `npos` or a wrapped
difference is an `Option Nat`: `none` stands for a value no string is long enough to
reach (`npos = 2^64 - 1`, `npos - 1`, or `n - k` computed modulo `2^64` with `n < k`).
Strings are shorter than `2^64 - 2`, so `npos + 1 = 0` and `npos + 2 = 1` are the only
sums that wrap. -/

/-- `std::ifstream` after `open`. -/
structure IFStream where
  data : Str
  eof : Bool
  fail : Bool
  deriving DecidableEq, Repr

/-- `file.open(name)`: `content` is what the file holds, `none` when it cannot be
opened (the stream then has `failbit` set). -/
def IFStream.ofFile (content : Option Str) : IFStream :=
  match content with
  | some d => { data := d, eof := false, fail := false }
  | none => { data := [], eof := false, fail := true }

/-- `std::getline(file, line)`: the stream, the string and whether the call succeeded.
A stream that is not good sets `failbit` and leaves the string alone; otherwise the
string is erased and filled up to the next newline, which is consumed; reaching the
end of the data sets `eofbit`, and `failbit` too when nothing was read. -/
def getline (file : IFStream) (line : Str) : IFStream × Str × Bool :=
  if file.eof || file.fail then ({ file with fail := true }, line, false)
  else
    let l := file.data.takeWhile (fun c => c != '\n')
    match file.data.dropWhile (fun c => c != '\n') with
    | _ :: rest => ({ file with data := rest }, l, true)
    | [] =>
      if l.isEmpty then ({ data := [], eof := true, fail := true }, [], false)
      else ({ data := [], eof := true, fail := false }, l, true)

/-- `s.find(c)`: `none` is `npos`. -/
def find : Str → Char → Option Nat
  | [], _ => none
  | x :: xs, c => if x = c then some 0 else (find xs c).map fun p => p + 1

/-- `pos + 1` in `size_t`. -/
def posPlus1 (pos : Option Nat) : Nat :=
  match pos with
  | some p => p + 1
  | none => 0

/-- `pos + 2` in `size_t`. -/
def posPlus2 (pos : Option Nat) : Nat :=
  match pos with
  | some p => p + 2
  | none => 1

/-- `pos - 1` in `size_t`. -/
def posMinus1 (pos : Option Nat) : Option Nat :=
  match pos with
  | some (p + 1) => some p
  | some 0 => none
  | none => none

/-- `n - k` in `size_t`. -/
def sizeMinus (n k : Nat) : Option Nat :=
  if k ≤ n then some (n - k) else none

/-- `s.substr(pos, n)`: `out_of_range` when `pos > s.size()`. -/
def substr (s : Str) (pos : Nat) (n : Option Nat) : Except Exc Str :=
  if s.length < pos then .error .out_of_range
  else match n with
    | some k => .ok ((s.drop pos).take k)
    | none => .ok (s.drop pos)

/-- `readNextLine` (lines 228-235). -/
def readNextLine (file : IFStream) (delim : Char) : Except Exc (IFStream × Str) :=
  let r := getline file []
  match substr r.2.1 (posPlus1 (find r.2.1 delim)) none with
  | .ok line => .ok (r.1, line)
  | .error e => .error e

/-- `ss >> i` on the characters left in the string stream: white space is skipped,
then the characters up to the next white space are extracted; `none` when only white
space is left. -/
def extract (ss : Str) : Option (Str × Str) :=
  let s := ss.dropWhile isspace
  if s.isEmpty then none
  else some (s.takeWhile (fun c => !isspace c), s.dropWhile (fun c => !isspace c))

/-- The two statements `if (ss.peek() == ',' || ss.peek() == ' ') ss.ignore();`. -/
def peekIgnore (ss : Str) : Str :=
  match ss with
  | c :: rest => if c = ',' ∨ c = ' ' then rest else ss
  | [] => []

/-- The loop `while (ss >> i) ...` of `readInputSample` (lines 249-255).  Every round
extracts at least one character, so `ss.length + 1` rounds of `fuel` are enough; the
result at `fuel = 0` is never used. -/
def readItems : Nat → Str → List Int → Except Exc (List Int)
  | 0, _, allItems => .ok allItems
  | fuel + 1, ss, allItems =>
    match extract ss with
    | none => .ok allItems
    | some (i, ss1) =>
      match substr i 0 (sizeMinus i.length 1) with
      | .error e => .error e
      | .ok i1 =>
        match stoi i1 with
        | .error e => .error e
        | .ok v => readItems fuel (peekIgnore ss1) (allItems ++ [v])

/-- The loop `for (int i = 0; i < 10; ++i)` of `readInputSample` (lines 270-277), with
`n` rounds to go. -/
def readTopRatings {F : Type} (stof : Str → Except Exc F) :
    Nat → IFStream → Str → List (Int × F) → Except Exc (IFStream × List (Int × F))
  | 0, file, _, vec => .ok (file, vec)
  | n + 1, file, line, vec =>
    match substr line 0 (posMinus1 (find line ':')) with
    | .error e => .error e
    | .ok s1 =>
      match stoi s1 with
      | .error e => .error e
      | .ok item =>
        match substr line (posPlus2 (find line ':')) none with
        | .error e => .error e
        | .ok s2 =>
          match stof s2 with
          | .error e => .error e
          | .ok prob =>
            let r := getline file line
            readTopRatings stof n r.1 r.2.1 (vec ++ [(item, prob)])

/-- `readInputSample` (lines 237-278).  `allItems` and `itemProbPairVec` are the two
vectors of the `pargs` passed in (the function appends to them); its other fields are
only assigned.  The result is the stream and `pargs` as the function leaves them. -/
def readInputSample {F : Type} (stof : Str → Except Exc F) (file : IFStream)
    (allItems : List Int) (itemProbPairVec : List (Int × F)) (line : Str) :
    Except Exc (IFStream × OutputArgs F) := do
  let line1 ← substr line (posPlus1 (find line ':')) none
  let userId ← stoi line1
  let (file, items) ← readNextLine file ':'
  let items ← substr items 2 (sizeMinus items.length 2)
  let allItems ← readItems (items.length + 1) items allItems
  let (file, s) ← readNextLine file ':'
  let expectedPredictedMaxRatingItem ← stoi s
  let (file, prob) ← readNextLine file ':'
  let prob ← substr prob 2 (sizeMinus prob.length 3)
  let expectedPredictedMaxRatingItemProb ← stof prob
  let r := getline file line1
  let r := getline r.1 r.2.1
  let (file, itemProbPairVec) ← readTopRatings stof 10 r.1 r.2.1 itemProbPairVec
  pure (file,
    { userId := userId
      expectedPredictedMaxRatingItem := expectedPredictedMaxRatingItem
      expectedPredictedMaxRatingItemProb := expectedPredictedMaxRatingItemProb
      allItems := allItems
      itemProbPairVec := itemProbPairVec })

/-- `m[key] = value` on a `std::map`: the pair with that key is replaced, or the new
pair is inserted at its place in the key order. -/
def mapSet {V : Type} (key : Int) (value : V) : List (Int × V) → List (Int × V)
  | [] => [(key, value)]
  | (k, v) :: m =>
    if key < k then (key, value) :: (k, v) :: m
    else if key = k then (key, value) :: m
    else (k, v) :: mapSet key value m

/-- `m.at(key)`: `out_of_range` when the key is absent. -/
def mapAt {V : Type} (m : List (Int × V)) (key : Int) : Except Exc V :=
  match m.find? fun kv => kv.1 == key with
  | some kv => .ok kv.2
  | none => .error .out_of_range

/-- `v.at(i)` on a `std::vector` with `i` converted from `int` to `size_t`:
`out_of_range` when the index is negative (a huge `size_t`) or not below the size. -/
def vecAt {V : Type} (v : List V) (i : Int) : Except Exc V :=
  if i < 0 then .error .out_of_range
  else match v.get? i.toNat with
    | some x => .ok x
    | none => .error .out_of_range

/-- The loop of `parseMovieLensData` (lines 286-300): the stream, `userIdx` and `args`
when it ends.  The printing under `enableVerbose` is left out.  `userIdx` grows by one
per round up to `args.numUsers`, so `numUsers + 1` rounds of `fuel` are enough; the
result at `fuel = 0` is never used. -/
def parseLoop {F : Type} (stof : Str → Except Exc F) :
    Nat → IFStream → Str → Int → Args F → Except Exc (IFStream × Int × Args F)
  | 0, file, _, userIdx, args => .ok (file, userIdx, args)
  | fuel + 1, file, line, userIdx, args =>
    let r := getline file line
    if r.2.2 && decide (userIdx < args.numUsers) then
      match readInputSample stof r.1 [] [] r.2.1 with
      | .error e => .error e
      | .ok (file1, pargs) =>
        parseLoop stof fuel file1 r.2.1 (userIdx + 1)
          { args with
            pargsVec := args.pargsVec ++ [pargs]
            userToItemsMap := mapSet userIdx pargs.allItems args.userToItemsMap
            userToExpectedItemProbMap :=
              mapSet userIdx pargs.itemProbPairVec args.userToExpectedItemProbMap }
    else .ok (r.1, userIdx, args)

/-- How a call of `parseMovieLensData` ends. -/
inductive ParseDataResult (F : Type) where
  | returned (args : Args F)
  /-- `assert(args.numUsers == userIdx)` failed with this `userIdx` -/
  | assertFailed (userIdx : Int)
  | threw (e : Exc)
  deriving DecidableEq, Repr

/-- `parseMovieLensData` (lines 280-304); `content` is what the ratings file holds. -/
def parseMovieLensData {F : Type} (stof : Str → Except Exc F) (content : Option Str)
    (args : Args F) : ParseDataResult F :=
  match parseLoop stof (args.numUsers.toNat + 1) (IFStream.ofFile content) [] 0 args with
  | .error e => .threw e
  | .ok (_, userIdx, args1) =>
    if args1.numUsers = userIdx then .returned args1 else .assertFailed userIdx

/-! ### The words of the claims about the ratings file -/

/-- A decimal numeral of a non-negative `int`: digits only, at least one, value at most
`2^31 - 1`. -/
def isNumeral (s : Str) : Bool :=
  !s.isEmpty && s.all Char.isDigit && decide (digitsVal s ≤ 2147483647)

/-- The text of one record of the ratings file: the numerals and the floating-point
texts as they stand in the file, the two labels, the skipped line and the trailing
line. -/
structure RecordText where
  user : Str
  items : List Str
  itemLabel : Str
  maxItem : Str
  probLabel : Str
  maxProb : Str
  skipped : Str
  top : List (Str × Str)
  trailer : Str
  deriving DecidableEq, Repr

/-- The items as they stand between "[" and the end of the items line:
`a1, a2, ..., an]`. -/
def joinItems : List Str → Str
  | [] => [']']
  | a :: rest =>
    match rest with
    | [] => a ++ [']']
    | _ :: _ => a ++ [',', ' '] ++ joinItems rest

/-- The lines `item : prob`, each with its newline. -/
def topLines : List (Str × Str) → Str
  | [] => []
  | p :: rest => p.1 ++ " : ".toList ++ p.2 ++ ['\n'] ++ topLines rest

/-- The header line "user : u" (without its newline). -/
def RecordText.header (r : RecordText) : Str := "user : ".toList ++ r.user

/-- The 15 lines after the header, each with its newline. -/
def RecordText.body (r : RecordText) : Str :=
  "items : [".toList ++ joinItems r.items ++ ['\n'] ++
  (r.itemLabel ++ " : ".toList ++ r.maxItem ++ ['\n']) ++
  (r.probLabel ++ " : [".toList ++ r.maxProb ++ [']', '\n']) ++
  (r.skipped ++ ['\n']) ++
  topLines r.top ++
  (r.trailer ++ ['\n'])

/-- The 16 lines of a record. -/
def RecordText.text (r : RecordText) : Str := r.header ++ ['\n'] ++ r.body

/-- The text of a file that holds these records and nothing else. -/
def fileText : List RecordText → Str
  | [] => []
  | r :: rest => r.text ++ fileText rest

/-- A well-formed record: numerals where the reader calls `stoi`, at least one item,
floating-point texts that `stof` accepts, ten `item : prob` lines, labels without ':',
and no newline inside a line. -/
def RecordText.wellFormed {F : Type} (stof : Str → Except Exc F) (r : RecordText) : Bool :=
  isNumeral r.user && !r.items.isEmpty && r.items.all isNumeral &&
  !r.itemLabel.contains ':' && !r.itemLabel.contains '\n' && isNumeral r.maxItem &&
  !r.probLabel.contains ':' && !r.probLabel.contains '\n' &&
  !r.maxProb.contains '\n' && (stof r.maxProb).isOk &&
  !r.skipped.contains '\n' && decide (r.top.length = 10) &&
  r.top.all (fun p => isNumeral p.1 && !p.2.contains '\n' && (stof p.2).isOk) &&
  !r.trailer.contains '\n'

/-- The `(item, prob)` pairs that the ten lines stand for. -/
def topPairs {F : Type} (stof : Str → Except Exc F) : List (Str × Str) → List (Int × F)
  | [] => []
  | p :: rest =>
    match stof p.2 with
    | .ok v => ((digitsVal p.1 : Int), v) :: topPairs stof rest
    | .error _ => topPairs stof rest

/-- The `OutputArgs` that a record stands for, when `stof` accepts its `maxProb`. -/
def RecordText.parsed {F : Type} (stof : Str → Except Exc F) (r : RecordText) :
    Option (OutputArgs F) :=
  match stof r.maxProb with
  | .ok v =>
    some { userId := digitsVal r.user
           expectedPredictedMaxRatingItem := digitsVal r.maxItem
           expectedPredictedMaxRatingItemProb := v
           allItems := r.items.map fun a => (digitsVal a : Int)
           itemProbPairVec := topPairs stof r.top }
  | .error _ => none

/-- The tables after the records have been stored from position `userIdx` on: each
record is appended to `pargsVec` and entered in the two maps under its position. -/
def storeRecords {F : Type} (stof : Str → Except Exc F) :
    List RecordText → Int → Args F → Args F
  | [], _, args => args
  | r :: rest, userIdx, args =>
    match r.parsed stof with
    | some pargs =>
      storeRecords stof rest (userIdx + 1)
        { args with
          pargsVec := args.pargsVec ++ [pargs]
          userToItemsMap := mapSet userIdx pargs.allItems args.userToItemsMap
          userToExpectedItemProbMap :=
            mapSet userIdx pargs.itemProbPairVec args.userToExpectedItemProbMap }
    | none => storeRecords stof rest userIdx args

/-- A stand-in for `std::stof` in examples: it accepts every non-empty text and
returns the text itself. -/
def stofText (s : Str) : Except Exc Str :=
  if s.isEmpty then .error .invalid_argument else .ok s

/-- A record in which user 1 stands first. -/
def recordA : RecordText :=
  { user := "1".toList
    items := ["12".toList, "7".toList, "305".toList]
    itemLabel := "expected max rating item".toList
    maxItem := "7".toList
    probLabel := "expected max rating prob".toList
    maxProb := "0.9".toList
    skipped := "top ratings".toList
    top := [("7".toList, "0.9".toList), ("12".toList, "0.8".toList),
            ("305".toList, "0.7".toList), ("1".toList, "0.6".toList),
            ("2".toList, "0.5".toList), ("3".toList, "0.4".toList),
            ("4".toList, "0.3".toList), ("5".toList, "0.2".toList),
            ("6".toList, "0.1".toList), ("8".toList, "0.05".toList)]
    trailer := [] }

/-- A record of user 0. -/
def recordB : RecordText :=
  { user := "0".toList
    items := ["4".toList, "5".toList, "6".toList]
    itemLabel := "expected max rating item".toList
    maxItem := "5".toList
    probLabel := "expected max rating prob".toList
    maxProb := "0.5".toList
    skipped := "top ratings".toList
    top := [("5".toList, "0.5".toList), ("4".toList, "0.4".toList),
            ("6".toList, "0.3".toList), ("1".toList, "0.2".toList),
            ("2".toList, "0.1".toList), ("3".toList, "0.1".toList),
            ("7".toList, "0.1".toList), ("8".toList, "0.1".toList),
            ("9".toList, "0.1".toList), ("10".toList, "0.1".toList)]
    trailer := [] }

/-! ## Part 4: the input buffers of a worker and the printed comparison -/

/-- How a computation on raw buffers fails: an exception, or an access outside a
buffer through an unchecked `operator[]` or pointer (undefined behaviour). -/
inductive Fault where
  | threw (e : Exc)
  | undefined
  deriving DecidableEq, Repr

/-- Conversion of an `int` to `uint32_t`. -/
def toUInt32 (n : Int) : Nat := (n % 4294967296).toNat

/-- Conversion of an `int` to `size_t`. -/
def toSizeT (n : Int) : Nat := (n % 18446744073709551616).toNat

/-- The number of elements of `userInput` and of `itemInput` (lines 532-533):
`args.numUsers * args.numMoviesPerUser` computed in `int`, converted to `size_t` and
multiplied by `sizeof(float)`. -/
def inputLength {F : Type} (args : Args F) : Nat :=
  (toSizeT (toInt32 (args.numUsers * args.numMoviesPerUser)) * 4) % 18446744073709551616

/-- `v[idx] = x` on a `std::vector<uint32_t>` with `int idx`: no bounds check. -/
def setU32 (v : List Nat) (idx : Int) (x : Int) : Except Fault (List Nat) :=
  if 0 ≤ idx ∧ idx.toNat < v.length then .ok (v.set idx.toNat (toUInt32 x))
  else .error .undefined

/-- The loop `for (int k = 0; k < args.numMoviesPerUser; ++k)` of line 537 from `k`
on, with `rounds = numMoviesPerUser - k` rounds to go. -/
def fillRow {F : Type} (args : Args F) (i : Int) :
    Nat → Int → List Nat × List Nat → Except Fault (List Nat × List Nat)
  | 0, _, bufs => .ok bufs
  | rounds + 1, k, bufs =>
    let idx := toInt32 (i * args.numMoviesPerUser + k)
    match (if i < 0 then none else args.pargsVec.get? i.toNat) with
    | none => .error .undefined
    | some pargs =>
      match setU32 bufs.1 idx pargs.userId with
      | .error f => .error f
      | .ok userInput =>
        match vecAt pargs.allItems k with
        | .error e => .error (.threw e)
        | .ok item =>
          match setU32 bufs.2 idx item with
          | .error f => .error f
          | .ok itemInput => fillRow args i rounds (k + 1) (userInput, itemInput)

/-- The loop `for (int i = 0; i < args.numUsers; ++i)` of line 535 from `i` on, with
`rounds = numUsers - i` rounds to go. -/
def fillRows {F : Type} (args : Args F) :
    Nat → Int → List Nat × List Nat → Except Fault (List Nat × List Nat)
  | 0, _, bufs => .ok bufs
  | rounds + 1, i, bufs =>
    match fillRow args i args.numMoviesPerUser.toNat 0 bufs with
    | .error f => .error f
    | .ok bufs1 => fillRows args rounds (i + 1) bufs1

/-- Lines 532-543 of the worker branch: the two vectors are created with
`inputLength` zeros (`length_error` beyond `max_size()`), then filled. -/
def fillInputs {F : Type} (args : Args F) : Except Fault (List Nat × List Nat) :=
  if 2305843009213693951 < inputLength args then .error (.threw .length_error)
  else
    fillRows args args.numUsers.toNat 0
      (List.replicate (inputLength args) 0, List.replicate (inputLength args) 0)

/-- A line written by `printInferenceOutput`: the line of a user when
`enableVerbose` is off, or a line of the table when it is on. -/
inductive Printed (F : Type) where
  | user (userIdx maxExpectedItem maxPredictedItem : Int)
  | entry (userIdx predictedItem : Int) (expectedProb predictedProb : F)
  deriving DecidableEq, Repr

/-- `p[i]` through a raw pointer into a buffer: no bounds check. -/
def rawAt {V : Type} (buf : List V) (i : Int) : Except Fault V :=
  if i < 0 then .error .undefined
  else match buf.get? i.toNat with
    | some x => .ok x
    | none => .error .undefined

/-- An exception of a library call as a fault. -/
def orThrow {V : Type} (x : Except Exc V) : Except Fault V :=
  match x with
  | .ok v => .ok v
  | .error e => .error (.threw e)

/-- The loop `for (int k = 0; k < args.topKMovies; ++k)` of line 338 from `k` on,
with `rounds` rounds to go. -/
def printEntries {F : Type} (args : Args F) (topKItemNumber : List Nat)
    (topKItemProb : List F) (i userIdx : Int) :
    Nat → Int → List (Printed F) → Except Fault (List (Printed F))
  | 0, _, out => .ok out
  | rounds + 1, k, out => do
    let predictedIdx ← rawAt topKItemNumber (toInt32 (i * args.topKMovies + k))
    let predictedProb ← rawAt topKItemProb (toInt32 (i * args.topKMovies + k))
    let probs ← orThrow (mapAt args.userToExpectedItemProbMap userIdx)
    let expected ← orThrow (vecAt probs k)
    let items ← orThrow (mapAt args.userToItemsMap userIdx)
    let predictedItem ← orThrow (vecAt items (toInt32 predictedIdx))
    printEntries args topKItemNumber topKItemProb i userIdx rounds (k + 1)
      (out ++ [.entry userIdx predictedItem expected.2 predictedProb])

/-- The loop `for (int i = 0; i < args.numUsers; ++i)` of `printInferenceOutput`
(lines 325-347) from `i` on, with `rounds` rounds to go: the lines it writes. -/
def printUsers {F : Type} (args : Args F) (userInput topKItemNumber : List Nat)
    (topKItemProb : List F) :
    Nat → Int → List (Printed F) → Except Fault (List (Printed F))
  | 0, _, out => .ok out
  | rounds + 1, i, out => do
    let userIdx ← rawAt userInput (toInt32 (i * args.numMoviesPerUser))
    let maxPredictedIdx ← rawAt topKItemNumber (toInt32 (i * args.topKMovies))
    let probs ← orThrow (mapAt args.userToExpectedItemProbMap (toInt32 userIdx))
    let maxExpected ← orThrow (vecAt probs 0)
    let items ← orThrow (mapAt args.userToItemsMap (toInt32 userIdx))
    let maxPredictedItem ← orThrow (vecAt items (toInt32 maxPredictedIdx))
    if args.enableVerbose then
      let out1 ← printEntries args topKItemNumber topKItemProb i (toInt32 userIdx)
        args.topKMovies.toNat 0 out
      printUsers args userInput topKItemNumber topKItemProb rounds (i + 1) out1
    else
      printUsers args userInput topKItemNumber topKItemProb rounds (i + 1)
        (out ++ [.user (toInt32 userIdx) maxExpected.1 maxPredictedItem])

/-- `printInferenceOutput<uint32_t, float>` (lines 306-348): the lines of the loop
over the users. -/
def printInferenceOutput {F : Type} (args : Args F) (userInput topKItemNumber : List Nat)
    (topKItemProb : List F) : Except Fault (List (Printed F)) :=
  printUsers args userInput topKItemNumber topKItemProb args.numUsers.toNat 0 []

/-- A record with the given user id and first expected item, and the 100 items
`base + 1, ..., base + 100`. -/
def recordOf (user firstItem : Str) (base : Nat) : RecordText :=
  { recordA with
    user := user
    items := (List.range 100).map fun i => (Nat.repr (base + i + 1)).toList
    maxItem := firstItem
    top := (firstItem, "0.9".toList) :: recordA.top.tail }

/-- A ratings file of two records in which the user ids do not follow the positions:
user 1 stands first, user 0 second. -/
def swappedFile : Str := fileText [recordOf "1".toList "7".toList 0, recordOf "0".toList "5".toList 500]

/-- What a worker of `main` prints for its batch: the ratings file is parsed
(line 472), the input buffers are filled (lines 532-543), and `printInferenceOutput`
is called on `userInput` and on the two output buffers of the network (line 452). -/
def workerReport {F : Type} (stof : Str → Except Exc F) (content : Option Str)
    (args : Args F) (topKItemNumber : List Nat) (topKItemProb : List F) :
    Except Fault (List (Printed F)) :=
  match parseMovieLensData stof content args with
  | .returned args1 =>
    match fillInputs args1 with
    | .ok bufs => printInferenceOutput args1 bufs.1 topKItemNumber topKItemProb
    | .error f => .error f
  | .assertFailed _ => .error .undefined
  | .threw e => .error (.threw e)

/-- The value `userInput` holds at position `j` after the fill: the user id of
record `j / m` as a `uint32_t`. -/
def userAt {F : Type} (args : Args F) (m : Nat) (j : Nat) : Nat :=
  match args.pargsVec.get? (j / m) with
  | some p => toUInt32 p.userId
  | none => 0

/-- The value `itemInput` holds at position `j` after the fill: item `j % m` of
record `j / m` as a `uint32_t`. -/
def itemAt {F : Type} (args : Args F) (m : Nat) (j : Nat) : Nat :=
  match args.pargsVec.get? (j / m) with
  | some p =>
    match p.allItems.get? (j % m) with
    | some x => toUInt32 x
    | none => 0
  | none => 0

/-- A buffer of `len` elements whose first `c` hold the values of `f` and whose
others are 0. -/
def bufUpTo (len c : Nat) (f : Nat → Nat) : List Nat :=
  (List.range len).map fun j => if j < c then f j else 0

/-- Two parsed records of three items each, for `numMoviesPerUser = m`. -/
def twoRecords (m : Int) : Args Unit :=
  { numUsers := 2, numMoviesPerUser := m,
    pargsVec := [⟨1, 7, (), [12, 7, 305], []⟩, ⟨0, 5, (), [4, 5, 6], []⟩] }

/-- Arguments with 21474837 users, each parsed record with 100 items (and
`numMoviesPerUser` at its default 100): the product of the two is 2147483700, above
the largest `int`. -/
def manyUsers : Args Unit :=
  { numUsers := 21474837
    pargsVec := List.replicate 21474837 ⟨0, 0, (), List.replicate 100 0, []⟩ }

/-! ## Part 5: the size of the published segment -/

/-- The program points of the parent up to and including the copy into the segment
(lines 485-524). -/
def Pc.beforePublish : Pc → Bool
  | .forkLoop _ => true
  | .forkTest _ => true
  | .afterLoop => true
  | .build => true
  | .shmCreate _ => true
  | .publish _ => true
  | _ => false

/-- Until the parent has copied the serialized engine, the segment is as `shm_open`
with `O_CREAT` creates it: nothing is published and its size is 0. -/
def Fresh (w : World) : Prop :=
  ∀ p, w.procs[0]? = some p → p.pc.beforePublish = true →
    ¬Published w.trace ∧ w.shmSize = 0

/-- The parent is about to publish `s` bytes (it is at line 521 with
`modelStreamSize = s`), or it has published them and the segment has that size. -/
def Publishes (s : Nat) (w : World) : Prop :=
  (∃ p, w.procs[0]? = some p ∧ p.pc = .publish s) ∨ (Published w.trace ∧ w.shmSize = s)

/-- A schedule for one worker in which the serialized engine has `s` bytes: the
parent forks, the worker fills its buffers and reaches `sem_wait`, the parent builds,
publishes and posts, and the worker runs up to its `fstat` (lines 553-557). -/
def schedSize (s : Int) : List Action :=
  [⟨0, 11⟩, ⟨0, 0⟩, ⟨0, 0⟩, ⟨0, 0⟩,
   ⟨1, 0⟩, ⟨1, 0⟩, ⟨1, 0⟩,
   ⟨0, s⟩, ⟨0, 3⟩, ⟨0, 0⟩, ⟨0, 0⟩,
   ⟨1, 0⟩, ⟨1, 3⟩]

/-! ## Part 6: the two copies of the ground truth -/

/-- The two copies agree on the first `k` positions: `pargsVec` has `k` entries and
entry `i` holds the vectors stored under key `i` in the two maps. -/
def TablesAgree {F : Type} (k : Nat) (args : Args F) : Prop :=
  args.pargsVec.length = k ∧
  ∀ i, i < k → ∃ pargs, args.pargsVec[i]? = some pargs ∧
    mapAt args.userToItemsMap (i : Int) = .ok pargs.allItems ∧
    mapAt args.userToExpectedItemProbMap (i : Int) = .ok pargs.itemProbPairVec

/-! ## Part 7: records with signed numbers

`std::stoi` reads a sign, so the numbers of a record may be negative.  The texts
below are the decimal numerals of all `int` values. -/

/-- A decimal numeral of an `int`: a numeral of a non-negative `int`, or "-" followed
by digits whose value is at most `2^31`. -/
def isIntText (s : Str) : Bool :=
  match s with
  | '-' :: d => !d.isEmpty && d.all Char.isDigit && decide (digitsVal d ≤ 2147483648)
  | _ => isNumeral s

/-- The `int` a decimal numeral stands for. -/
def intVal (s : Str) : Int :=
  match s with
  | '-' :: d => -(digitsVal d : Int)
  | _ => (digitsVal s : Int)

/-- A record of the fixed format: as `RecordText.wellFormed`, with signed numerals
where the reader calls `stoi`. -/
def RecordText.wellFormedInt {F : Type} (stof : Str → Except Exc F) (r : RecordText) :
    Bool :=
  isIntText r.user && !r.items.isEmpty && r.items.all isIntText &&
  !r.itemLabel.contains ':' && !r.itemLabel.contains '\n' && isIntText r.maxItem &&
  !r.probLabel.contains ':' && !r.probLabel.contains '\n' &&
  !r.maxProb.contains '\n' && (stof r.maxProb).isOk &&
  !r.skipped.contains '\n' && decide (r.top.length = 10) &&
  r.top.all (fun p => isIntText p.1 && !p.2.contains '\n' && (stof p.2).isOk) &&
  !r.trailer.contains '\n'

/-- The `(item, prob)` pairs that lines `item : prob` with signed items stand for. -/
def topPairsInt {F : Type} (stof : Str → Except Exc F) :
    List (Str × Str) → List (Int × F)
  | [] => []
  | p :: rest =>
    match stof p.2 with
    | .ok v => (intVal p.1, v) :: topPairsInt stof rest
    | .error _ => topPairsInt stof rest

/-- A record with negative numbers: user -3 and item -12. -/
def recordC : RecordText :=
  { user := "-3".toList
    items := ["-12".toList, "7".toList, "305".toList]
    itemLabel := "expected max rating item".toList
    maxItem := "-12".toList
    probLabel := "expected max rating prob".toList
    maxProb := "0.9".toList
    skipped := "top ratings".toList
    top := [("-12".toList, "0.9".toList), ("7".toList, "0.8".toList),
            ("305".toList, "0.7".toList), ("1".toList, "0.6".toList),
            ("2".toList, "0.5".toList), ("3".toList, "0.4".toList),
            ("4".toList, "0.3".toList), ("5".toList, "0.2".toList),
            ("6".toList, "0.1".toList), ("8".toList, "0.05".toList)]
    trailer := [] }

/-! ## Part 8: files with a cut record -/

/-- The entries of `pargsVec` when `parseMovieLensData` returned (its assertion
held). -/
def ParseDataResult.entries {F : Type} : ParseDataResult F → Option (List (OutputArgs F))
  | .returned a => some a.pargsVec
  | .assertFailed _ => none
  | .threw _ => none

/-- A ratings file of the whole record `recordA` and the first 108 characters of
`recordB`: its first six lines, the last of them (the first line "item : prob")
without its newline. -/
def cutFile : Str := fileText [recordA] ++ recordB.text.take 108

/-- A ratings file of the whole record `recordA` and an empty line. -/
def blankLineFile : Str := fileText [recordA] ++ ['\n']

/-! # Theorems -/

theorem published_cons (e : Event) (t : List Event) :
    Published (e :: t) ↔ e = .memcpy 0 ∨ Published t := by
  unfold Published
  rw [List.mem_cons]
  constructor
  · rintro (h | h)
    · exact Or.inl h.symm
    · exact Or.inr h
  · rintro (h | h)
    · exact Or.inl h.symm
    · exact Or.inr h

theorem count_cons_other (e a : Event) (t : List Event) (h : e ≠ a) :
    (e :: t).count a = t.count a := by
  simp [List.count_cons, h]

theorem ProcOk.frame {nb : Int} {n : Nat} {t : List Event} {i : Nat} {p : Proc}
    (h : ProcOk nb n t i p) (e : Event) (he : e.proc ≠ i) (n' : Nat) (hn : i = 0 → n' = n) :
    ProcOk nb n' (e :: t) i p := by
  have h1 : e ≠ .semPost i := by rintro rfl; exact he rfl
  have h2 : e ≠ .semWait i := by rintro rfl; exact he rfl
  have h3 : e ≠ .wait i := by rintro rfl; exact he rfl
  have h4 : e ≠ .shmUnlink i := by rintro rfl; exact he rfl
  have h5 : e ≠ .semUnlink i := by rintro rfl; exact he rfl
  obtain ⟨ha, hb, hb', hc⟩ := h
  refine ⟨ha, hb, hb', ?_⟩
  by_cases hi : i = 0
  · subst hi
    obtain rfl := hn rfl
    cases hpc : p.pc <;> simp only [hpc] at hc ⊢ <;>
      simp only [count_cons_other _ _ _ h1, count_cons_other _ _ _ h2,
        count_cons_other _ _ _ h3, count_cons_other _ _ _ h4, count_cons_other _ _ _ h5,
        published_cons, List.mem_cons] <;> simp_all
  · cases hpc : p.pc <;> simp only [hpc] at hc ⊢ <;>
      simp only [count_cons_other _ _ _ h1, count_cons_other _ _ _ h2,
        count_cons_other _ _ _ h3, count_cons_other _ _ _ h4, count_cons_other _ _ _ h5,
        published_cons, List.mem_cons] <;> simp_all

theorem Ordered.cons {nb : Int} {t : List Event} (h : Ordered nb t) {e : Event}
    (he : EventOk nb e t) : Ordered nb (e :: t) := by
  intro post e' pre heq
  rcases List.cons_eq_append_iff.mp heq with ⟨rfl, h2⟩ | ⟨post', rfl, h2⟩
  · cases h2
    exact he
  · exact h post' e' pre h2

theorem passes_cons (e : Event) (t : List Event) :
    passes (e :: t) = passes t + (match e with | .semWait _ => 1 | _ => 0) := by
  unfold passes
  cases e <;> simp [List.countP_cons]

theorem posts_cons (e : Event) (t : List Event) :
    posts (e :: t) = posts t + (match e with | .semPost _ => 1 | _ => 0) := by
  unfold posts
  cases e <;> simp [List.countP_cons]

theorem Inv.of_step0 {w : World} (h : Inv w) {a : Nat} {p' : Proc} (w1 : World)
    (hnb : w1.nbProcesses = w.nbProcesses) (hprocs : w1.procs = w.procs.set a p')
    (ht : w1.trace = w.trace) (hsem : w1.sem = w.sem)
    (hp' : ProcOk w.nbProcesses w.procs.length w.trace a p') : Inv w1 := by
  refine ⟨hnb ▸ h.nb_nonneg, ?_, ?_, ?_, ?_⟩
  · intro i q hq
    rw [hprocs, List.getElem?_set] at hq
    rw [hnb, hprocs, ht, List.length_set]
    split at hq
    · next hia =>
      subst hia
      split at hq
      · cases hq; exact hp'
      · cases hq
    · exact h.procs_ok i q hq
  · rw [ht, hsem]; exact h.sem_eq
  · rw [ht, hnb]; exact h.ordered
  · rw [ht, hprocs, List.length_set]; exact h.bound

theorem Inv.of_step1 {w : World} (h : Inv w) {a : Nat} {p' : Proc} (w1 : World)
    (hnb : w1.nbProcesses = w.nbProcesses) (hprocs : w1.procs = w.procs.set a p')
    {e : Event} (ht : w1.trace = e :: w.trace) (he : e.proc = a) (ha : a < w.procs.length)
    (hsem : w1.sem + passes (e :: w.trace) = posts (e :: w.trace))
    (hev : EventOk w.nbProcesses e w.trace)
    (hp' : ProcOk w.nbProcesses w.procs.length (e :: w.trace) a p') : Inv w1 := by
  refine ⟨hnb ▸ h.nb_nonneg, ?_, ?_, ?_, ?_⟩
  · intro i q hq
    rw [hprocs, List.getElem?_set] at hq
    rw [hnb, hprocs, ht, List.length_set]
    split at hq
    · next hia =>
      subst hia
      cases hq; exact hp'
    · next hia =>
      exact (h.procs_ok i q hq).frame e (by rw [he]; exact hia) _ (fun _ => rfl)
  · rw [ht]; exact hsem
  · rw [ht, hnb]; exact h.ordered.cons hev
  · rw [ht, hprocs, List.length_set]
    intro e' he'
    rcases List.mem_cons.mp he' with rfl | h'
    · rw [he]; exact ha
    · exact h.bound e' h'

theorem reap_nb (w : World) (q : Nat) : (w.reap q).nbProcesses = w.nbProcesses := by
  unfold World.reap; split <;> rfl

theorem reap_trace (w : World) (q : Nat) : (w.reap q).trace = w.trace := by
  unfold World.reap; split <;> rfl

theorem reap_sem (w : World) (q : Nat) : (w.reap q).sem = w.sem := by
  unfold World.reap; split <;> rfl

theorem reap_length (w : World) (q : Nat) : (w.reap q).procs.length = w.procs.length := by
  unfold World.reap; split <;> simp

theorem Inv.reap {w : World} (h : Inv w) (q : Nat) : Inv (w.reap q) := by
  unfold World.reap
  split
  · next c hc => exact h.of_step0 _ rfl rfl rfl rfl (h.procs_ok q c hc)
  · exact h

theorem count_eq_zero_of_bound {t : List Event} {n : Nat} (h : ∀ e ∈ t, e.proc < n)
    (a : Event) (ha : a.proc = n) : t.count a = 0 := by
  rw [List.count_eq_zero]
  intro hmem
  have := h a hmem
  omega

theorem published_of_posts_pos {nb : Int} {t : List Event} (h : Ordered nb t)
    (hp : 0 < posts t) : Published t := by
  unfold posts at hp
  obtain ⟨e, he, hb⟩ := List.countP_pos_iff.mp hp
  obtain ⟨post, pre, rfl⟩ := List.append_of_mem he
  have hok := h post e pre rfl
  cases e <;> simp at hb
  exact List.mem_append_right _ (List.mem_cons_of_mem _ hok.2)

theorem mem_of_count_eq_one {t : List Event} {e : Event} (h : t.count e = 1) : e ∈ t :=
  List.count_pos_iff.mp (by omega)

theorem not_mem_of_count_eq_zero {t : List Event} {e : Event} (h : t.count e = 0) : e ∉ t :=
  List.count_eq_zero.mp h

theorem Inv.of_fork {w : World} (h : Inv w) {a : Nat} {p' child : Proc} (w1 : World)
    (hnb : w1.nbProcesses = w.nbProcesses)
    (hprocs : w1.procs = w.procs.set a p' ++ [child])
    (ht : w1.trace = .fork a w.procs.length :: w.trace)
    (hsem : w1.sem = w.sem) (ha : a < w.procs.length) (ha0 : a = 0)
    (hp' : ProcOk w.nbProcesses (w.procs.length + 1)
      (.fork a w.procs.length :: w.trace) a p')
    (hc : ProcOk w.nbProcesses (w.procs.length + 1)
      (.fork a w.procs.length :: w.trace) w.procs.length child) : Inv w1 := by
  refine ⟨hnb ▸ h.nb_nonneg, ?_, ?_, ?_, ?_⟩
  · intro i q hq
    have hlen : w1.procs.length = w.procs.length + 1 := by simp [hprocs]
    rw [hnb, hlen, ht]
    rw [hprocs, List.getElem?_append] at hq
    simp only [List.length_set] at hq
    split at hq
    · rw [List.getElem?_set] at hq
      split at hq
      · next hia =>
        subst hia
        cases hq; exact hp'
      · next hia =>
        exact (h.procs_ok i q hq).frame (.fork a w.procs.length) hia _
          (fun hi => absurd (ha0.trans hi.symm) hia)
    · next hge =>
      have hi : i = w.procs.length := by
        by_contra hne
        have : i - w.procs.length ≠ 0 := by omega
        simp [List.getElem?_cons, this] at hq
      subst hi
      simp at hq
      subst hq
      exact hc
  · rw [ht, hsem, passes_cons, posts_cons]; exact h.sem_eq
  · rw [ht, hnb]; exact h.ordered.cons ha0
  · rw [ht, hprocs]
    intro e' he'
    simp only [List.length_append, List.length_set, List.length_singleton]
    rcases List.mem_cons.mp he' with rfl | h'
    · exact Nat.lt_succ_of_lt ha
    · exact Nat.lt_succ_of_lt (h.bound e' h')

theorem Inv.step {w w' : World} {a : Action} (h : Inv w) (hs : step w a = some w') :
    Inv w' := by
  unfold MovieLensMPS.step at hs
  cases hp : w.procs[a.proc]? with
  | none => simp [hp] at hs
  | some p =>
    have hok := h.procs_ok _ _ hp
    have hlt : a.proc < w.procs.length := by
      rcases List.getElem?_eq_some.mp hp with ⟨h1, _⟩
      exact h1
    have hnn := h.nb_nonneg
    have hsem := h.sem_eq
    have hpubl : 0 < w.sem → Published w.trace := fun h0 =>
      published_of_posts_pos h.ordered (by omega)
    simp only [hp] at hs
    obtain ⟨hk1, hk2, hk2b, hk3⟩ := hok
    cases hpc : p.pc <;> simp only [hpc] at hs hk3
    case forkLoop k =>
      obtain ⟨h1, h2, h3, h4, h5, h6, h7, h8, h9, h10, h11⟩ := hk3
      have hz := fun (e : Event) (he : e.proc = w.procs.length) =>
        count_eq_zero_of_bound h.bound e he
      have hk2' : ∀ (x : Prop), a.proc ≠ 0 → x := fun _ hne => absurd h1 hne
      split at hs
      · split at hs
        · cases hs
          refine h.of_step1 _ rfl rfl rfl rfl hlt ?_ trivial ⟨hk1, hk2' _, hk2b, ?_⟩
          · simp only [passes_cons, posts_cons]; exact hsem
          · simp only [List.count_cons]
            and_intros <;> first | assumption | omega | simp_all
        · split at hs
          · cases hs
            refine h.of_fork _ rfl rfl (by rw [h1]) rfl hlt h1 ⟨hk1, hk2' _, hk2b, ?_⟩
              ⟨?_, ?_, ?_, ?_⟩
            · simp only [List.count_cons]
              and_intros <;> first | assumption | omega
            · intro h0; omega
            · intro _; exact ⟨by rw [h1], rfl⟩
            · intro h0; omega
            · simp only [List.count_cons]
              and_intros <;> first | assumption | omega | (simp; exact hz _ rfl)
          · cases hs
      · cases hs
        refine h.of_step0 _ rfl rfl rfl rfl ⟨hk1, hk2, hk2b, ?_⟩
        simp only
        and_intros <;> first | assumption | omega
    case waitLoop k =>
      obtain ⟨h1, h2, h3, h4, h5, h6, h7, h8, h9, h10, h11⟩ := hk3
      split at hs
      · split at hs
        · split at hs
          · cases hs
            have hlt' : a.proc < (w.reap a.val.toNat).procs.length := by
              rw [reap_length]; exact hlt
            refine (h.reap a.val.toNat).of_step1 _ rfl rfl rfl rfl hlt' ?_ trivial
              ⟨hk1, hk2, by rw [reap_nb]; exact hk2b, ?_⟩
            · simp only [passes_cons, posts_cons, World.update, reap_sem, reap_trace]
              exact hsem
            · simp only [published_cons, List.mem_cons, reap_nb, reap_length, reap_trace]
              and_intros <;> first
                | assumption
                | omega
                | (apply Or.inr; assumption)
                | (simp [List.count_cons]; done)
                | (simp [List.count_cons]; omega)
          · cases hs
        · cases hs
          refine h.of_step1 _ rfl rfl rfl rfl hlt ?_ trivial ⟨hk1, hk2, hk2b, ?_⟩
          · simp only [passes_cons, posts_cons]
            exact hsem
          · simp only [published_cons, List.mem_cons]
            and_intros <;> first
              | assumption
              | omega
              | (apply Or.inr; assumption)
              | (simp [List.count_cons]; done)
              | (simp [List.count_cons]; omega)
      · cases hs
        refine h.of_step0 _ rfl rfl rfl rfl ⟨hk1, hk2, hk2b, ?_⟩
        simp only
        and_intros <;> first | assumption | omega
    case afterLoop =>
      obtain ⟨h1, h2, h3, h4, h5, h6, h7⟩ := hk3
      cases hs
      by_cases hpid : p.pid = 0
      · refine h.of_step0 _ rfl rfl rfl rfl ⟨hk1, hk2, ?_, ?_⟩
        · intro ha0 _
          have := (h2 ha0).1
          omega
        · simp only [hpid, ne_eq, not_true_eq_false, decide_False, Bool.false_eq_true, if_false]
          exact ⟨trivial, h3, h4, h6, h7⟩
      · have ha0 : a.proc = 0 := by
          by_contra hne
          exact hpid (hk2 hne).2
        refine h.of_step0 _ rfl rfl rfl rfl ⟨hk1, hk2, ?_, ?_⟩
        · intro _ hf
          simp [hpid] at hf
        · simp only [hpid, ne_eq, not_false_eq_true, decide_True, if_true]
          exact ⟨ha0, trivial, (h2 ha0).2, h3, h4, h5, h6, h7⟩
    all_goals (repeat' split at hs)
    all_goals cases hs
    all_goals casesm* _ ∧ _
    all_goals first
      | (refine h.of_step0 _ rfl rfl rfl rfl ⟨hk1, hk2, hk2b, ?_⟩
         simp only
         and_intros <;> first | assumption | omega | simp_all)
      | (refine h.of_step1 _ rfl rfl rfl rfl hlt ?_ ?_ ⟨hk1, hk2, hk2b, ?_⟩
         · simp only [passes_cons, posts_cons, World.update]
           omega
         · simp only [EventOk]
           try first
             | trivial
             | (and_intros <;> first
                  | assumption
                  | omega
                  | (apply mem_of_count_eq_one; assumption)
                  | (apply not_mem_of_count_eq_zero; assumption)
                  | (simp_all; done)
                  | (simp_all; apply mem_of_count_eq_one; assumption))
         · simp only [published_cons, List.mem_cons]
           and_intros <;> first
             | assumption
             | omega
             | (apply Or.inr; assumption)
             | (apply Or.inr; apply hpubl; assumption)
             | (simp [List.count_cons]; done)
             | (simp [List.count_cons]; omega)
             | simp_all)

theorem Inv.init (N : Nat) (pid0 : Int) : Inv (init N pid0) := by
  refine ⟨Int.natCast_nonneg N, ?_, rfl, ?_, ?_⟩
  · intro i p hp
    cases i with
    | zero =>
      simp only [MovieLensMPS.init, List.getElem?_cons_zero, Option.some.injEq] at hp
      subst hp
      simp [ProcOk, MovieLensMPS.init]
    | succ j => simp [MovieLensMPS.init] at hp
  · intro post e pre hq
    simp [MovieLensMPS.init] at hq
  · intro e he
    simp [MovieLensMPS.init] at he

theorem Inv.run {w w' : World} {sched : List Action} (h : Inv w)
    (hr : run w sched = some w') : Inv w' := by
  induction sched generalizing w with
  | nil =>
    simp only [MovieLensMPS.run, Option.some.injEq] at hr
    exact hr ▸ h
  | cons a rest ih =>
    simp only [MovieLensMPS.run] at hr
    cases hs : MovieLensMPS.step w a with
    | none => simp [hs] at hr
    | some w1 =>
      simp only [hs] at hr
      exact ih (h.step hs) hr

theorem step_nb {w w' : World} {a : Action} (hs : step w a = some w') :
    w'.nbProcesses = w.nbProcesses := by
  unfold step at hs
  cases hp : w.procs[a.proc]? with
  | none => simp [hp] at hs
  | some p =>
    simp only [hp] at hs
    cases hpc : p.pc <;> simp only [hpc] at hs <;> (repeat' split at hs) <;> cases hs <;>
      first | exact reap_nb _ _ | rfl

theorem run_nb {w w' : World} {sched : List Action} (hr : run w sched = some w') :
    w'.nbProcesses = w.nbProcesses := by
  induction sched generalizing w with
  | nil =>
    simp only [run, Option.some.injEq] at hr
    rw [hr]
  | cons a rest ih =>
    simp only [run] at hr
    cases hs : step w a with
    | none => simp [hs] at hr
    | some w1 =>
      simp only [hs] at hr
      rw [ih hr, step_nb hs]

theorem Ordered.tail {nb : Int} {e : Event} {t : List Event} (h : Ordered nb (e :: t)) :
    Ordered nb t :=
  fun post e' pre heq => h (e :: post) e' pre (by rw [heq]; rfl)

theorem posts_eq_count {nb : Int} {t : List Event} (h : Ordered nb t) :
    posts t = t.count (.semPost 0) := by
  induction t with
  | nil => rfl
  | cons e t ih =>
    have hok : EventOk nb e t := h [] e t rfl
    rw [posts_cons, ih h.tail, List.count_cons]
    cases e <;> simp
    · next p => simp [hok.1]

theorem le_passes {t : List Event} {N : Nat}
    (h : ∀ c, 1 ≤ c → c ≤ N → Event.semWait c ∈ t) : N ≤ passes t := by
  have hnd : ((List.range N).map fun i => Event.semWait (i + 1)).Nodup := by
    refine List.Nodup.map ?_ (List.nodup_range N)
    intro x y hxy
    simp only [Event.semWait.injEq, Nat.add_right_cancel_iff] at hxy
    exact hxy
  have hsub : ((List.range N).map fun i => Event.semWait (i + 1)) ⊆
      t.filter (fun e => match e with | .semWait _ => true | _ => false) := by
    intro e he
    obtain ⟨i, hi, rfl⟩ := List.mem_map.mp he
    have hi' := List.mem_range.mp hi
    exact List.mem_filter.mpr ⟨h (i + 1) (by omega) (by omega), rfl⟩
  have hlen := (List.subperm_of_subset hnd hsub).length_le
  simp only [List.length_map, List.length_range] at hlen
  unfold passes
  rw [List.countP_eq_length_filter]
  exact hlen

/-- C1: in every state the processes of `main` can reach (any number of workers, any
interleaving, any outcome of the system calls), the semaphore started at 0, every
worker's `shm_open` and `mmap` of the segment comes after that worker's own `sem_wait`
returned and after the parent's `memcpy` into the segment, and every `sem_post` comes
after that `memcpy`. -/
theorem sem_gates_model_stream (N : Nat) (pid0 : Int) (sched : List Action) (w : World)
    (hrun : run (init N pid0) sched = some w) :
    (init N pid0).sem = 0 ∧
    ∀ post e pre, w.trace = post ++ e :: pre →
      (∀ c, e = .shmOpen c ∨ e = .mmap c →
        Event.semWait c ∈ pre ∧ Event.memcpy 0 ∈ pre) ∧
      (∀ q, e = .semPost q → Event.memcpy 0 ∈ pre) := by
  have hi := (Inv.init N pid0).run hrun
  refine ⟨rfl, fun post e pre heq => ?_⟩
  have hok := hi.ordered post e pre heq
  constructor
  · rintro c (rfl | rfl)
    · exact hok
    · exact hok.2
  · rintro q rfl
    exact hok.2

/-- Witness of C1: the two-worker schedule `sched2` runs, both workers open the
segment in it, and the ordering holds of its trace. -/
theorem sem_gates_model_stream_witness :
    ∃ w, run (init (2 : Nat) 7) sched2 = some w ∧
      Event.shmOpen 1 ∈ w.trace ∧ Event.shmOpen 2 ∈ w.trace ∧
      ∀ post e pre, w.trace = post ++ e :: pre →
        (∀ c, e = .shmOpen c ∨ e = .mmap c →
          Event.semWait c ∈ pre ∧ Event.memcpy 0 ∈ pre) ∧
        (∀ q, e = .semPost q → Event.memcpy 0 ∈ pre) :=
  ⟨_, rfl, by decide, by decide, (sem_gates_model_stream 2 7 sched2 _ rfl).2⟩

/-- C2: for `nbProcesses = N ≥ 0` and every reachable state: the semaphore started at
0; every `sem_post` is made by the original process, after its `memcpy`; at most `N`
posts have been made, and once the parent is past its post loop exactly `N`, which is
then also the number of workers; no process has returned from `sem_wait` more than
once, and a worker that reached `exit(0)` has returned from it exactly once; the semaphore value is the number of posts minus the number of returned waits;
and once each of the `N` workers has passed its wait the value is 0 again. -/
theorem sem_post_once_per_worker (N : Nat) (pid0 : Int) (sched : List Action) (w : World)
    (hrun : run (init N pid0) sched = some w) :
    (init N pid0).sem = 0 ∧
    (∀ post q pre, w.trace = post ++ Event.semPost q :: pre →
      q = 0 ∧ Event.memcpy 0 ∈ pre) ∧
    posts w.trace ≤ N ∧
    (∀ p, w.procs[0]? = some p → p.pc.pastPostLoop = true →
      posts w.trace = N ∧ w.procs.length = N + 1) ∧
    (∀ c, w.trace.count (.semWait c) ≤ 1) ∧
    (∀ c p, w.procs[c]? = some p → p.pc = .exited → w.trace.count (.semWait c) = 1) ∧
    w.sem + passes w.trace = posts w.trace ∧
    ((∀ c, 1 ≤ c → c ≤ N → Event.semWait c ∈ w.trace) → w.sem = 0) := by
  have hi := (Inv.init N pid0).run hrun
  have hnb : w.nbProcesses = N := run_nb hrun
  have hposts := posts_eq_count hi.ordered
  have hle : posts w.trace ≤ N := by
    rw [hposts]
    cases hp : w.procs[0]? with
    | none =>
      rw [List.count_eq_zero.mpr]
      · exact Nat.zero_le _
      · intro hmem
        have hb := hi.bound _ hmem
        have hlen : w.procs.length ≤ 0 := List.getElem?_eq_none_iff.mp hp
        omega
    | some p =>
      obtain ⟨-, -, -, hk⟩ := hi.procs_ok 0 p hp
      cases hpc : p.pc <;> simp only [hpc] at hk <;> omega
  refine ⟨rfl, ?_, hle, ?_, ?_, ?_, hi.sem_eq, ?_⟩
  · intro post q pre heq
    exact hi.ordered post _ pre heq
  · intro p hp hpast
    obtain ⟨-, -, -, hk⟩ := hi.procs_ok 0 p hp
    rw [hposts]
    cases hpc : p.pc <;> simp only [hpc] at hk <;> simp [hpc, Pc.pastPostLoop] at hpast <;> omega
  · intro c
    cases hp : w.procs[c]? with
    | none =>
      rw [List.count_eq_zero.mpr]
      · exact Nat.zero_le _
      · intro hmem
        have hb := hi.bound _ hmem
        have hlen : w.procs.length ≤ c := List.getElem?_eq_none_iff.mp hp
        exact absurd hb (by simpa [Event.proc] using hlen)
    | some p =>
      obtain ⟨-, -, -, hk⟩ := hi.procs_ok c p hp
      cases hpc : p.pc <;> simp only [hpc] at hk <;> omega
  · intro c p hp hpc
    obtain ⟨-, -, -, hk⟩ := hi.procs_ok c p hp
    simp only [hpc] at hk
    exact hk.2.2.2.1
  · intro hall
    have h1 := le_passes hall
    have h2 := hi.sem_eq
    omega

/-- Witness of C2: in the two-worker schedule `sched2` the parent returns after
exactly two posts, both workers passed their wait and the semaphore is back at 0. -/
theorem sem_post_once_per_worker_witness :
    ∃ w, run (init (2 : Nat) 7) sched2 = some w ∧
      posts w.trace = 2 ∧ passes w.trace = 2 ∧ w.sem = 0 ∧
      (∀ c, 1 ≤ c → c ≤ 2 → Event.semWait c ∈ w.trace) ∧
      ((∀ c, 1 ≤ c → c ≤ 2 → Event.semWait c ∈ w.trace) → w.sem = 0) :=
  ⟨_, rfl, by decide, by decide, rfl,
    by
      intro c h1 h2
      have hc : c = 1 ∨ c = 2 := by omega
      rcases hc with rfl | rfl <;> decide,
    (sem_post_once_per_worker 2 7 sched2 _ rfl).2.2.2.2.2.2.2⟩

/-- C4: for `nbProcesses = N ≥ 0` and every reachable state: each `shm_unlink` and
`sem_unlink` in the trace was called by the original process, whose `isParentProcess`
is true, after exactly `N` calls of `wait` by it; a process whose `isParentProcess` is
false is at a point of the worker branch (which ends in `exit(0)` or abnormally) and
has called neither unlink; and no forked process has `isParentProcess` true. -/
theorem unlink_only_by_parent_after_waits (N : Nat) (pid0 : Int) (sched : List Action)
    (w : World) (hrun : run (init N pid0) sched = some w) :
    (∀ post e pre q, w.trace = post ++ e :: pre → e = .shmUnlink q ∨ e = .semUnlink q →
      q = 0 ∧ pre.count (.wait 0) = N ∧
      ∃ p, w.procs[0]? = some p ∧ p.isParentProcess = some true) ∧
    (∀ i p, w.procs[i]? = some p → p.isParentProcess = some false →
      p.pc.inWorkerBranch = true ∧
      Event.shmUnlink i ∉ w.trace ∧ Event.semUnlink i ∉ w.trace) ∧
    (∀ i p, w.procs[i]? = some p → i ≠ 0 → p.isParentProcess ≠ some true) := by
  have hi := (Inv.init N pid0).run hrun
  have hnb : w.nbProcesses = N := run_nb hrun
  refine ⟨?_, ?_, ?_⟩
  · intro post e pre q heq he
    have hok := hi.ordered post e pre heq
    have hq : q = 0 ∧ (pre.count (.wait 0) : Int) = w.nbProcesses := by
      rcases he with rfl | rfl
      · exact hok
      · exact ⟨hok.1, hok.2.1⟩
    have hmem : e ∈ w.trace := by
      rw [heq]; exact List.mem_append_right _ (List.mem_cons_self _ _)
    have hb := hi.bound e hmem
    have hproc : e.proc = 0 := by
      rcases he with rfl | rfl <;> exact hq.1
    rw [hproc] at hb
    obtain ⟨p, hp⟩ : ∃ p, w.procs[0]? = some p := ⟨_, List.getElem?_eq_getElem hb⟩
    refine ⟨hq.1, by omega, p, hp, ?_⟩
    obtain ⟨-, -, -, hk⟩ := hi.procs_ok 0 p hp
    have hpos : 0 < w.trace.count (.shmUnlink 0) ∨ 0 < w.trace.count (.semUnlink 0) := by
      rcases he with rfl | rfl
      · exact Or.inl (List.count_pos_iff.mpr (hq.1 ▸ hmem))
      · exact Or.inr (List.count_pos_iff.mpr (hq.1 ▸ hmem))
    cases hpc : p.pc <;> simp only [hpc] at hk <;> first | omega | exact hk.2.1
  · intro i p hp hfalse
    obtain ⟨-, -, -, hk⟩ := hi.procs_ok i p hp
    cases hpc : p.pc <;> simp only [hpc] at hk <;>
      simp only [hfalse, Pc.inWorkerBranch] at hk ⊢ <;>
      first
        | (refine ⟨trivial, List.count_eq_zero.mp ?_, List.count_eq_zero.mp ?_⟩ <;> omega)
        | simp at hk
  · intro i p hp hne htrue
    obtain ⟨-, h2, -, hk⟩ := hi.procs_ok i p hp
    cases hpc : p.pc <;> simp only [hpc] at hk <;>
      first
        | exact hne hk.1
        | exact hne (hk.1 htrue).1
        | (rw [htrue] at hk; simp at hk)

/-- Witness of C4: in the two-worker schedule `sched2` the parent unlinks both names,
and the ordering holds of its trace. -/
theorem unlink_only_by_parent_after_waits_witness :
    ∃ w, run (init (2 : Nat) 7) sched2 = some w ∧
      Event.shmUnlink 0 ∈ w.trace ∧ Event.semUnlink 0 ∈ w.trace ∧
      ∀ post e pre q, w.trace = post ++ e :: pre → e = .shmUnlink q ∨ e = .semUnlink q →
        q = 0 ∧ pre.count (.wait 0) = 2 ∧
        ∃ p, w.procs[0]? = some p ∧ p.isParentProcess = some true :=
  ⟨_, rfl, by decide, by decide, (unlink_only_by_parent_after_waits 2 7 sched2 _ rfl).1⟩

/-- C3, at `nbProcesses = 0` with the uninitialised `pid` holding 0: the loop body
never runs, line 495 reads that `pid`, and the original process ends with
`isParentProcess = false` in the worker branch although no process was forked. -/
theorem zero_workers_original_takes_worker_branch :
    run (init 0 0) [⟨0, 0⟩, ⟨0, 0⟩] =
      some { nbProcesses := 0
             procs := [{ ppid := none, pid := 0, isParentProcess := some false,
                         pc := .fill, reaped := false }]
             sem := 0, shmLinked := false, shmSize := 0, trace := [] } := by
  rfl

/-- The part of the fork loop that holds for every `nbProcesses = N`: only the original
process forks, a process with `isParentProcess` true is the original one and has
then created exactly `N` workers, and for `N ≥ 1` a process with `isParentProcess`
false is a forked one. -/
theorem fork_loop_roles (N : Nat) (pid0 : Int) (sched : List Action)
    (w : World) (hrun : run (init N pid0) sched = some w) :
    (∀ q c, Event.fork q c ∈ w.trace → q = 0) ∧
    (∀ i p, w.procs[i]? = some p → p.isParentProcess = some true →
      i = 0 ∧ w.procs.length = N + 1) ∧
    (∀ i p, w.procs[i]? = some p → i ≠ 0 → p.ppid = some 0 ∧ p.pid = 0) ∧
    (1 ≤ N → ∀ i p, w.procs[i]? = some p → p.isParentProcess = some false → i ≠ 0) := by
  have hi := (Inv.init N pid0).run hrun
  have hnb : w.nbProcesses = N := run_nb hrun
  refine ⟨?_, ?_, ?_, ?_⟩
  · intro q c hmem
    obtain ⟨post, pre, heq⟩ := List.append_of_mem hmem
    exact hi.ordered post _ pre heq
  · intro i p hp htrue
    obtain ⟨-, -, -, hk⟩ := hi.procs_ok i p hp
    cases hpc : p.pc <;> simp only [hpc] at hk <;>
      first
        | (refine ⟨hk.1, ?_⟩; omega)
        | (have hk' := hk.1 htrue; refine ⟨hk'.1, ?_⟩; omega)
        | (rw [htrue] at hk; simp at hk)
  · intro i p hp hne
    exact (hi.procs_ok i p hp).2.1 hne
  · intro hN i p hp hfalse h0
    have := (hi.procs_ok i p hp).2.2.1 h0 hfalse
    omega

theorem optionTokens_flag_cons (t v : Str) (rest : List Str)
    (ht : t = "-b".toList ∨ t = "-p".toList) :
    optionTokens (t :: v :: rest) = (t, some v) :: optionTokens rest := by
  rw [optionTokens, if_pos ht]

theorem optionTokens_plain_cons (t : Str) (tl : List Str)
    (ht : ¬(t = "-b".toList ∨ t = "-p".toList)) :
    optionTokens (t :: tl) = (t, tl.head?) :: optionTokens tl := by
  conv_lhs => unfold optionTokens
  rw [if_neg ht]

theorem valueAfterLast_skip (flag : Str) (x : Str × Option Str) (l tl : List Str)
    (h : optionTokens l = x :: optionTokens tl) (hx : x.1 ≠ flag) :
    valueAfterLast flag l = valueAfterLast flag tl := by
  unfold valueAfterLast
  rw [h, List.filter_cons_of_neg (by simpa using hx)]

theorem valueAfterLast_hit (flag : Str) (v : Option Str) (l tl : List Str)
    (h : optionTokens l = (flag, v) :: optionTokens tl)
    (hall : ∀ x ∈ optionTokens tl, x.1 = flag → x.2 ≠ none) :
    valueAfterLast flag l =
      match valueAfterLast flag tl with
      | some w => some w
      | none => v := by
  unfold valueAfterLast
  rw [h, List.filter_cons_of_pos (by simp), List.getLast?_cons]
  cases hl : ((optionTokens tl).filter fun x => x.1 == flag).getLast? with
  | none => simp
  | some x =>
    have hmem := List.mem_of_getLast?_eq_some hl
    rw [List.mem_filter] at hmem
    have := hall x hmem.1 (by simpa using hmem.2)
    cases hx2 : x.2 with
    | none => exact absurd hx2 this
    | some w => simp [hx2]

/-- The scan of `l` from the arguments `a0`, when it returns. -/
theorem parseArgsFrom_returned {F : Type} (appName : Str) :
    ∀ (n : Nat) (l : List Str), l.length ≤ n → ∀ (a0 a : Args F) (i : Nat),
      parseArgsFrom appName a0 i l = .returned a →
      (∀ x ∈ optionTokens l, x.1 = "-b".toList ∨ x.1 = "-p".toList → x.2 ≠ none) ∧
      a.numUsers = (match valueAfterLast "-b".toList l with
        | some v => atoi v
        | none => a0.numUsers) ∧
      a.nbProcesses = (match valueAfterLast "-p".toList l with
        | some v => atoi v
        | none => a0.nbProcesses) ∧
      a.enableVerbose =
        (a0.enableVerbose || (optionTokens l).any fun x => x.1 == "--verbose".toList) ∧
      otherFieldsUnchanged a0 a := by
  intro n
  induction n with
  | zero =>
    intro l hl a0 a i h
    obtain rfl : l = [] := List.length_eq_zero.mp (Nat.le_zero.mp hl)
    simp only [parseArgsFrom, ParseArgsResult.returned.injEq] at h
    subst h
    simp [optionTokens, valueAfterLast, otherFieldsUnchanged]
  | succ n ih =>
    intro l hl a0 a i h
    cases l with
    | nil =>
      simp only [parseArgsFrom, ParseArgsResult.returned.injEq] at h
      subst h
      simp [optionTokens, valueAfterLast, otherFieldsUnchanged]
    | cons t tl =>
      have hlen : tl.length ≤ n := by simpa using hl
      unfold parseArgsFrom at h
      have hbp : "-b".toList ≠ "-p".toList := by decide
      have hbv : "-b".toList ≠ "--verbose".toList := by decide
      have hpv : "-p".toList ≠ "--verbose".toList := by decide
      split at h
      · cases h
      · next hh =>
        split at h
        · next hb =>
          subst hb
          cases tl with
          | nil => cases h
          | cons v rest =>
            have hlen2 : rest.length ≤ n := by
              simp only [List.length_cons] at hlen; omega
            obtain ⟨h1, h2, h3, h4, h5⟩ := ih rest hlen2 _ a _ h
            have hot := optionTokens_flag_cons "-b".toList v rest (Or.inl rfl)
            refine ⟨?_, ?_, ?_, ?_, ?_⟩
            · intro x hx
              rw [hot] at hx
              rcases List.mem_cons.mp hx with rfl | hx'
              · intro _; simp
              · exact h1 x hx'
            · rw [valueAfterLast_hit _ _ _ _ hot (fun x hx hxf => h1 x hx (Or.inl hxf))]
              rw [h2]
              cases valueAfterLast "-b".toList rest <;> rfl
            · rw [valueAfterLast_skip _ _ _ _ hot hbp]
              exact h3
            · rw [hot, List.any_cons, h4]
              have hb : ("-b".toList == "--verbose".toList) = false := by decide
              simp only [hb, Bool.false_or]
            · exact h5
        · next hb =>
          split at h
          · next hp =>
            subst hp
            cases tl with
            | nil => cases h
            | cons v rest =>
              have hlen2 : rest.length ≤ n := by
                simp only [List.length_cons] at hlen; omega
              obtain ⟨h1, h2, h3, h4, h5⟩ := ih rest hlen2 _ a _ h
              have hot := optionTokens_flag_cons "-p".toList v rest (Or.inr rfl)
              refine ⟨?_, ?_, ?_, ?_, ?_⟩
              · intro x hx
                rw [hot] at hx
                rcases List.mem_cons.mp hx with rfl | hx'
                · intro _; simp
                · exact h1 x hx'
              · rw [valueAfterLast_skip _ _ _ _ hot hbp.symm]
                exact h2
              · rw [valueAfterLast_hit _ _ _ _ hot (fun x hx hxf => h1 x hx (Or.inr hxf))]
                rw [h3]
                cases valueAfterLast "-p".toList rest <;> rfl
              · rw [hot, List.any_cons, h4]
                have hb : ("-p".toList == "--verbose".toList) = false := by decide
                simp only [hb, Bool.false_or]
              · exact h5
          · next hp =>
            have hnf : ¬(t = "-b".toList ∨ t = "-p".toList) := fun hc => hc.elim hb hp
            have hot := optionTokens_plain_cons t tl hnf
            have hscan : ∀ (a1 : Args F) (j : Nat),
                parseArgsFrom appName a1 j tl = .returned a →
                (∀ x ∈ optionTokens (t :: tl),
                  x.1 = "-b".toList ∨ x.1 = "-p".toList → x.2 ≠ none) ∧
                a.numUsers = (match valueAfterLast "-b".toList (t :: tl) with
                  | some v => atoi v
                  | none => a1.numUsers) ∧
                a.nbProcesses = (match valueAfterLast "-p".toList (t :: tl) with
                  | some v => atoi v
                  | none => a1.nbProcesses) ∧
                a.enableVerbose = (a1.enableVerbose ||
                  (optionTokens tl).any fun x => x.1 == "--verbose".toList) ∧
                otherFieldsUnchanged a1 a := by
              intro a1 j hj
              obtain ⟨h1, h2, h3, h4, h5⟩ := ih tl hlen a1 a j hj
              refine ⟨?_, ?_, ?_, h4, h5⟩
              · intro x hx
                rw [hot] at hx
                rcases List.mem_cons.mp hx with rfl | hx'
                · intro hc; exact absurd hc hnf
                · exact h1 x hx'
              · rw [valueAfterLast_skip _ _ _ _ hot hb]
                exact h2
              · rw [valueAfterLast_skip _ _ _ _ hot hp]
                exact h3
            split at h
            · next hv =>
              subst hv
              obtain ⟨h1, h2, h3, h4, h5⟩ := hscan _ _ h
              refine ⟨h1, h2, h3, ?_, h5⟩
              rw [hot, List.any_cons, h4]
              simp
            · next hv =>
              split at h
              · next hd =>
                split at h
                · obtain ⟨h1, h2, h3, h4, h5⟩ := hscan _ _ h
                  refine ⟨h1, h2, h3, ?_, h5⟩
                  rw [hot, List.any_cons, h4]
                  have hb : (t == "--verbose".toList) = false := by simpa using hv
                  simp only [hb, Bool.false_or]
                · cases h
              · cases h

/-- The scan of a list that begins with a part `pre` over which it returns goes on
after `pre` with the arguments that part left. -/
theorem parseArgsFrom_append {F : Type} (appName : Str) (l : List Str) :
    ∀ (n : Nat) (pre : List Str), pre.length ≤ n → ∀ (a0 a1 : Args F) (i : Nat),
      parseArgsFrom appName a0 i pre = .returned a1 →
      parseArgsFrom appName a0 i (pre ++ l) = parseArgsFrom appName a1 (i + pre.length) l := by
  intro n
  induction n with
  | zero =>
    intro pre hl a0 a1 i h
    obtain rfl : pre = [] := List.length_eq_zero.mp (Nat.le_zero.mp hl)
    simp only [parseArgsFrom, ParseArgsResult.returned.injEq] at h
    subst h
    rfl
  | succ n ih =>
    intro pre hl a0 a1 i h
    cases pre with
    | nil =>
      simp only [parseArgsFrom, ParseArgsResult.returned.injEq] at h
      subst h
      rfl
    | cons t tl =>
      have hlen : tl.length ≤ n := by simpa using hl
      rw [List.cons_append]
      unfold parseArgsFrom at h
      conv_lhs => unfold parseArgsFrom
      split at h
      · cases h
      · next hh =>
        rw [if_neg hh]
        split at h
        · next hb =>
          rw [if_pos hb]
          cases tl with
          | nil => cases h
          | cons v rest =>
            have hlen2 : rest.length ≤ n := by
              simp only [List.length_cons] at hlen; omega
            have hidx : i + 2 + rest.length = i + (t :: v :: rest).length := by
              simp only [List.length_cons]; omega
            have := ih rest hlen2 _ a1 _ h
            simp only [List.cons_append]
            rw [this, hidx]
        · next hb =>
          rw [if_neg hb]
          split at h
          · next hp =>
            rw [if_pos hp]
            cases tl with
            | nil => cases h
            | cons v rest =>
              have hlen2 : rest.length ≤ n := by
                simp only [List.length_cons] at hlen; omega
              have hidx : i + 2 + rest.length = i + (t :: v :: rest).length := by
                simp only [List.length_cons]; omega
              have := ih rest hlen2 _ a1 _ h
              simp only [List.cons_append]
              rw [this, hidx]
          · next hp =>
            rw [if_neg hp]
            have hidx : i + 1 + tl.length = i + (t :: tl).length := by
              simp only [List.length_cons]; omega
            split at h
            · next hv =>
              rw [if_pos hv, ih tl hlen _ a1 _ h, hidx]
            · next hv =>
              rw [if_neg hv]
              split at h
              · next hd =>
                rw [if_pos hd]
                split at h
                · next v hst =>
                  rw [ih tl hlen _ a1 _ h, hidx]
                · cases h
              · cases h

/-- C6: when `parseArgs` returns, `numUsers` is `atoi` of the token following the
last "-b" among the scanned options, or its previous value (32 in `main`) when there
is none; `nbProcesses` likewise for "-p" (1 in `main`); `enableVerbose` is true exactly
when it was (it is not in `main`) or "--verbose" is among the scanned options; and
every field other than these three and `useDLACore` is unchanged. -/
theorem parseArgs_sets_flags {F : Type} (a0 a : Args F) (argv : List Str)
    (h : parseArgs a0 argv = .returned a) :
    a.numUsers = (match valueAfterLast "-b".toList argv.tail with
      | some v => atoi v
      | none => a0.numUsers) ∧
    a.nbProcesses = (match valueAfterLast "-p".toList argv.tail with
      | some v => atoi v
      | none => a0.nbProcesses) ∧
    (a.enableVerbose = true ↔ a0.enableVerbose = true ∨
      "--verbose".toList ∈ (optionTokens argv.tail).map Prod.fst) ∧
    otherFieldsUnchanged a0 a ∧
    ({} : Args F).numUsers = 32 ∧ ({} : Args F).nbProcesses = 1 ∧
    ({} : Args F).enableVerbose = false := by
  cases argv with
  | nil =>
    simp only [parseArgs, ParseArgsResult.returned.injEq] at h
    subst h
    simp [optionTokens, valueAfterLast, otherFieldsUnchanged]
  | cons appName rest =>
    obtain ⟨-, h2, h3, h4, h5⟩ := parseArgsFrom_returned appName rest.length rest le_rfl a0 a 1 h
    refine ⟨h2, h3, ?_, h5, rfl, rfl, rfl⟩
    rw [h4]
    simp only [List.tail_cons, Bool.or_eq_true, List.any_eq_true, beq_iff_eq, List.mem_map]


/-- Witness of C6: with two "-b", a "-p" and "--verbose" the scan returns 7 users (the
value of the last "-b"), 3 processes and verbose output. -/
theorem parseArgs_sets_flags_witness :
    ∃ a : Args Unit,
      parseArgs {} ["sample".toList, "-b".toList, "5".toList, "-p".toList, "3".toList,
        "-b".toList, "7".toList, "--verbose".toList] = .returned a ∧
      a.numUsers = 7 ∧ a.nbProcesses = 3 ∧ a.enableVerbose = true ∧
      otherFieldsUnchanged {} a :=
  ⟨{ numUsers := 7, nbProcesses := 3, enableVerbose := true }, by decide!, rfl, rfl, rfl,
    (parseArgs_sets_flags ({} : Args Unit) _ ["sample".toList, "-b".toList, "5".toList,
      "-p".toList, "3".toList, "-b".toList, "7".toList, "--verbose".toList]
      (by decide!)).2.2.2.1⟩

theorem unrecognised_of_not {t : Str} (hh : ¬t = "-h".toList) (hb : ¬t = "-b".toList)
    (hp : ¬t = "-p".toList) (hv : ¬t = "--verbose".toList)
    (hd : ¬(t.take 13 = "--useDLACore=".toList ∧ 13 < t.length)) : unrecognised t = true := by
  have hd' : isDLAOption t = false := by
    unfold isDLAOption
    by_cases h1 : t.take 13 = "--useDLACore=".toList
    · have h2 : ¬13 < t.length := fun h => hd ⟨h1, h⟩
      simp [h2]
    · have : (t.take 13 == "--useDLACore=".toList) = false := by simpa using h1
      rw [this]; rfl
  unfold unrecognised
  have e1 : (t == "-h".toList) = false := by simpa using hh
  have e2 : (t == "-b".toList) = false := by simpa using hb
  have e3 : (t == "-p".toList) = false := by simpa using hp
  have e4 : (t == "--verbose".toList) = false := by simpa using hv
  rw [e1, e2, e3, e4, hd']
  rfl

/-- Over recognised options the scan fails only by an exception of `stoi`, and not at
all when every `--useDLACore=` value is a number `stoi` accepts. -/
theorem parseArgsFrom_recognised {F : Type} (appName : Str) :
    ∀ (n : Nat) (l : List Str), l.length ≤ n → ∀ (a0 : Args F) (i : Nat),
      recognisedOnly l = true →
      ((parseArgsFrom appName a0 i l).isFailure = true →
        ∃ e, parseArgsFrom appName a0 i l = .threw e) ∧
      (recognisedNumeric l = true → (parseArgsFrom appName a0 i l).isFailure = false) := by
  intro n
  induction n with
  | zero =>
    intro l hl a0 i _
    obtain rfl : l = [] := List.length_eq_zero.mp (Nat.le_zero.mp hl)
    simp [parseArgsFrom, ParseArgsResult.isFailure]
  | succ n ih =>
    intro l hl a0 i hrec
    cases l with
    | nil => simp [parseArgsFrom, ParseArgsResult.isFailure]
    | cons t tl =>
      have hlen : tl.length ≤ n := by simpa using hl
      unfold recognisedOnly at hrec
      unfold recognisedNumeric
      unfold parseArgsFrom
      by_cases hh : t = "-h".toList
      · rw [if_pos hh]
        simp [ParseArgsResult.isFailure]
      rw [if_neg hh]
      by_cases hb : t = "-b".toList
      · rw [if_pos hb]
        rw [if_pos (Or.inl hb)] at hrec ⊢
        cases tl with
        | nil => simp at hrec
        | cons v rest =>
          have hlen2 : rest.length ≤ n := by
            simp only [List.length_cons] at hlen; omega
          exact ih rest hlen2 _ _ hrec
      rw [if_neg hb]
      by_cases hp : t = "-p".toList
      · rw [if_pos hp]
        rw [if_pos (Or.inr hp)] at hrec ⊢
        cases tl with
        | nil => simp at hrec
        | cons v rest =>
          have hlen2 : rest.length ≤ n := by
            simp only [List.length_cons] at hlen; omega
          exact ih rest hlen2 _ _ hrec
      rw [if_neg hp]
      have hnf : ¬(t = "-b".toList ∨ t = "-p".toList) := fun hc => hc.elim hb hp
      rw [if_neg hnf] at hrec ⊢
      simp only [Bool.and_eq_true, Bool.not_eq_true'] at hrec
      obtain ⟨hu, hrec'⟩ := hrec
      by_cases hv : t = "--verbose".toList
      · rw [if_pos hv]
        have := ih tl hlen { a0 with enableVerbose := true } (i + 1) hrec'
        refine ⟨this.1, fun hnum => this.2 ?_⟩
        simp only [Bool.and_eq_true] at hnum
        exact hnum.2
      rw [if_neg hv]
      by_cases hd : t.take 13 = "--useDLACore=".toList ∧ 13 < t.length
      · rw [if_pos hd]
        cases hst : stoi (t.drop 13) with
        | error e =>
          refine ⟨fun _ => ⟨e, rfl⟩, fun hnum => ?_⟩
          have hdla : isDLAOption t = true := by
            unfold isDLAOption
            simp [hd.1, hd.2]
          simp [hdla, hst, Except.isOk, Except.toBool] at hnum
        | ok v =>
          have := ih tl hlen { a0 with useDLACore := v } (i + 1) hrec'
          refine ⟨this.1, fun hnum => this.2 ?_⟩
          simp only [Bool.and_eq_true] at hnum
          exact hnum.2
      · rw [unrecognised_of_not hh hb hp hv hd] at hu
        cases hu

theorem recognisedOnly_of_numeric :
    ∀ (n : Nat) (l : List Str), l.length ≤ n → recognisedNumeric l = true →
      recognisedOnly l = true := by
  intro n
  induction n with
  | zero =>
    intro l hl _
    obtain rfl : l = [] := List.length_eq_zero.mp (Nat.le_zero.mp hl)
    rfl
  | succ n ih =>
    intro l hl h
    cases l with
    | nil => rfl
    | cons t tl =>
      have hlen : tl.length ≤ n := by simpa using hl
      unfold recognisedNumeric at h
      unfold recognisedOnly
      by_cases hf : t = "-b".toList ∨ t = "-p".toList
      · rw [if_pos hf] at h ⊢
        cases tl with
        | nil => cases h
        | cons v rest =>
          have hlen2 : rest.length ≤ n := by
            simp only [List.length_cons] at hlen; omega
          exact ih rest hlen2 h
      · rw [if_neg hf] at h ⊢
        simp only [Bool.and_eq_true] at h ⊢
        exact ⟨h.1.1, ih tl hlen h.2⟩

/-- C7 as stated fails: "--useDLACore=x" is a recognised option with a non-empty
value, and `parseArgs` ends the program abnormally on it (`stoi` throws
`invalid_argument`, which nothing catches). -/
theorem recognised_option_fails :
    recognisedOnly ["--useDLACore=x".toList] = true ∧
    parseArgs ({} : Args Unit) ["sample".toList, "--useDLACore=x".toList] =
      .threw .invalid_argument ∧
    (parseArgs ({} : Args Unit) ["sample".toList, "--useDLACore=x".toList]).isFailure
      = true := by
  decide!

/-- C7, amended: when the scan passes the tokens `pre` and then meets a token that is
none of "-h", "-b", "-p", "--verbose", "--useDLACore=<non-empty value>", `parseArgs`
writes "Invalid argument: <token>" to `cerr`, the usage to `cout`, and calls
`exit(EXIT_FAILURE)`; over recognised options with their values it calls `exit` with
status 0 only and fails only by an exception of `stoi`; and it does not fail at all
when moreover every `--useDLACore=` value is a number that `stoi` accepts. -/
theorem parseArgs_reports_invalid {F : Type} (a0 : Args F) (appName : Str) :
    (∀ (pre post : List Str) (tok : Str) (a1 : Args F),
      parseArgs a0 (appName :: pre) = .returned a1 → unrecognised tok = true →
      parseArgs a0 (appName :: (pre ++ tok :: post)) =
        .exited 1 (printHelp appName) ("Invalid argument: ".toList ++ tok ++ ['\n'])) ∧
    (∀ l : List Str, recognisedOnly l = true →
      (∀ status cout cerr, parseArgs a0 (appName :: l) = .exited status cout cerr →
        status = 0) ∧
      ((parseArgs a0 (appName :: l)).isFailure = true →
        ∃ e, parseArgs a0 (appName :: l) = .threw e)) ∧
    (∀ l : List Str, recognisedNumeric l = true →
      (parseArgs a0 (appName :: l)).isFailure = false) := by
  refine ⟨?_, ?_, ?_⟩
  · intro pre post tok a1 hpre htok
    simp only [parseArgs] at hpre ⊢
    rw [parseArgsFrom_append appName (tok :: post) pre.length pre le_rfl a0 a1 1 hpre]
    unfold unrecognised isDLAOption at htok
    simp only [Bool.not_eq_true', Bool.or_eq_false_iff, beq_eq_false_iff_ne, ne_eq,
      Bool.and_eq_false_iff, decide_eq_false_iff_not] at htok
    obtain ⟨⟨⟨⟨hh, hb⟩, hp⟩, hv⟩, hd⟩ := htok
    have hd' : ¬(tok.take 13 = "--useDLACore=".toList ∧ 13 < tok.length) := by
      rintro ⟨h1, h2⟩
      rcases hd with h | h
      · exact h h1
      · exact h h2
    unfold parseArgsFrom
    rw [if_neg hh, if_neg hb, if_neg hp, if_neg hv, if_neg hd']
  · intro l hrec
    have h := (parseArgsFrom_recognised appName l.length l le_rfl a0 1 hrec).1
    simp only [parseArgs]
    refine ⟨?_, h⟩
    intro status cout cerr hex
    by_contra hne
    have hf : (parseArgsFrom appName a0 1 l).isFailure = true := by
      rw [hex]
      simp [ParseArgsResult.isFailure, hne]
    obtain ⟨e, he⟩ := h hf
    rw [hex] at he
    cases he
  · intro l hnum
    have hrec : recognisedOnly l = true := recognisedOnly_of_numeric l.length l le_rfl hnum
    exact (parseArgsFrom_recognised appName l.length l le_rfl a0 1 hrec).2 hnum

/-- Witness of C7: after "-b 5" the scan meets "--fast"; and "-p 2 --useDLACore=1" is
made of recognised options with numeric values. -/
theorem parseArgs_reports_invalid_witness :
    parseArgs ({} : Args Unit)
      ("sample".toList :: (["-b".toList, "5".toList] ++ "--fast".toList :: ["-h".toList])) =
      .exited 1 (printHelp "sample".toList) ("Invalid argument: --fast\n".toList) ∧
    (parseArgs ({} : Args Unit)
      ("sample".toList :: ["-p".toList, "2".toList, "--useDLACore=1".toList])).isFailure
      = false :=
  ⟨(parseArgs_reports_invalid ({} : Args Unit) "sample".toList).1
      ["-b".toList, "5".toList] ["-h".toList] "--fast".toList { numUsers := 5 }
      (by decide!) (by decide!),
   (parseArgs_reports_invalid ({} : Args Unit) "sample".toList).2.2
      ["-p".toList, "2".toList, "--useDLACore=1".toList] (by decide!)⟩

/-- C8: the flag "--useDLACore", spelled as the usage line and the option list print
it, is not accepted: `parseArgs` writes "Invalid argument: --useDLACore" and calls
`exit(EXIT_FAILURE)`; only the form "--useDLACore=N" is read. -/
theorem useDLACore_flag_rejected {F : Type} (a0 : Args F) (appName : Str) :
    parseArgs a0 [appName, "--useDLACore".toList] =
      .exited 1 (printHelp appName) ("Invalid argument: --useDLACore\n".toList) ∧
    "[--useDLACore]".toList <:+: usageText ∧
    "\t--useDLACore Enables use of DLA engine".toList <:+: usageText := by
  refine ⟨rfl, ?_, ?_⟩ <;> decide!

/-! ### Reading a well-formed record -/

theorem getline_line (file : IFStream) (line0 l rest : Str)
    (hgood : file.eof = false ∧ file.fail = false)
    (hdata : file.data = l ++ '\n' :: rest) (hl : '\n' ∉ l) :
    getline file line0 = ({ file with data := rest }, l, true) := by
  have hall : ∀ a ∈ l, (a != '\n') = true := by
    intro a ha
    by_contra hne
    have : a = '\n' := by simpa using hne
    exact hl (this ▸ ha)
  unfold getline
  rw [hgood.1, hgood.2, hdata, List.takeWhile_append_of_pos hall,
    List.dropWhile_append_of_pos hall]
  simp

theorem find_append (a b : Str) (c : Char) (ha : c ∉ a) :
    find (a ++ c :: b) c = some a.length := by
  induction a with
  | nil => simp [find]
  | cons x xs ih =>
    have hx : x ≠ c := fun h => ha (h ▸ List.mem_cons_self _ _)
    have hxs : c ∉ xs := fun h => ha (List.mem_cons_of_mem _ h)
    simp [find, hx, ih hxs]

theorem isNumeral_iff (s : Str) :
    isNumeral s = true ↔ s ≠ [] ∧ (∀ c ∈ s, c.isDigit = true) ∧ digitsVal s ≤ 2147483647 := by
  unfold isNumeral
  cases s <;> simp [and_assoc]

theorem isDigit_ne {c d : Char} (h : c.isDigit = true) (hd : d.isDigit = false) : c ≠ d := by
  rintro rfl
  rw [h] at hd
  cases hd

theorem isDigit_not_space {c : Char} (h : c.isDigit = true) : isspace c = false := by
  have h1 : c ≠ ' ' := isDigit_ne h (by decide)
  have h2 : c ≠ '\t' := isDigit_ne h (by decide)
  have h3 : c ≠ '\n' := isDigit_ne h (by decide)
  have h4 : c ≠ '\x0b' := isDigit_ne h (by decide)
  have h5 : c ≠ '\x0c' := isDigit_ne h (by decide)
  have h6 : c ≠ '\r' := isDigit_ne h (by decide)
  unfold isspace
  simp [h1, h2, h3, h4, h5, h6]

theorem strtolVal_numeral (s : Str) (h : isNumeral s = true) :
    strtolVal s = some (digitsVal s : Int) := by
  obtain ⟨hne, hdig, -⟩ := (isNumeral_iff s).mp h
  cases s with
  | nil => exact absurd rfl hne
  | cons c cs =>
    have hc := hdig c (List.mem_cons_self _ _)
    have hsp := isDigit_not_space hc
    have hm : c ≠ '-' := isDigit_ne hc (by decide)
    have hp : c ≠ '+' := isDigit_ne hc (by decide)
    have htw : (c :: cs).takeWhile Char.isDigit = c :: cs :=
      List.takeWhile_eq_self_iff.mpr hdig
    unfold strtolVal
    have hdw : (c :: cs).dropWhile isspace = c :: cs := by
      simp [List.dropWhile_cons, hsp]
    simp only [hdw]
    have hmatch : (match c :: cs with
        | '-' :: t => t
        | '+' :: t => t
        | _ => c :: cs) = c :: cs := by
      split
      · next heq => exact absurd (List.cons.inj heq).1 hm
      · next heq => exact absurd (List.cons.inj heq).1 hp
      · rfl
    rw [hmatch, htw]
    simp only [List.isEmpty_cons, Bool.false_eq_true, if_false]
    split
    · next heq => exact absurd (List.cons.inj heq).1 hm
    · rfl

theorem stoi_numeral (s : Str) (h : isNumeral s = true) : stoi s = .ok (digitsVal s : Int) := by
  obtain ⟨-, -, hle⟩ := (isNumeral_iff s).mp h
  unfold stoi
  rw [strtolVal_numeral s h]
  have h1 : ¬((digitsVal s : Int) < -2 ^ 31 ∨ 2 ^ 31 - 1 < (digitsVal s : Int)) := by
    have : (0 : Int) ≤ digitsVal s := Int.natCast_nonneg _
    have h2 : (digitsVal s : Int) ≤ 2147483647 := by exact_mod_cast hle
    norm_num
    omega
  simp only [h1, if_false]

theorem strtolVal_space (s : Str) : strtolVal (' ' :: s) = strtolVal s := by
  unfold strtolVal
  have : (' ' :: s).dropWhile isspace = s.dropWhile isspace := by
    rw [List.dropWhile_cons]
    simp [isspace]
  rw [this]

theorem stoi_space_numeral (s : Str) (h : isNumeral s = true) :
    stoi (' ' :: s) = .ok (digitsVal s : Int) := by
  rw [← stoi_numeral s h]
  unfold stoi
  rw [strtolVal_space]

theorem extract_token (tok rest : Str) (hne : tok ≠ [])
    (htok : ∀ c ∈ tok, isspace c = false)
    (hrest : rest = [] ∨ ∃ c t, rest = c :: t ∧ isspace c = true) :
    extract (tok ++ rest) = some (tok, rest) := by
  cases tok with
  | nil => exact absurd rfl hne
  | cons x xs =>
    have hx := htok x (List.mem_cons_self _ _)
    have hall : ∀ c ∈ x :: xs, (!isspace c) = true := by
      intro c hc
      rw [htok c hc]; rfl
    have hdw : ((x :: xs) ++ rest).dropWhile isspace = (x :: xs) ++ rest := by
      rw [List.cons_append, List.dropWhile_cons]
      simp [hx]
    have hr1 : rest.takeWhile (fun c => !isspace c) = [] := by
      rcases hrest with rfl | ⟨c, t, rfl, hc⟩
      · rfl
      · rw [List.takeWhile_cons]; simp [hc]
    have hr2 : rest.dropWhile (fun c => !isspace c) = rest := by
      rcases hrest with rfl | ⟨c, t, rfl, hc⟩
      · rfl
      · rw [List.dropWhile_cons]; simp [hc]
    unfold extract
    simp only [hdw]
    rw [List.takeWhile_append_of_pos hall, List.dropWhile_append_of_pos hall, hr1, hr2]
    simp

theorem substr_init (a : Str) (x : Char) :
    substr (a ++ [x]) 0 (sizeMinus (a ++ [x]).length 1) = .ok a := by
  simp [substr, sizeMinus]

theorem readItems_joinItems (items : List Str) :
    ∀ (fuel : Nat) (acc : List Int), items ≠ [] → (∀ a ∈ items, isNumeral a = true) →
      items.length < fuel →
      readItems fuel (joinItems items) acc =
        .ok (acc ++ items.map fun a => (digitsVal a : Int)) := by
  induction items with
  | nil => intro _ _ h; exact absurd rfl h
  | cons a rest ih =>
    intro fuel acc _ hnum hfuel
    have ha := hnum a (List.mem_cons_self _ _)
    obtain ⟨hane, hadig, -⟩ := (isNumeral_iff a).mp ha
    have hasp : ∀ c ∈ a, isspace c = false := fun c hc => isDigit_not_space (hadig c hc)
    cases fuel with
    | zero => exact absurd hfuel (Nat.not_lt_zero _)
    | succ f =>
      cases rest with
      | nil =>
        have hf : 0 < f := by simpa using hfuel
        obtain ⟨f', rfl⟩ : ∃ f', f = f' + 1 := ⟨f - 1, by omega⟩
        have hex : extract (a ++ [']']) = some (a ++ [']'], []) := by
          have := extract_token (a ++ [']']) [] (by simp)
            (by
              intro c hc
              rcases List.mem_append.mp hc with h | h
              · exact hasp c h
              · rw [List.mem_singleton.mp h]; rfl)
            (Or.inl rfl)
          simpa using this
        simp only [joinItems, readItems, hex, substr_init, stoi_numeral a ha, peekIgnore]
        simp [extract]
      | cons b rest' =>
        have hf : (b :: rest').length < f := by
          simp only [List.length_cons] at hfuel ⊢; omega
        have hex : extract (a ++ [',', ' '] ++ joinItems (b :: rest')) =
            some (a ++ [','], ' ' :: joinItems (b :: rest')) := by
          have := extract_token (a ++ [',']) (' ' :: joinItems (b :: rest')) (by simp)
            (by
              intro c hc
              rcases List.mem_append.mp hc with h | h
              · exact hasp c h
              · rw [List.mem_singleton.mp h]; rfl)
            (Or.inr ⟨' ', _, rfl, rfl⟩)
          simpa using this
        have hih := ih f (acc ++ [(digitsVal a : Int)]) (by simp)
          (fun x hx => hnum x (List.mem_cons_of_mem _ hx)) hf
        have hj : joinItems (a :: b :: rest') = a ++ [',', ' '] ++ joinItems (b :: rest') := rfl
        rw [hj]
        simp only [readItems, hex, substr_init, stoi_numeral a ha, peekIgnore]
        simp only [Char.reduceEq, or_true, if_true, false_or]
        rw [hih]
        simp

theorem isOk_iff {ε α : Type} (x : Except ε α) : x.isOk = true ↔ ∃ v, x = .ok v := by
  cases x <;> simp [Except.isOk, Except.toBool]

theorem numeral_no_colon {s : Str} (h : isNumeral s = true) : ':' ∉ s := by
  intro hm
  have := ((isNumeral_iff s).mp h).2.1 ':' hm
  exact absurd this (by decide)

theorem numeral_no_newline {s : Str} (h : isNumeral s = true) : '\n' ∉ s := by
  intro hm
  have := ((isNumeral_iff s).mp h).2.1 '\n' hm
  exact absurd this (by decide)

theorem top_line_find (it pr : Str) (h : isNumeral it = true) :
    find (it ++ " : ".toList ++ pr) ':' = some (it.length + 1) := by
  have hc : ':' ∉ it ++ [' '] := by
    intro hm
    rcases List.mem_append.mp hm with h1 | h1
    · exact numeral_no_colon h h1
    · simp at h1
  have := find_append (it ++ [' ']) (' ' :: pr) ':' hc
  simpa using this

theorem top_line_item (it pr : Str) :
    substr (it ++ " : ".toList ++ pr) 0 (some it.length) = .ok it := by
  simp [substr]

theorem top_line_prob (it pr : Str) :
    substr (it ++ " : ".toList ++ pr) (it.length + 3) none = .ok pr := by
  have hlen : ¬((it ++ " : ".toList ++ pr).length < it.length + 3) := by
    simp
  unfold substr
  rw [if_neg hlen]
  simp only
  have : it ++ " : ".toList ++ pr = (it ++ " : ".toList) ++ pr := rfl
  rw [this, List.drop_append_of_le_length (by simp)]
  simp

theorem readTopRatings_lines {F : Type} (stof : Str → Except Exc F) (tr rest : Str)
    (htr : '\n' ∉ tr) :
    ∀ (ps : List (Str × Str)) (p : Str × Str) (file : IFStream) (vec : List (Int × F)),
      (∀ q ∈ p :: ps, isNumeral q.1 = true ∧ '\n' ∉ q.2 ∧ (stof q.2).isOk = true) →
      file.eof = false ∧ file.fail = false →
      file.data = topLines ps ++ (tr ++ '\n' :: rest) →
      readTopRatings stof (ps.length + 1) file (p.1 ++ " : ".toList ++ p.2) vec =
        .ok ({ file with data := rest }, vec ++ topPairs stof (p :: ps)) := by
  intro ps
  induction ps with
  | nil =>
    intro p file vec hwf hgood hdata
    obtain ⟨hnum, -, hok⟩ := hwf p (List.mem_cons_self _ _)
    obtain ⟨v, hv⟩ := (isOk_iff _).mp hok
    have hg := getline_line file (p.1 ++ " : ".toList ++ p.2) tr rest hgood
      (by simpa [topLines] using hdata) htr
    simp only [List.length_nil, Nat.zero_add, readTopRatings, top_line_find _ _ hnum,
      posMinus1, posPlus2, top_line_item, stoi_numeral _ hnum, top_line_prob, hv, hg,
      topPairs]
  | cons q qs ih =>
    intro p file vec hwf hgood hdata
    obtain ⟨hnum, -, hok⟩ := hwf p (List.mem_cons_self _ _)
    obtain ⟨hqnum, hqnl, -⟩ := hwf q (List.mem_cons_of_mem _ (List.mem_cons_self _ _))
    obtain ⟨v, hv⟩ := (isOk_iff _).mp hok
    have hqline : '\n' ∉ q.1 ++ " : ".toList ++ q.2 := by
      intro hm
      rcases List.mem_append.mp hm with h1 | h1
      · rcases List.mem_append.mp h1 with h2 | h2
        · exact numeral_no_newline hqnum h2
        · simp at h2
      · exact hqnl h1
    have hg := getline_line file (p.1 ++ " : ".toList ++ p.2) (q.1 ++ " : ".toList ++ q.2)
      (topLines qs ++ (tr ++ '\n' :: rest)) hgood
      (by rw [hdata]; simp [topLines]) hqline
    have hih := ih q { file with data := topLines qs ++ (tr ++ '\n' :: rest) }
      (vec ++ [((digitsVal p.1 : Int), v)])
      (fun x hx => hwf x (List.mem_cons_of_mem _ hx)) hgood rfl
    rw [List.length_cons, readTopRatings]
    simp only [top_line_find _ _ hnum, posMinus1, posPlus2, top_line_item,
      stoi_numeral _ hnum, top_line_prob, hv, hg]
    rw [hih]
    simp [topPairs, hv]

theorem substr_after (a b : Str) (c : Char) :
    substr (a ++ c :: b) (a.length + 1) none = .ok b := by
  have hlen : ¬((a ++ c :: b).length < a.length + 1) := by simp
  unfold substr
  rw [if_neg hlen]
  simp only
  have : a ++ c :: b = (a ++ [c]) ++ b := by simp
  rw [this, List.drop_append_of_le_length (by simp)]
  simp

theorem readNextLine_line (file : IFStream) (a b rest : Str) (c : Char)
    (hgood : file.eof = false ∧ file.fail = false)
    (hdata : file.data = (a ++ c :: b) ++ '\n' :: rest)
    (hnl : '\n' ∉ a ++ c :: b) (hc : c ∉ a) :
    readNextLine file c = .ok ({ file with data := rest }, b) := by
  unfold readNextLine
  rw [getline_line file [] (a ++ c :: b) rest hgood hdata hnl]
  simp only [find_append a b c hc, posPlus1, substr_after]

theorem joinItems_no_newline (items : List Str) (h : ∀ a ∈ items, isNumeral a = true) :
    '\n' ∉ joinItems items := by
  induction items with
  | nil => simp [joinItems]
  | cons a rest ih =>
    have ha := numeral_no_newline (h a (List.mem_cons_self _ _))
    cases rest with
    | nil =>
      simp only [joinItems, List.mem_append, List.mem_singleton, not_or]
      exact ⟨ha, by decide⟩
    | cons b rest' =>
      have hj : joinItems (a :: b :: rest') = a ++ [',', ' '] ++ joinItems (b :: rest') := rfl
      rw [hj]
      simp only [List.mem_append, not_or]
      exact ⟨⟨ha, by decide⟩, ih (fun x hx => h x (List.mem_cons_of_mem _ hx))⟩

theorem length_le_joinItems (items : List Str) (h : ∀ a ∈ items, isNumeral a = true) :
    items.length ≤ (joinItems items).length := by
  induction items with
  | nil => simp
  | cons a rest ih =>
    cases rest with
    | nil => simp [joinItems]
    | cons b rest' =>
      have hj : joinItems (a :: b :: rest') = a ++ [',', ' '] ++ joinItems (b :: rest') := rfl
      have := ih (fun x hx => h x (List.mem_cons_of_mem _ hx))
      rw [hj]
      simp only [List.length_append, List.length_cons] at this ⊢
      omega

theorem substr_bracket (s : Str) :
    substr (' ' :: '[' :: s) 2 (sizeMinus (' ' :: '[' :: s).length 2) = .ok s := by
  simp [substr, sizeMinus]

theorem substr_prob (s : Str) :
    substr (' ' :: '[' :: (s ++ [']'])) 2
      (sizeMinus (' ' :: '[' :: (s ++ [']'])).length 3) = .ok s := by
  simp [substr, sizeMinus]

theorem wellFormed_iff {F : Type} (stof : Str → Except Exc F) (r : RecordText) :
    r.wellFormed stof = true ↔
      isNumeral r.user = true ∧ r.items ≠ [] ∧ (∀ a ∈ r.items, isNumeral a = true) ∧
      ':' ∉ r.itemLabel ∧ '\n' ∉ r.itemLabel ∧ isNumeral r.maxItem = true ∧
      ':' ∉ r.probLabel ∧ '\n' ∉ r.probLabel ∧ '\n' ∉ r.maxProb ∧
      (stof r.maxProb).isOk = true ∧ '\n' ∉ r.skipped ∧ r.top.length = 10 ∧
      (∀ p ∈ r.top, isNumeral p.1 = true ∧ '\n' ∉ p.2 ∧ (stof p.2).isOk = true) ∧
      '\n' ∉ r.trailer := by
  unfold RecordText.wellFormed
  simp only [Bool.and_eq_true, Bool.not_eq_true', List.all_eq_true, decide_eq_true_eq,
    List.isEmpty_eq_false, List.contains_eq_any_beq, List.any_eq_false, beq_iff_eq,
    and_assoc]
  constructor
  · rintro ⟨h1, h2, h3, h4, h5, h6, h7, h8, h9, h10, h11, h12, h13, h14⟩
    exact ⟨h1, h2, h3, fun h => h4 _ h rfl, fun h => h5 _ h rfl, h6, fun h => h7 _ h rfl,
      fun h => h8 _ h rfl, fun h => h9 _ h rfl, h10, fun h => h11 _ h rfl, h12,
      fun p hp => ⟨(h13 p hp).1, fun h => (h13 p hp).2.1 _ h rfl, (h13 p hp).2.2⟩,
      fun h => h14 _ h rfl⟩
  · rintro ⟨h1, h2, h3, h4, h5, h6, h7, h8, h9, h10, h11, h12, h13, h14⟩
    exact ⟨h1, h2, h3, fun x hx hxe => h4 (hxe ▸ hx), fun x hx hxe => h5 (hxe ▸ hx), h6,
      fun x hx hxe => h7 (hxe ▸ hx), fun x hx hxe => h8 (hxe ▸ hx),
      fun x hx hxe => h9 (hxe ▸ hx), h10, fun x hx hxe => h11 (hxe ▸ hx), h12,
      fun p hp => ⟨(h13 p hp).1, fun x hx hxe => (h13 p hp).2.1 (hxe ▸ hx), (h13 p hp).2.2⟩,
      fun x hx hxe => h14 (hxe ▸ hx)⟩

/-- Reading a well-formed record: with the header in `line` and the stream at the
record's 15 other lines, `readInputSample` returns the record's values and leaves the
stream right after those lines. -/
theorem readInputSample_record {F : Type} (stof : Str → Except Exc F) (r : RecordText)
    (hwf : r.wellFormed stof = true) (file : IFStream) (rest : Str)
    (hgood : file.eof = false ∧ file.fail = false) (hdata : file.data = r.body ++ rest)
    (allItems : List Int) (itemProbPairVec : List (Int × F)) :
    ∃ v, stof r.maxProb = .ok v ∧
      readInputSample stof file allItems itemProbPairVec r.header =
        .ok ({ file with data := rest },
          { userId := digitsVal r.user
            expectedPredictedMaxRatingItem := digitsVal r.maxItem
            expectedPredictedMaxRatingItemProb := v
            allItems := allItems ++ r.items.map fun a => (digitsVal a : Int)
            itemProbPairVec := itemProbPairVec ++ topPairs stof r.top }) := by
  obtain ⟨huser, hitems, hnum, hil1, hil2, hmax, hpl1, hpl2, hmp, hok, hsk, htop, htopwf, htr⟩ :=
    (wellFormed_iff stof r).mp hwf
  obtain ⟨v, hv⟩ := (isOk_iff _).mp hok
  refine ⟨v, hv, ?_⟩
  obtain ⟨p, ps, hps⟩ : ∃ p ps, r.top = p :: ps := by
    cases htl : r.top with
    | nil => rw [htl] at htop; cases htop
    | cons p ps => exact ⟨p, ps, rfl⟩
  have hpslen : ps.length + 1 = 10 := by rw [hps] at htop; simpa using htop
  -- the header
  have hfind0 : find r.header ':' = some 5 :=
    find_append "user ".toList (' ' :: r.user) ':' (by decide)
  have hsub0 : substr r.header 6 none = .ok (' ' :: r.user) :=
    substr_after "user ".toList (' ' :: r.user) ':'
  -- the stream, line by line
  let d5 := topLines ps ++ (r.trailer ++ '\n' :: rest)
  let d4 := (p.1 ++ " : ".toList ++ p.2) ++ '\n' :: d5
  let d3 := r.skipped ++ '\n' :: d4
  let d2 := ((r.probLabel ++ [' ']) ++ ':' :: (' ' :: '[' :: (r.maxProb ++ [']']))) ++
    '\n' :: d3
  let d1 := ((r.itemLabel ++ [' ']) ++ ':' :: (' ' :: r.maxItem)) ++ '\n' :: d2
  have hd0 : file.data =
      ("items ".toList ++ ':' :: (' ' :: '[' :: joinItems r.items)) ++ '\n' :: d1 := by
    rw [hdata, RecordText.body, hps]
    simp [d1, d2, d3, d4, d5, topLines]
  have hnlJ := joinItems_no_newline r.items hnum
  have h1 := readNextLine_line file "items ".toList (' ' :: '[' :: joinItems r.items) d1 ':'
    hgood hd0
    (by
      simp only [List.mem_append, List.mem_cons, not_or]
      exact ⟨by decide, by decide, by decide, by decide, hnlJ⟩)
    (by decide)
  have h2 := readNextLine_line { file with data := d1 } (r.itemLabel ++ [' '])
    (' ' :: r.maxItem) d2 ':' hgood rfl
    (by
      simp only [List.mem_append, List.mem_cons, List.mem_singleton, not_or]
      exact ⟨⟨hil2, by decide⟩, by decide, by decide, numeral_no_newline hmax⟩)
    (by
      simp only [List.mem_append, List.mem_singleton, not_or]
      exact ⟨hil1, by decide⟩)
  have h3 := readNextLine_line { file with data := d2 } (r.probLabel ++ [' '])
    (' ' :: '[' :: (r.maxProb ++ [']'])) d3 ':' hgood rfl
    (by
      simp only [List.mem_append, List.mem_cons, List.mem_singleton, not_or]
      exact ⟨⟨hpl2, by decide⟩, by decide, by decide, by decide, hmp, by decide⟩)
    (by
      simp only [List.mem_append, List.mem_singleton, not_or]
      exact ⟨hpl1, by decide⟩)
  have h4 := getline_line { file with data := d3 } (' ' :: r.user) r.skipped d4 hgood rfl hsk
  have hpwf := htopwf p (by rw [hps]; exact List.mem_cons_self _ _)
  have h5 := getline_line { file with data := d4 } r.skipped (p.1 ++ " : ".toList ++ p.2) d5
    hgood rfl
    (by
      simp only [List.mem_append, not_or]
      exact ⟨⟨numeral_no_newline hpwf.1, by decide⟩, hpwf.2.1⟩)
  have h6 := readTopRatings_lines stof r.trailer rest htr ps p { file with data := d5 }
    itemProbPairVec (fun q hq => htopwf q (by rw [hps]; exact hq)) hgood rfl
  rw [hpslen] at h6
  have hitemsfuel := readItems_joinItems r.items ((joinItems r.items).length + 1) allItems
    hitems hnum (Nat.lt_succ_of_le (length_le_joinItems r.items hnum))
  unfold readInputSample
  simp only [hfind0, posPlus1, hsub0, stoi_space_numeral _ huser, h1, substr_bracket,
    hitemsfuel, h2, stoi_space_numeral _ hmax, h3, substr_prob, hv, h4, h5, h6, hps,
    bind, Except.bind, pure, Except.pure]

theorem header_no_newline {F : Type} (stof : Str → Except Exc F) (r : RecordText)
    (hwf : r.wellFormed stof = true) : '\n' ∉ r.header := by
  have h := ((wellFormed_iff stof r).mp hwf).1
  unfold RecordText.header
  simp only [List.mem_append, not_or]
  exact ⟨by decide, numeral_no_newline h⟩

theorem storeRecords_numUsers {F : Type} (stof : Str → Except Exc F) (recs : List RecordText) :
    ∀ (userIdx : Int) (args : Args F),
      (storeRecords stof recs userIdx args).numUsers = args.numUsers := by
  induction recs with
  | nil => intro _ _; rfl
  | cons r rest ih =>
    intro userIdx args
    unfold storeRecords
    split
    · rw [ih]
    · rw [ih]

/-- The loop of `parseMovieLensData` over well-formed records that are all wanted
(`userIdx` stays below `numUsers`): it stores them and goes on behind them. -/
theorem parseLoop_records {F : Type} (stof : Str → Except Exc F) (recs : List RecordText) :
    ∀ (fuel : Nat) (file : IFStream) (line0 : Str) (userIdx : Int) (args : Args F)
      (tail : Str),
      (∀ r ∈ recs, r.wellFormed stof = true) →
      file.eof = false ∧ file.fail = false →
      file.data = fileText recs ++ tail →
      userIdx + recs.length ≤ args.numUsers →
      ∃ line1, parseLoop stof (fuel + recs.length) file line0 userIdx args =
        parseLoop stof fuel { file with data := tail } line1 (userIdx + recs.length)
          (storeRecords stof recs userIdx args) := by
  induction recs with
  | nil =>
    intro fuel file line0 userIdx args tail _ _ hdata _
    refine ⟨line0, ?_⟩
    have : file = { file with data := tail } := by
      cases file
      simp only [fileText, List.nil_append] at hdata
      simp [hdata]
    simp only [List.length_nil, Nat.add_zero, Nat.cast_zero, add_zero, storeRecords]
    rw [← this]
  | cons r rest ih =>
    intro fuel file line0 userIdx args tail hwf hgood hdata hle
    have hr := hwf r (List.mem_cons_self _ _)
    have hd : file.data = r.header ++ '\n' :: (r.body ++ (fileText rest ++ tail)) := by
      rw [hdata]
      simp [fileText, RecordText.text]
    have hg := getline_line file line0 r.header (r.body ++ (fileText rest ++ tail)) hgood hd
      (header_no_newline stof r hr)
    obtain ⟨v, hv, hread⟩ := readInputSample_record stof r hr
      { file with data := r.body ++ (fileText rest ++ tail) } (fileText rest ++ tail)
      hgood rfl [] []
    have hlt : userIdx < args.numUsers := by
      simp only [List.length_cons, Nat.cast_add, Nat.cast_one] at hle
      omega
    have hparsed : r.parsed stof = some
        { userId := digitsVal r.user
          expectedPredictedMaxRatingItem := digitsVal r.maxItem
          expectedPredictedMaxRatingItemProb := v
          allItems := r.items.map fun a => (digitsVal a : Int)
          itemProbPairVec := topPairs stof r.top } := by
      simp [RecordText.parsed, hv]
    obtain ⟨line1, hrest⟩ := ih fuel { file with data := fileText rest ++ tail } r.header
      (userIdx + 1)
      { args with
        pargsVec := args.pargsVec ++ [{ userId := digitsVal r.user
                                        expectedPredictedMaxRatingItem := digitsVal r.maxItem
                                        expectedPredictedMaxRatingItemProb := v
                                        allItems := r.items.map fun a => (digitsVal a : Int)
                                        itemProbPairVec := topPairs stof r.top }]
        userToItemsMap := mapSet userIdx (r.items.map fun a => (digitsVal a : Int))
          args.userToItemsMap
        userToExpectedItemProbMap := mapSet userIdx (topPairs stof r.top)
          args.userToExpectedItemProbMap }
      tail (fun x hx => hwf x (List.mem_cons_of_mem _ hx)) hgood rfl
      (by
        simp only [List.length_cons, Nat.cast_add, Nat.cast_one] at hle ⊢
        omega)
    refine ⟨line1, ?_⟩
    have hfuel : fuel + (r :: rest).length = (fuel + rest.length) + 1 := by
      simp only [List.length_cons]; omega
    rw [hfuel, parseLoop]
    simp only [hg, hlt, decide_True, Bool.and_self, if_true, hread, List.nil_append]
    rw [hrest]
    simp only [storeRecords, hparsed, List.length_cons, Nat.cast_add, Nat.cast_one]
    congr 1
    omega

theorem mapSet_append {V : Type} (key : Int) (value : V) (m : List (Int × V))
    (h : ∀ kv ∈ m, kv.1 < key) : mapSet key value m = m ++ [(key, value)] := by
  induction m with
  | nil => rfl
  | cons kv m ih =>
    obtain ⟨k, v⟩ := kv
    have hk : k < key := h (k, v) (List.mem_cons_self _ _)
    have h1 : ¬key < k := by omega
    have h2 : ¬key = k := by omega
    simp only [mapSet, h1, h2, if_false, List.cons_append]
    rw [ih (fun x hx => h x (List.mem_cons_of_mem _ hx))]

theorem storeRecords_tables {F : Type} (stof : Str → Except Exc F) (recs : List RecordText) :
    ∀ (userIdx : Int) (args : Args F),
      (∀ r ∈ recs, r.wellFormed stof = true) →
      (∀ kv ∈ args.userToItemsMap, kv.1 < userIdx) →
      (∀ kv ∈ args.userToExpectedItemProbMap, kv.1 < userIdx) →
      (storeRecords stof recs userIdx args).pargsVec.length =
        args.pargsVec.length + recs.length ∧
      (storeRecords stof recs userIdx args).userToItemsMap.map Prod.fst =
        args.userToItemsMap.map Prod.fst ++
          (List.range recs.length).map (fun i : Nat => userIdx + (i : Int)) ∧
      (storeRecords stof recs userIdx args).userToExpectedItemProbMap.map Prod.fst =
        args.userToExpectedItemProbMap.map Prod.fst ++
          (List.range recs.length).map (fun i : Nat => userIdx + (i : Int)) := by
  induction recs with
  | nil => intro _ _ _ _ _; simp [storeRecords]
  | cons r rest ih =>
    intro userIdx args hwf h1 h2
    have hr := hwf r (List.mem_cons_self _ _)
    obtain ⟨v, hv⟩ := (isOk_iff _).mp ((wellFormed_iff stof r).mp hr).2.2.2.2.2.2.2.2.2.1
    have hlt : ∀ {V : Type} (m : List (Int × V)) (x : V),
        (∀ kv ∈ m, kv.1 < userIdx) → ∀ kv ∈ m ++ [(userIdx, x)], kv.1 < userIdx + 1 := by
      intro V m x hm kv hkv
      rcases List.mem_append.mp hkv with h | h
      · have := hm kv h; omega
      · rw [List.mem_singleton.mp h]; simp
    simp only [storeRecords, RecordText.parsed, hv]
    rw [mapSet_append _ _ _ h1, mapSet_append _ _ _ h2]
    obtain ⟨ih1, ih2, ih3⟩ := ih (userIdx + 1)
      { args with
        pargsVec := args.pargsVec ++ [{ userId := digitsVal r.user
                                        expectedPredictedMaxRatingItem := digitsVal r.maxItem
                                        expectedPredictedMaxRatingItemProb := v
                                        allItems := r.items.map fun a => (digitsVal a : Int)
                                        itemProbPairVec := topPairs stof r.top }]
        userToItemsMap := args.userToItemsMap ++
          [(userIdx, r.items.map fun a => (digitsVal a : Int))]
        userToExpectedItemProbMap := args.userToExpectedItemProbMap ++
          [(userIdx, topPairs stof r.top)] }
      (fun x hx => hwf x (List.mem_cons_of_mem _ hx)) (hlt _ _ h1) (hlt _ _ h2)
    refine ⟨?_, ?_, ?_⟩
    · rw [ih1]
      simp only [List.length_append, List.length_cons, List.length_nil]
      omega
    · rw [ih2]
      simp only [List.map_append, List.map_cons, List.map_nil, List.length_cons,
        List.range_succ_eq_map, List.append_assoc, List.singleton_append, List.map_map]
      congr 2
      · simp
      · apply List.map_congr_left
        intro i _
        simp only [Function.comp_apply, Nat.cast_succ]
        omega
    · rw [ih3]
      simp only [List.map_append, List.map_cons, List.map_nil, List.length_cons,
        List.range_succ_eq_map, List.append_assoc, List.singleton_append, List.map_map]
      congr 2
      · simp
      · apply List.map_congr_left
        intro i _
        simp only [Function.comp_apply, Nat.cast_succ]
        omega

/-- C5, amended: with `numUsers ≥ 0`, empty tables, and a ratings file that begins with
`numUsers` well-formed records (whatever follows them), `parseMovieLensData` returns
(its assertion `numUsers == userIdx` holds) with exactly `numUsers` entries in
`pargsVec` and with exactly the keys `0, ..., numUsers - 1` in `userToItemsMap` and in
`userToExpectedItemProbMap`; with a file that consists of fewer than `numUsers`
well-formed records and nothing else (no cut record, no further line) the assertion
fails, `userIdx` being the number of records. -/
theorem parseMovieLensData_counts {F : Type} (stof : Str → Except Exc F) (numUsers : Nat)
    (args : Args F) (recs : List RecordText) (tail : Str)
    (hn : args.numUsers = numUsers)
    (hempty : args.pargsVec = [] ∧ args.userToItemsMap = [] ∧
      args.userToExpectedItemProbMap = [])
    (hwf : ∀ r ∈ recs, r.wellFormed stof = true) :
    (recs.length = numUsers →
      ∃ a, parseMovieLensData stof (some (fileText recs ++ tail)) args = .returned a ∧
        a.numUsers = numUsers ∧ a.pargsVec.length = numUsers ∧
        a.userToItemsMap.map Prod.fst = (List.range numUsers).map (fun i : Nat => (i : Int)) ∧
        a.userToExpectedItemProbMap.map Prod.fst =
          (List.range numUsers).map (fun i : Nat => (i : Int))) ∧
    (recs.length < numUsers →
      parseMovieLensData stof (some (fileText recs)) args = .assertFailed recs.length) := by
  have hgood : (IFStream.ofFile (some (fileText recs ++ tail))).eof = false ∧
      (IFStream.ofFile (some (fileText recs ++ tail))).fail = false := ⟨rfl, rfl⟩
  have htab := storeRecords_tables stof recs 0 args hwf
    (by rw [hempty.2.1]; simp) (by rw [hempty.2.2]; simp)
  have hnum := storeRecords_numUsers stof recs 0 args
  constructor
  · intro hlen
    obtain ⟨line1, hloop⟩ := parseLoop_records stof recs 1
      (IFStream.ofFile (some (fileText recs ++ tail))) [] 0 args tail hwf hgood rfl
      (by rw [hn, hlen]; simp)
    have hfuel : args.numUsers.toNat + 1 = 1 + recs.length := by
      rw [hn, hlen]; simp; omega
    refine ⟨storeRecords stof recs 0 args, ?_, ?_, ?_, ?_, ?_⟩
    · unfold parseMovieLensData
      rw [hfuel, hloop, parseLoop]
      have hnot : ¬((0 : Int) + (recs.length : Int) <
          (storeRecords stof recs 0 args).numUsers) := by
        rw [hnum, hn, hlen]; simp
      simp only [hnot, decide_False, Bool.and_false, Bool.false_eq_true, if_false]
      rw [hnum, hn, hlen]
      simp
    · rw [hnum, hn]
    · rw [htab.1, hempty.1, hlen]; simp
    · rw [htab.2.1, hempty.2.1, hlen]; simp
    · rw [htab.2.2, hempty.2.2, hlen]; simp
  · intro hlt
    have hgood' : (IFStream.ofFile (some (fileText recs))).eof = false ∧
        (IFStream.ofFile (some (fileText recs))).fail = false := ⟨rfl, rfl⟩
    obtain ⟨line1, hloop⟩ := parseLoop_records stof recs (numUsers - recs.length + 1)
      (IFStream.ofFile (some (fileText recs))) [] 0 args [] hwf hgood'
      (by simp [IFStream.ofFile])
      (by rw [hn]; simp; omega)
    have hfuel : args.numUsers.toNat + 1 = (numUsers - recs.length + 1) + recs.length := by
      rw [hn]; simp; omega
    unfold parseMovieLensData
    rw [hfuel, hloop, parseLoop]
    have hg : getline { IFStream.ofFile (some (fileText recs)) with data := [] } line1 =
        ({ data := [], eof := true, fail := true }, [], false) := by
      simp [getline, IFStream.ofFile]
    simp only [hg, Bool.false_and, Bool.false_eq_true, if_false]
    have hne : ¬((storeRecords stof recs 0 args).numUsers = (recs.length : Int)) := by
      rw [hnum, hn]; simp; omega
    simp only [zero_add, hne, if_false]

/-- Witness of C5: a file of the two records `recordA`, `recordB` read with
`numUsers = 2` gives two entries and the keys 0 and 1; read with `numUsers = 3` the
assertion fails. -/
theorem parseMovieLensData_counts_witness :
    (∃ a, parseMovieLensData stofText (some (fileText [recordA, recordB] ++ []))
        ({ numUsers := 2 } : Args Str) = .returned a ∧
      a.numUsers = (2 : Nat) ∧ a.pargsVec.length = 2 ∧
      a.userToItemsMap.map Prod.fst = (List.range 2).map (fun i : Nat => (i : Int)) ∧
      a.userToExpectedItemProbMap.map Prod.fst =
        (List.range 2).map (fun i : Nat => (i : Int))) ∧
    parseMovieLensData stofText (some (fileText [recordA, recordB]))
      ({ numUsers := 3 } : Args Str) = .assertFailed 2 :=
  ⟨(parseMovieLensData_counts stofText 2 { numUsers := 2 } [recordA, recordB] [] rfl
      ⟨rfl, rfl, rfl⟩ (by decide!)).1 rfl,
   (parseMovieLensData_counts stofText 3 { numUsers := 3 } [recordA, recordB] [] rfl
      ⟨rfl, rfl, rfl⟩ (by decide!)).2 (by decide)⟩

/-- C5 as stated fails on a file that holds fewer than `numUsers` records but
something else besides them.  With `numUsers = 2`, the whole record `recordA` followed
by a record cut in its sixth line (21 newlines in all, where two records have 32):
`parseMovieLensData` returns with its assertion satisfied and two entries, the second
with ten copies of the pair of the last line that could be read.  With `recordA`
followed by an empty line: `stoi` throws `invalid_argument` before the assertion is
reached. -/
theorem cut_record_counted :
    recordB.text.take 108 =
      ("user : 0\nitems : [4, 5, 6]\nexpected max rating item : 5\n" ++
       "expected max rating prob : [0.5]\ntop ratings\n5 : 0.5").toList ∧
    cutFile.count '\n' = 21 ∧ (fileText [recordA, recordB]).count '\n' = 32 ∧
    (parseMovieLensData stofText (some cutFile) ({ numUsers := 2 } : Args Str)).entries.map
      (fun v => (v.length, v.map (fun p => p.userId),
        v.map (fun p => p.itemProbPairVec.length))) = some (2, [1, 0], [10, 10]) ∧
    (parseMovieLensData stofText (some cutFile) ({ numUsers := 2 } : Args Str)).entries.map
      (fun v => (v.get? 1).map (fun p => p.itemProbPairVec)) =
      some (some (List.replicate 10 (5, "0.5".toList))) ∧
    parseMovieLensData stofText (some blankLineFile) ({ numUsers := 2 } : Args Str) =
      .threw .invalid_argument := by
  decide!

/-- C9, on a ratings file whose first record is of user 1 and whose second is of
user 0 (`numUsers = 2`, 100 items each, the network answering index 2 for row 0):
row 0 was filled from the first record, whose first pair has item 7 and whose item
at position 2 is 3; the line printed for row 0 shows expected item 5 and predicted
item 503, which are those of the second record. -/
theorem printInferenceOutput_swapped_ids :
    workerReport stofText (some swappedFile) ({ numUsers := 2 } : Args Str) [2, 3]
        ["0.1".toList, "0.2".toList] =
      .ok [.user 1 5 503, .user 0 7 4] ∧
    ((recordOf "1".toList "7".toList 0).parsed stofText).map
        (fun p => (p.userId, p.itemProbPairVec.head?.map Prod.fst, p.allItems.get? 2)) =
      some (1, some 7, some 3) := by
  decide!

theorem bufUpTo_length (len c : Nat) (f : Nat → Nat) : (bufUpTo len c f).length = len := by
  simp [bufUpTo]

theorem bufUpTo_get? (len c : Nat) (f : Nat → Nat) (j : Nat) (hj : j < len) :
    (bufUpTo len c f).get? j = some (if j < c then f j else 0) := by
  simp [bufUpTo, List.getElem?_range hj]

theorem bufUpTo_zero (len : Nat) (f : Nat → Nat) : bufUpTo len 0 f = List.replicate len 0 := by
  apply List.ext_get?
  intro j
  by_cases hj : j < len
  · rw [bufUpTo_get? len 0 f j hj]
    simp [hj]
  · simp [bufUpTo, hj, List.getElem?_eq_none]

theorem bufUpTo_set (len c : Nat) (f : Nat → Nat) (hc : c < len) :
    (bufUpTo len c f).set c (f c) = bufUpTo len (c + 1) f := by
  apply List.ext_get?
  intro j
  by_cases hj : j < len
  · rw [bufUpTo_get? len (c + 1) f j hj]
    simp only [List.get?_eq_getElem?, List.getElem?_set, bufUpTo_length]
    by_cases hcj : c = j
    · subst hcj
      simp [hc]
    · have := bufUpTo_get? len c f j hj
      simp only [List.get?_eq_getElem?] at this
      rw [if_neg hcj, this]
      have h1 : j < c ↔ j < c + 1 := by omega
      simp only [h1]
  · have hle : len ≤ j := Nat.le_of_not_lt hj
    have h1 : (bufUpTo len (c + 1) f).get? j = none := by
      simp [bufUpTo, hle]
    have h2 : ((bufUpTo len c f).set c (f c)).get? j = none := by
      simp [bufUpTo, hle]
    rw [h1, h2]

theorem toInt32_small (x : Int) (h0 : 0 ≤ x) (h1 : x < 2147483648) : toInt32 x = x := by
  unfold toInt32
  norm_num
  omega

theorem setU32_bufUpTo (len c : Nat) (f : Nat → Nat) (x : Int) (hc : c < len)
    (hx : toUInt32 x = f c) :
    setU32 (bufUpTo len c f) (c : Int) x = .ok (bufUpTo len (c + 1) f) := by
  unfold setU32
  have h : 0 ≤ (c : Int) ∧ (c : Int).toNat < (bufUpTo len c f).length := by
    rw [bufUpTo_length]
    exact ⟨Int.natCast_nonneg c, by simpa using hc⟩
  rw [if_pos h, hx]
  simp only [Int.toNat_ofNat, bufUpTo_set len c f hc]

theorem index_lt {n m i k : Nat} (hi : i < n) (hk : k < m) : i * m + k < n * m := by
  calc i * m + k < i * m + m := by omega
    _ = (i + 1) * m := by ring
    _ ≤ n * m := Nat.mul_le_mul_right m hi

theorem index_div {m i k : Nat} (hk : k < m) : (i * m + k) / m = i := by
  have hm : 0 < m := by omega
  rw [Nat.mul_comm, Nat.mul_add_div hm, Nat.div_eq_of_lt hk, Nat.add_zero]

theorem index_mod {m i k : Nat} (hk : k < m) : (i * m + k) % m = k := by
  rw [Nat.mul_comm, Nat.mul_add_mod, Nat.mod_eq_of_lt hk]

theorem inputLength_eq {F : Type} (args : Args F) (n m : Nat) (hn : args.numUsers = n)
    (hm : args.numMoviesPerUser = m) (hnm : n * m < 2147483648) :
    inputLength args = 4 * (n * m) := by
  unfold inputLength
  rw [hn, hm]
  have h1 : ((n : Int) * (m : Int)) = ((n * m : Nat) : Int) := by push_cast; rfl
  rw [h1, toInt32_small _ (Int.natCast_nonneg _) (by exact_mod_cast hnm)]
  unfold toSizeT
  have h2 : ((n * m : Nat) : Int) % 18446744073709551616 = ((n * m : Nat) : Int) := by
    apply Int.emod_eq_of_lt (Int.natCast_nonneg _)
    have : ((n * m : Nat) : Int) < 2147483648 := by exact_mod_cast hnm
    omega
  rw [h2, Int.toNat_ofNat]
  omega

/-- A row whose record has at least `m` items is filled from column `k` to its end. -/
theorem fillRow_ok {F : Type} (args : Args F) (n m len i : Nat) (p : OutputArgs F)
    (hm : args.numMoviesPerUser = m) (hnm : n * m < 2147483648) (hlen : n * m ≤ len)
    (hi : i < n) (hp : args.pargsVec.get? i = some p) (hitems : m ≤ p.allItems.length) :
    ∀ (r k : Nat), k + r = m →
      fillRow args (i : Int) r (k : Int)
          (bufUpTo len (i * m + k) (userAt args m), bufUpTo len (i * m + k) (itemAt args m)) =
        .ok (bufUpTo len (i * m + m) (userAt args m),
             bufUpTo len (i * m + m) (itemAt args m)) := by
  intro r
  induction r with
  | zero =>
    intro k hk
    have : k = m := by omega
    subst this
    rfl
  | succ r ih =>
    intro k hk
    have hkm : k < m := by omega
    have hidx := index_lt hi hkm
    have hcast : (i : Int) * args.numMoviesPerUser + (k : Int) = ((i * m + k : Nat) : Int) := by
      rw [hm]; push_cast; rfl
    have hto : toInt32 ((i : Int) * args.numMoviesPerUser + (k : Int)) =
        ((i * m + k : Nat) : Int) := by
      rw [hcast]
      exact toInt32_small _ (Int.natCast_nonneg _) (by exact_mod_cast (by omega : i * m + k < 2147483648))
    have hget : (if (i : Int) < 0 then none else args.pargsVec.get? (i : Int).toNat) = some p := by
      have : ¬((i : Int) < 0) := by simp
      rw [if_neg this, Int.toNat_ofNat, hp]
    obtain ⟨x, hx⟩ : ∃ x, p.allItems.get? k = some x := by
      have hk' : k < p.allItems.length := by omega
      exact ⟨_, List.get?_eq_get hk'⟩
    have hvec : vecAt p.allItems (k : Int) = .ok x := by
      unfold vecAt
      have : ¬((k : Int) < 0) := by simp
      rw [if_neg this, Int.toNat_ofNat, hx]
    have hu : toUInt32 p.userId = userAt args m (i * m + k) := by
      unfold userAt
      rw [index_div hkm, hp]
    have hit : toUInt32 x = itemAt args m (i * m + k) := by
      unfold itemAt
      rw [index_div hkm, hp, index_mod hkm]
      simp only [hx]
    rw [fillRow]
    simp only [hto, hget, setU32_bufUpTo len _ _ _ (by omega) hu, hvec,
      setU32_bufUpTo len _ _ _ (by omega) hit]
    have := ih (k + 1) (by omega)
    rw [show i * m + (k + 1) = i * m + k + 1 by omega] at this
    rw [← this]
    simp

/-- A row whose record has fewer than `m` items ends in `out_of_range`. -/
theorem fillRow_short {F : Type} (args : Args F) (n m len i : Nat) (p : OutputArgs F)
    (hm : args.numMoviesPerUser = m) (hnm : n * m < 2147483648) (hlen : n * m ≤ len)
    (hi : i < n) (hp : args.pargsVec.get? i = some p) (hitems : p.allItems.length < m) :
    ∀ (r k : Nat), k + r = m → k ≤ p.allItems.length →
      fillRow args (i : Int) r (k : Int)
          (bufUpTo len (i * m + k) (userAt args m), bufUpTo len (i * m + k) (itemAt args m)) =
        .error (.threw .out_of_range) := by
  intro r
  induction r with
  | zero =>
    intro k hk hkl
    omega
  | succ r ih =>
    intro k hk hkl
    have hkm : k < m := by omega
    have hidx := index_lt hi hkm
    have hcast : (i : Int) * args.numMoviesPerUser + (k : Int) = ((i * m + k : Nat) : Int) := by
      rw [hm]; push_cast; rfl
    have hto : toInt32 ((i : Int) * args.numMoviesPerUser + (k : Int)) =
        ((i * m + k : Nat) : Int) := by
      rw [hcast]
      exact toInt32_small _ (Int.natCast_nonneg _) (by exact_mod_cast (by omega : i * m + k < 2147483648))
    have hget : (if (i : Int) < 0 then none else args.pargsVec.get? (i : Int).toNat) = some p := by
      have : ¬((i : Int) < 0) := by simp
      rw [if_neg this, Int.toNat_ofNat, hp]
    have hu : toUInt32 p.userId = userAt args m (i * m + k) := by
      unfold userAt
      rw [index_div hkm, hp]
    rw [fillRow]
    simp only [hto, hget, setU32_bufUpTo len _ _ _ (by omega) hu]
    by_cases hkl' : k < p.allItems.length
    · obtain ⟨x, hx⟩ : ∃ x, p.allItems.get? k = some x := ⟨_, List.get?_eq_get hkl'⟩
      have hvec : vecAt p.allItems (k : Int) = .ok x := by
        unfold vecAt
        have : ¬((k : Int) < 0) := by simp
        rw [if_neg this, Int.toNat_ofNat, hx]
      have hit : toUInt32 x = itemAt args m (i * m + k) := by
        unfold itemAt
        rw [index_div hkm, hp, index_mod hkm]
        simp only [hx]
      simp only [hvec, setU32_bufUpTo len _ _ _ (by omega) hit]
      have := ih (k + 1) (by omega) (by omega)
      rw [show i * m + (k + 1) = i * m + k + 1 by omega] at this
      rw [← this]
      simp
    · have hvec : vecAt p.allItems (k : Int) = .error .out_of_range := by
        unfold vecAt
        have : ¬((k : Int) < 0) := by simp
        have hnone : p.allItems.get? k = none := by
          simp only [List.get?_eq_getElem?, List.getElem?_eq_none_iff]
          omega
        rw [if_neg this, Int.toNat_ofNat, hnone]
      simp only [hvec]

/-- The rows from `i` on are filled when each of their records has `m` items. -/
theorem fillRows_ok {F : Type} (args : Args F) (n m len : Nat)
    (hm : args.numMoviesPerUser = m) (hnm : n * m < 2147483648) (hlen : n * m ≤ len)
    (hvec : n ≤ args.pargsVec.length)
    (hitems : ∀ i p, i < n → args.pargsVec.get? i = some p → m ≤ p.allItems.length) :
    ∀ (r i : Nat), i + r = n →
      fillRows args r (i : Int)
          (bufUpTo len (i * m) (userAt args m), bufUpTo len (i * m) (itemAt args m)) =
        .ok (bufUpTo len (n * m) (userAt args m), bufUpTo len (n * m) (itemAt args m)) := by
  intro r
  induction r with
  | zero =>
    intro i hi
    have : i = n := by omega
    subst this
    rfl
  | succ r ih =>
    intro i hi
    have hin : i < n := by omega
    obtain ⟨p, hp⟩ : ∃ p, args.pargsVec.get? i = some p :=
      ⟨_, List.get?_eq_get (by omega : i < args.pargsVec.length)⟩
    have hrow := fillRow_ok args n m len i p hm hnm hlen hin hp (hitems i p hin hp) m 0
      (by omega)
    rw [fillRows, hm, Int.toNat_ofNat]
    simp only [Nat.cast_zero, Nat.add_zero] at hrow
    simp only [hrow]
    have := ih (i + 1) (by omega)
    rw [show (i + 1) * m = i * m + m by ring] at this
    rw [← this]
    simp

/-- The rows from `i` on end in `out_of_range` when one of their records is short. -/
theorem fillRows_short {F : Type} (args : Args F) (n m len : Nat)
    (hm : args.numMoviesPerUser = m) (hnm : n * m < 2147483648) (hlen : n * m ≤ len)
    (hvec : n ≤ args.pargsVec.length) :
    ∀ (r i : Nat), i + r = n →
      (∃ j p, i ≤ j ∧ j < n ∧ args.pargsVec.get? j = some p ∧ p.allItems.length < m) →
      fillRows args r (i : Int)
          (bufUpTo len (i * m) (userAt args m), bufUpTo len (i * m) (itemAt args m)) =
        .error (.threw .out_of_range) := by
  intro r
  induction r with
  | zero =>
    intro i hi ⟨j, p, h1, h2, _⟩
    omega
  | succ r ih =>
    intro i hi ⟨j, pj, h1, h2, hpj, hshort⟩
    have hin : i < n := by omega
    obtain ⟨p, hp⟩ : ∃ p, args.pargsVec.get? i = some p :=
      ⟨_, List.get?_eq_get (by omega : i < args.pargsVec.length)⟩
    rw [fillRows, hm, Int.toNat_ofNat]
    by_cases hs : p.allItems.length < m
    · have hrow := fillRow_short args n m len i p hm hnm hlen hin hp hs m 0 (by omega)
        (Nat.zero_le _)
      simp only [Nat.cast_zero, Nat.add_zero] at hrow
      simp only [hrow]
    · have hrow := fillRow_ok args n m len i p hm hnm hlen hin hp (by omega) m 0 (by omega)
      simp only [Nat.cast_zero, Nat.add_zero] at hrow
      simp only [hrow]
      have hij : i ≠ j := by
        rintro rfl
        rw [hp] at hpj
        cases hpj
        exact hs hshort
      have := ih (i + 1) (by omega) ⟨j, pj, by omega, h2, hpj, hshort⟩
      rw [show (i + 1) * m = i * m + m by ring] at this
      rw [← this]
      simp

/-- C10 as stated fails when `numUsers * numMoviesPerUser` leaves the range of `int`:
with 21474837 records of 100 items each (and `numMoviesPerUser` 100) the product
2147483700 wraps to a negative `int`, the size asked of the two vectors becomes
18446744065119617232 elements, and their construction throws `length_error`: no
index of any row is filled. -/
theorem fillInputs_int_overflow :
    manyUsers.numUsers = 21474837 ∧ manyUsers.numMoviesPerUser = 100 ∧
    manyUsers.pargsVec.length = 21474837 ∧
    (∀ p ∈ manyUsers.pargsVec, p.allItems.length = 100) ∧
    inputLength manyUsers = 18446744065119617232 ∧
    fillInputs manyUsers = .error (.threw .length_error) := by
  refine ⟨rfl, rfl, ?_, ?_, rfl, ?_⟩
  · show (List.replicate 21474837 _).length = _
    exact List.length_replicate _ _
  · intro p hp
    have h : p = ⟨0, 0, (), List.replicate 100 0, []⟩ := List.eq_of_mem_replicate hp
    rw [h]
    exact List.length_replicate _ _
  · unfold fillInputs
    rw [if_pos (by rw [show inputLength manyUsers = 18446744065119617232 from rfl]; decide)]

/-- C10: let `numUsers = n`, `numMoviesPerUser = m` with `n * m` within `int`, and let
`pargsVec` hold at least `n` records.  When each of the first `n` records has at least
`m` items, the fill returns two vectors of `4 * n * m` elements with, for `i < n` and
`k < m`, the index `i * m + k` inside them, `userInput[i * m + k]` the user id of
record `i` and `itemInput[i * m + k]` its item `k` (as `uint32_t`, which is the value
itself when it is not negative), and 0 at every index from `n * m` on.  When one of
the first `n` records has fewer than `m` items, the fill throws `out_of_range`. -/
theorem fillInputs_row_major {F : Type} (args : Args F) (n m : Nat)
    (hn : args.numUsers = n) (hm : args.numMoviesPerUser = m)
    (hnm : n * m < 2147483648) (hvec : n ≤ args.pargsVec.length) :
    ((∀ i p, i < n → args.pargsVec.get? i = some p → m ≤ p.allItems.length) →
      ∃ userInput itemInput, fillInputs args = .ok (userInput, itemInput) ∧
        userInput.length = 4 * (n * m) ∧ itemInput.length = 4 * (n * m) ∧
        (∀ i k p, i < n → k < m → args.pargsVec.get? i = some p →
          i * m + k < userInput.length ∧
          userInput.get? (i * m + k) = some (toUInt32 p.userId) ∧
          ∃ x, p.allItems.get? k = some x ∧
            itemInput.get? (i * m + k) = some (toUInt32 x)) ∧
        (∀ j, n * m ≤ j → j < 4 * (n * m) →
          userInput.get? j = some 0 ∧ itemInput.get? j = some 0)) ∧
    ((∃ i p, i < n ∧ args.pargsVec.get? i = some p ∧ p.allItems.length < m) →
      fillInputs args = .error (.threw .out_of_range)) ∧
    (∀ x : Int, 0 ≤ x → x < 4294967296 → (toUInt32 x : Int) = x) := by
  have hlen := inputLength_eq args n m hn hm hnm
  have hmax : ¬(2305843009213693951 < inputLength args) := by rw [hlen]; omega
  have hle : n * m ≤ inputLength args := by rw [hlen]; omega
  have hinit : (List.replicate (inputLength args) 0, List.replicate (inputLength args) 0) =
      (bufUpTo (inputLength args) (0 * m) (userAt args m),
       bufUpTo (inputLength args) (0 * m) (itemAt args m)) := by
    rw [Nat.zero_mul, bufUpTo_zero, bufUpTo_zero]
  refine ⟨?_, ?_, ?_⟩
  · intro hitems
    have hrows := fillRows_ok args n m (inputLength args) hm hnm hle hvec hitems n 0 (by omega)
    refine ⟨bufUpTo (inputLength args) (n * m) (userAt args m),
      bufUpTo (inputLength args) (n * m) (itemAt args m), ?_, ?_, ?_, ?_, ?_⟩
    · unfold fillInputs
      rw [if_neg hmax, hn, Int.toNat_ofNat, hinit]
      exact hrows
    · rw [bufUpTo_length, hlen]
    · rw [bufUpTo_length, hlen]
    · intro i k p hi hk hp
      have hidx := index_lt hi hk
      have hil : i * m + k < inputLength args := by omega
      have hkl : k < p.allItems.length := by
        have := hitems i p hi hp
        omega
      refine ⟨by rw [bufUpTo_length]; exact hil, ?_, p.allItems.get ⟨k, hkl⟩,
        List.get?_eq_get hkl, ?_⟩
      · rw [bufUpTo_get? _ _ _ _ hil, if_pos hidx]
        unfold userAt
        rw [index_div hk, hp]
      · rw [bufUpTo_get? _ _ _ _ hil, if_pos hidx]
        unfold itemAt
        rw [index_div hk, hp, index_mod hk]
        simp only [List.get?_eq_get hkl]
    · intro j hj1 hj2
      have hjl : j < inputLength args := by rw [hlen]; exact hj2
      rw [bufUpTo_get? _ _ _ _ hjl, bufUpTo_get? _ _ _ _ hjl]
      have : ¬(j < n * m) := by omega
      simp only [this, if_false, and_self]
  · rintro ⟨i, p, hi, hp, hshort⟩
    unfold fillInputs
    rw [if_neg hmax, hn, Int.toNat_ofNat, hinit]
    exact fillRows_short args n m (inputLength args) hm hnm hle hvec n 0 (by omega)
      ⟨i, p, Nat.zero_le _, hi, hp, hshort⟩
  · intro x h0 h1
    unfold toUInt32
    rw [Int.emod_eq_of_lt h0 h1, Int.toNat_of_nonneg h0]

/-- Witness of C10: two records of three items with `numMoviesPerUser = 3` fill the
first six elements of 24; with `numMoviesPerUser = 4` the fill throws. -/
theorem fillInputs_row_major_witness :
    fillInputs (twoRecords 3) =
      .ok ([1, 1, 1, 0, 0, 0, 0, 0, 0, 0, 0, 0, 0, 0, 0, 0, 0, 0, 0, 0, 0, 0, 0, 0],
           [12, 7, 305, 4, 5, 6, 0, 0, 0, 0, 0, 0, 0, 0, 0, 0, 0, 0, 0, 0, 0, 0, 0, 0]) ∧
    (∃ userInput itemInput, fillInputs (twoRecords 3) = .ok (userInput, itemInput) ∧
      userInput.length = 4 * (2 * 3) ∧ itemInput.length = 4 * (2 * 3) ∧
      (∀ i k p, i < 2 → k < 3 → (twoRecords 3).pargsVec.get? i = some p →
        i * 3 + k < userInput.length ∧
        userInput.get? (i * 3 + k) = some (toUInt32 p.userId) ∧
        ∃ x, p.allItems.get? k = some x ∧
          itemInput.get? (i * 3 + k) = some (toUInt32 x)) ∧
      (∀ j, 2 * 3 ≤ j → j < 4 * (2 * 3) →
        userInput.get? j = some 0 ∧ itemInput.get? j = some 0)) ∧
    fillInputs (twoRecords 4) = .error (.threw .out_of_range) :=
  ⟨by decide,
   (fillInputs_row_major (twoRecords 3) 2 3 rfl rfl (by decide) (by decide)).1
     (by
       intro i p hi hp
       have hi' : i = 0 ∨ i = 1 := by omega
       rcases hi' with rfl | rfl
       · cases hp; decide
       · cases hp; decide),
   (fillInputs_row_major (twoRecords 4) 2 4 rfl rfl (by decide) (by decide)).2.1
     ⟨0, ⟨1, 7, (), [12, 7, 305], []⟩, by decide, rfl, by decide⟩⟩

/-! ### C11: one record -/

theorem isIntText_neg (d : Str) :
    isIntText ('-' :: d) = true ↔
      d ≠ [] ∧ (∀ c ∈ d, c.isDigit = true) ∧ digitsVal d ≤ 2147483648 := by
  unfold isIntText
  cases d <;> simp [and_assoc]

theorem isIntText_cases (s : Str) (h : isIntText s = true) :
    (∃ d, s = '-' :: d ∧ d ≠ [] ∧ (∀ c ∈ d, c.isDigit = true) ∧ digitsVal d ≤ 2147483648 ∧
      intVal s = -(digitsVal d : Int)) ∨
    (isNumeral s = true ∧ intVal s = (digitsVal s : Int)) := by
  unfold isIntText at h
  split at h
  · next d =>
    left
    have := (isIntText_neg d).mp (by unfold isIntText; exact h)
    exact ⟨d, rfl, this.1, this.2.1, this.2.2, rfl⟩
  · next hne =>
    right
    refine ⟨h, ?_⟩
    unfold intVal
    split
    · next d => exact absurd rfl (hne d)
    · rfl

theorem strtolVal_neg (d : Str) (hne : d ≠ []) (hdig : ∀ c ∈ d, c.isDigit = true) :
    strtolVal ('-' :: d) = some (-(digitsVal d : Int)) := by
  have htw : d.takeWhile Char.isDigit = d := List.takeWhile_eq_self_iff.mpr hdig
  have hdw : ('-' :: d).dropWhile isspace = '-' :: d := by
    rw [List.dropWhile_cons]
    rfl
  unfold strtolVal
  simp only [hdw, htw]
  cases d with
  | nil => exact absurd rfl hne
  | cons c cs => rfl

theorem intText_spec (s : Str) (h : isIntText s = true) :
    s ≠ [] ∧ (∀ c ∈ s, isspace c = false) ∧ ':' ∉ s ∧ '\n' ∉ s ∧
      stoi s = .ok (intVal s) := by
  rcases isIntText_cases s h with ⟨d, rfl, hne, hdig, hle, hval⟩ | ⟨hnum, hval⟩
  · refine ⟨by simp, ?_, ?_, ?_, ?_⟩
    · intro c hc
      rcases List.mem_cons.mp hc with rfl | hc
      · rfl
      · exact isDigit_not_space (hdig c hc)
    · intro hm
      rcases List.mem_cons.mp hm with h1 | h1
      · exact absurd h1 (by decide)
      · exact absurd (hdig _ h1) (by decide)
    · intro hm
      rcases List.mem_cons.mp hm with h1 | h1
      · exact absurd h1 (by decide)
      · exact absurd (hdig _ h1) (by decide)
    · unfold stoi
      rw [strtolVal_neg d hne hdig, hval]
      have h1 : ¬(-(digitsVal d : Int) < -2 ^ 31 ∨ 2 ^ 31 - 1 < -(digitsVal d : Int)) := by
        have : (0 : Int) ≤ digitsVal d := Int.natCast_nonneg _
        have h2 : (digitsVal d : Int) ≤ 2147483648 := by exact_mod_cast hle
        norm_num
        omega
      simp only [h1, if_false]
  · obtain ⟨hne, hdig, -⟩ := (isNumeral_iff s).mp hnum
    refine ⟨hne, fun c hc => isDigit_not_space (hdig c hc), numeral_no_colon hnum,
      numeral_no_newline hnum, ?_⟩
    rw [hval]
    exact stoi_numeral s hnum

theorem stoi_space (s : Str) : stoi (' ' :: s) = stoi s := by
  unfold stoi
  rw [strtolVal_space]

theorem readItems_joinItems_int (items : List Str) :
    ∀ (fuel : Nat) (acc : List Int), items ≠ [] → (∀ a ∈ items, isIntText a = true) →
      items.length < fuel →
      readItems fuel (joinItems items) acc = .ok (acc ++ items.map intVal) := by
  induction items with
  | nil => intro _ _ h; exact absurd rfl h
  | cons a rest ih =>
    intro fuel acc _ hnum hfuel
    obtain ⟨hane, hasp, -, -, hstoi⟩ := intText_spec a (hnum a (List.mem_cons_self _ _))
    cases fuel with
    | zero => exact absurd hfuel (Nat.not_lt_zero _)
    | succ f =>
      cases rest with
      | nil =>
        have hf : 0 < f := by simpa using hfuel
        obtain ⟨f', rfl⟩ : ∃ f', f = f' + 1 := ⟨f - 1, by omega⟩
        have hex : extract (a ++ [']']) = some (a ++ [']'], []) := by
          have := extract_token (a ++ [']']) [] (by simp)
            (by
              intro c hc
              rcases List.mem_append.mp hc with h | h
              · exact hasp c h
              · rw [List.mem_singleton.mp h]; rfl)
            (Or.inl rfl)
          simpa using this
        simp only [joinItems, readItems, hex, substr_init, hstoi, peekIgnore]
        simp [extract]
      | cons b rest' =>
        have hf : (b :: rest').length < f := by
          simp only [List.length_cons] at hfuel ⊢; omega
        have hex : extract (a ++ [',', ' '] ++ joinItems (b :: rest')) =
            some (a ++ [','], ' ' :: joinItems (b :: rest')) := by
          have := extract_token (a ++ [',']) (' ' :: joinItems (b :: rest')) (by simp)
            (by
              intro c hc
              rcases List.mem_append.mp hc with h | h
              · exact hasp c h
              · rw [List.mem_singleton.mp h]; rfl)
            (Or.inr ⟨' ', _, rfl, rfl⟩)
          simpa using this
        have hih := ih f (acc ++ [intVal a]) (by simp)
          (fun x hx => hnum x (List.mem_cons_of_mem _ hx)) hf
        have hj : joinItems (a :: b :: rest') = a ++ [',', ' '] ++ joinItems (b :: rest') := rfl
        rw [hj]
        simp only [readItems, hex, substr_init, hstoi, peekIgnore]
        simp only [Char.reduceEq, or_true, if_true, false_or]
        rw [hih]
        simp

theorem joinItems_no_newline_int (items : List Str) (h : ∀ a ∈ items, '\n' ∉ a) :
    '\n' ∉ joinItems items := by
  induction items with
  | nil => simp [joinItems]
  | cons a rest ih =>
    have ha := h a (List.mem_cons_self _ _)
    cases rest with
    | nil =>
      simp only [joinItems, List.mem_append, List.mem_singleton, not_or]
      exact ⟨ha, by decide⟩
    | cons b rest' =>
      have hj : joinItems (a :: b :: rest') = a ++ [',', ' '] ++ joinItems (b :: rest') := rfl
      rw [hj]
      simp only [List.mem_append, not_or]
      exact ⟨⟨ha, by decide⟩, ih (fun x hx => h x (List.mem_cons_of_mem _ hx))⟩

theorem length_le_joinItems_int (items : List Str) :
    items.length ≤ (joinItems items).length := by
  induction items with
  | nil => simp
  | cons a rest ih =>
    cases rest with
    | nil => simp [joinItems]
    | cons b rest' =>
      have hj : joinItems (a :: b :: rest') = a ++ [',', ' '] ++ joinItems (b :: rest') := rfl
      rw [hj]
      simp only [List.length_append, List.length_cons] at ih ⊢
      omega

theorem top_line_find_int (it pr : Str) (h : ':' ∉ it) :
    find (it ++ " : ".toList ++ pr) ':' = some (it.length + 1) := by
  have hc : ':' ∉ it ++ [' '] := by
    intro hm
    rcases List.mem_append.mp hm with h1 | h1
    · exact h h1
    · simp at h1
  have := find_append (it ++ [' ']) (' ' :: pr) ':' hc
  simpa using this

theorem readTopRatings_lines_int {F : Type} (stof : Str → Except Exc F) (tr rest : Str)
    (htr : '\n' ∉ tr) :
    ∀ (ps : List (Str × Str)) (p : Str × Str) (file : IFStream) (vec : List (Int × F)),
      (∀ q ∈ p :: ps, isIntText q.1 = true ∧ '\n' ∉ q.2 ∧ (stof q.2).isOk = true) →
      file.eof = false ∧ file.fail = false →
      file.data = topLines ps ++ (tr ++ '\n' :: rest) →
      readTopRatings stof (ps.length + 1) file (p.1 ++ " : ".toList ++ p.2) vec =
        .ok ({ file with data := rest }, vec ++ topPairsInt stof (p :: ps)) := by
  intro ps
  induction ps with
  | nil =>
    intro p file vec hwf hgood hdata
    obtain ⟨hnum, -, hok⟩ := hwf p (List.mem_cons_self _ _)
    obtain ⟨-, -, hcol, -, hstoi⟩ := intText_spec p.1 hnum
    obtain ⟨v, hv⟩ := (isOk_iff _).mp hok
    have hg := getline_line file (p.1 ++ " : ".toList ++ p.2) tr rest hgood
      (by simpa [topLines] using hdata) htr
    simp only [List.length_nil, Nat.zero_add, readTopRatings, top_line_find_int _ _ hcol,
      posMinus1, posPlus2, top_line_item, hstoi, top_line_prob, hv, hg,
      topPairsInt]
  | cons q qs ih =>
    intro p file vec hwf hgood hdata
    obtain ⟨hnum, -, hok⟩ := hwf p (List.mem_cons_self _ _)
    obtain ⟨-, -, hcol, -, hstoi⟩ := intText_spec p.1 hnum
    obtain ⟨hqnum, hqnl, -⟩ := hwf q (List.mem_cons_of_mem _ (List.mem_cons_self _ _))
    obtain ⟨v, hv⟩ := (isOk_iff _).mp hok
    have hqline : '\n' ∉ q.1 ++ " : ".toList ++ q.2 := by
      intro hm
      rcases List.mem_append.mp hm with h1 | h1
      · rcases List.mem_append.mp h1 with h2 | h2
        · exact (intText_spec q.1 hqnum).2.2.2.1 h2
        · simp at h2
      · exact hqnl h1
    have hg := getline_line file (p.1 ++ " : ".toList ++ p.2) (q.1 ++ " : ".toList ++ q.2)
      (topLines qs ++ (tr ++ '\n' :: rest)) hgood
      (by rw [hdata]; simp [topLines]) hqline
    have hih := ih q { file with data := topLines qs ++ (tr ++ '\n' :: rest) }
      (vec ++ [(intVal p.1, v)])
      (fun x hx => hwf x (List.mem_cons_of_mem _ hx)) hgood rfl
    rw [List.length_cons, readTopRatings]
    simp only [top_line_find_int _ _ hcol, posMinus1, posPlus2, top_line_item,
      hstoi, top_line_prob, hv, hg]
    rw [hih]
    simp [topPairsInt, hv]

theorem wellFormedInt_iff {F : Type} (stof : Str → Except Exc F) (r : RecordText) :
    r.wellFormedInt stof = true ↔
      isIntText r.user = true ∧ r.items ≠ [] ∧ (∀ a ∈ r.items, isIntText a = true) ∧
      ':' ∉ r.itemLabel ∧ '\n' ∉ r.itemLabel ∧ isIntText r.maxItem = true ∧
      ':' ∉ r.probLabel ∧ '\n' ∉ r.probLabel ∧ '\n' ∉ r.maxProb ∧
      (stof r.maxProb).isOk = true ∧ '\n' ∉ r.skipped ∧ r.top.length = 10 ∧
      (∀ p ∈ r.top, isIntText p.1 = true ∧ '\n' ∉ p.2 ∧ (stof p.2).isOk = true) ∧
      '\n' ∉ r.trailer := by
  unfold RecordText.wellFormedInt
  simp only [Bool.and_eq_true, Bool.not_eq_true', List.all_eq_true, decide_eq_true_eq,
    List.isEmpty_eq_false, List.contains_eq_any_beq, List.any_eq_false, beq_iff_eq,
    and_assoc]
  constructor
  · rintro ⟨h1, h2, h3, h4, h5, h6, h7, h8, h9, h10, h11, h12, h13, h14⟩
    exact ⟨h1, h2, h3, fun h => h4 _ h rfl, fun h => h5 _ h rfl, h6, fun h => h7 _ h rfl,
      fun h => h8 _ h rfl, fun h => h9 _ h rfl, h10, fun h => h11 _ h rfl, h12,
      fun p hp => ⟨(h13 p hp).1, fun h => (h13 p hp).2.1 _ h rfl, (h13 p hp).2.2⟩,
      fun h => h14 _ h rfl⟩
  · rintro ⟨h1, h2, h3, h4, h5, h6, h7, h8, h9, h10, h11, h12, h13, h14⟩
    exact ⟨h1, h2, h3, fun x hx hxe => h4 (hxe ▸ hx), fun x hx hxe => h5 (hxe ▸ hx), h6,
      fun x hx hxe => h7 (hxe ▸ hx), fun x hx hxe => h8 (hxe ▸ hx),
      fun x hx hxe => h9 (hxe ▸ hx), h10, fun x hx hxe => h11 (hxe ▸ hx), h12,
      fun p hp => ⟨(h13 p hp).1, fun x hx hxe => (h13 p hp).2.1 (hxe ▸ hx), (h13 p hp).2.2⟩,
      fun x hx hxe => h14 (hxe ▸ hx)⟩

/-- Reading a record with signed numbers: with the header in `line` and the stream at
the record's 15 other lines, `readInputSample` returns the record's values and leaves
the stream right after those lines. -/
theorem readInputSample_record_int {F : Type} (stof : Str → Except Exc F) (r : RecordText)
    (hwf : r.wellFormedInt stof = true) (file : IFStream) (rest : Str)
    (hgood : file.eof = false ∧ file.fail = false) (hdata : file.data = r.body ++ rest)
    (allItems : List Int) (itemProbPairVec : List (Int × F)) :
    ∃ v, stof r.maxProb = .ok v ∧
      readInputSample stof file allItems itemProbPairVec r.header =
        .ok ({ file with data := rest },
          { userId := intVal r.user
            expectedPredictedMaxRatingItem := intVal r.maxItem
            expectedPredictedMaxRatingItemProb := v
            allItems := allItems ++ r.items.map intVal
            itemProbPairVec := itemProbPairVec ++ topPairsInt stof r.top }) := by
  obtain ⟨huser, hitems, hnum, hil1, hil2, hmax, hpl1, hpl2, hmp, hok, hsk, htop, htopwf, htr⟩ :=
    (wellFormedInt_iff stof r).mp hwf
  obtain ⟨v, hv⟩ := (isOk_iff _).mp hok
  refine ⟨v, hv, ?_⟩
  obtain ⟨p, ps, hps⟩ : ∃ p ps, r.top = p :: ps := by
    cases htl : r.top with
    | nil => rw [htl] at htop; cases htop
    | cons p ps => exact ⟨p, ps, rfl⟩
  have hpslen : ps.length + 1 = 10 := by rw [hps] at htop; simpa using htop
  have huser1 : stoi (' ' :: r.user) = .ok (intVal r.user) := by
    rw [stoi_space]; exact (intText_spec _ huser).2.2.2.2
  have hmax1 : stoi (' ' :: r.maxItem) = .ok (intVal r.maxItem) := by
    rw [stoi_space]; exact (intText_spec _ hmax).2.2.2.2
  have hmaxnl : '\n' ∉ r.maxItem := (intText_spec _ hmax).2.2.2.1
  -- the header
  have hfind0 : find r.header ':' = some 5 :=
    find_append "user ".toList (' ' :: r.user) ':' (by decide)
  have hsub0 : substr r.header 6 none = .ok (' ' :: r.user) :=
    substr_after "user ".toList (' ' :: r.user) ':'
  -- the stream, line by line
  let d5 := topLines ps ++ (r.trailer ++ '\n' :: rest)
  let d4 := (p.1 ++ " : ".toList ++ p.2) ++ '\n' :: d5
  let d3 := r.skipped ++ '\n' :: d4
  let d2 := ((r.probLabel ++ [' ']) ++ ':' :: (' ' :: '[' :: (r.maxProb ++ [']']))) ++
    '\n' :: d3
  let d1 := ((r.itemLabel ++ [' ']) ++ ':' :: (' ' :: r.maxItem)) ++ '\n' :: d2
  have hd0 : file.data =
      ("items ".toList ++ ':' :: (' ' :: '[' :: joinItems r.items)) ++ '\n' :: d1 := by
    rw [hdata, RecordText.body, hps]
    simp [d1, d2, d3, d4, d5, topLines]
  have hnlJ := joinItems_no_newline_int r.items
    (fun a ha => (intText_spec a (hnum a ha)).2.2.2.1)
  have h1 := readNextLine_line file "items ".toList (' ' :: '[' :: joinItems r.items) d1 ':'
    hgood hd0
    (by
      simp only [List.mem_append, List.mem_cons, not_or]
      exact ⟨by decide, by decide, by decide, by decide, hnlJ⟩)
    (by decide)
  have h2 := readNextLine_line { file with data := d1 } (r.itemLabel ++ [' '])
    (' ' :: r.maxItem) d2 ':' hgood rfl
    (by
      simp only [List.mem_append, List.mem_cons, List.mem_singleton, not_or]
      exact ⟨⟨hil2, by decide⟩, by decide, by decide, hmaxnl⟩)
    (by
      simp only [List.mem_append, List.mem_singleton, not_or]
      exact ⟨hil1, by decide⟩)
  have h3 := readNextLine_line { file with data := d2 } (r.probLabel ++ [' '])
    (' ' :: '[' :: (r.maxProb ++ [']'])) d3 ':' hgood rfl
    (by
      simp only [List.mem_append, List.mem_cons, List.mem_singleton, not_or]
      exact ⟨⟨hpl2, by decide⟩, by decide, by decide, by decide, hmp, by decide⟩)
    (by
      simp only [List.mem_append, List.mem_singleton, not_or]
      exact ⟨hpl1, by decide⟩)
  have h4 := getline_line { file with data := d3 } (' ' :: r.user) r.skipped d4 hgood rfl hsk
  have hpwf := htopwf p (by rw [hps]; exact List.mem_cons_self _ _)
  have h5 := getline_line { file with data := d4 } r.skipped (p.1 ++ " : ".toList ++ p.2) d5
    hgood rfl
    (by
      simp only [List.mem_append, not_or]
      exact ⟨⟨(intText_spec _ hpwf.1).2.2.2.1, by decide⟩, hpwf.2.1⟩)
  have h6 := readTopRatings_lines_int stof r.trailer rest htr ps p { file with data := d5 }
    itemProbPairVec (fun q hq => htopwf q (by rw [hps]; exact hq)) hgood rfl
  rw [hpslen] at h6
  have hitemsfuel := readItems_joinItems_int r.items ((joinItems r.items).length + 1) allItems
    hitems hnum (Nat.lt_succ_of_le (length_le_joinItems_int r.items))
  unfold readInputSample
  simp only [hfind0, posPlus1, hsub0, huser1, h1, substr_bracket,
    hitemsfuel, h2, hmax1, h3, substr_prob, hv, h4, h5, h6, hps,
    bind, Except.bind, pure, Except.pure]

theorem isIntText_of_isNumeral (s : Str) (h : isNumeral s = true) :
    isIntText s = true ∧ intVal s = (digitsVal s : Int) := by
  obtain ⟨hne, hdig, -⟩ := (isNumeral_iff s).mp h
  have hnot : ∀ d, s ≠ '-' :: d := by
    rintro d rfl
    exact absurd (hdig '-' (List.mem_cons_self _ _)) (by decide)
  constructor
  · unfold isIntText
    split
    · next d => exact absurd rfl (hnot d)
    · exact h
  · unfold intVal
    split
    · next d => exact absurd rfl (hnot d)
    · rfl

theorem topPairsInt_forall₂ {F : Type} (stof : Str → Except Exc F) (top : List (Str × Str))
    (h : ∀ p ∈ top, (stof p.2).isOk = true) :
    List.Forall₂ (fun (t : Str × Str) (q : Int × F) =>
      q.1 = intVal t.1 ∧ stof t.2 = .ok q.2) top (topPairsInt stof top) := by
  induction top with
  | nil => exact List.Forall₂.nil
  | cons p rest ih =>
    obtain ⟨v, hv⟩ := (isOk_iff _).mp (h p (List.mem_cons_self _ _))
    have hrest := ih (fun q hq => h q (List.mem_cons_of_mem _ hq))
    unfold topPairsInt
    rw [hv]
    exact List.Forall₂.cons ⟨rfl, hv⟩ hrest

theorem topLines_count (top : List (Str × Str))
    (h : ∀ p ∈ top, '\n' ∉ p.1 ∧ '\n' ∉ p.2) :
    (topLines top).count '\n' = top.length := by
  induction top with
  | nil => rfl
  | cons p rest ih =>
    have hp := h p (List.mem_cons_self _ _)
    have hrest := ih (fun q hq => h q (List.mem_cons_of_mem _ hq))
    unfold topLines
    simp only [List.count_append, List.count_eq_zero.mpr hp.1, List.count_eq_zero.mpr hp.2,
      hrest, List.length_cons]
    have h1 : List.count '\n' " : ".toList = 0 := by decide
    have h2 : List.count '\n' ['\n'] = 1 := by decide
    rw [h1, h2]
    omega

theorem body_count_newline {F : Type} (stof : Str → Except Exc F) (r : RecordText)
    (hwf : r.wellFormedInt stof = true) : r.body.count '\n' = 15 := by
  obtain ⟨-, -, hnum, -, hil2, hmax, -, hpl2, hmp, -, hsk, htop, htopwf, htr⟩ :=
    (wellFormedInt_iff stof r).mp hwf
  have hj := joinItems_no_newline_int r.items
    (fun a ha => (intText_spec a (hnum a ha)).2.2.2.1)
  have ht := topLines_count r.top
    (fun p hp => ⟨(intText_spec _ (htopwf p hp).1).2.2.2.1, (htopwf p hp).2.1⟩)
  have h1 : List.count '\n' "items : [".toList = 0 := by decide
  have h2 : List.count '\n' " : ".toList = 0 := by decide
  have h3 : List.count '\n' " : [".toList = 0 := by decide
  have h4 : List.count '\n' ['\n'] = 1 := by decide
  have h5 : List.count '\n' [']', '\n'] = 1 := by decide
  unfold RecordText.body
  simp only [List.count_append, List.count_eq_zero.mpr hj, List.count_eq_zero.mpr hil2,
    List.count_eq_zero.mpr (intText_spec _ hmax).2.2.2.1, List.count_eq_zero.mpr hpl2,
    List.count_eq_zero.mpr hmp, List.count_eq_zero.mpr hsk, List.count_eq_zero.mpr htr,
    ht, htop, h1, h2, h3, h4, h5]

theorem header_no_newline_int {F : Type} (stof : Str → Except Exc F) (r : RecordText)
    (hwf : r.wellFormedInt stof = true) : '\n' ∉ r.header := by
  have h := ((wellFormedInt_iff stof r).mp hwf).1
  unfold RecordText.header
  simp only [List.mem_append, not_or]
  exact ⟨by decide, (intText_spec _ h).2.2.2.1⟩

/-- C11: `readInputSample` on a record of the fixed format (header "user : u" in
`line`, the stream at the record's 15 other lines: the items line, the two labelled
lines, the skipped line, ten lines "item : prob" and the trailing line; the numbers
are decimal numerals of `int` values, negative ones included) returns with
`userId = u`, `allItems` extended by `a1, ..., an` in file order (they are
`[a1, ..., an]` for the fresh `pargs` that `parseMovieLensData` passes),
`expectedPredictedMaxRatingItem = m`, the probability that `stof` reads from `p`, and
`itemProbPairVec` extended by exactly the ten pairs of the ten lines in file order.
The body has exactly 15 newlines and the stream is left right behind it, so that the
next `getline`, the one in the loop condition of `parseMovieLensData`, reads the header
of the following record. -/
theorem readInputSample_decodes_record {F : Type} (stof : Str → Except Exc F)
    (r : RecordText) (hwf : r.wellFormedInt stof = true) (file : IFStream) (rest : Str)
    (hgood : file.eof = false ∧ file.fail = false) (hdata : file.data = r.body ++ rest)
    (allItems : List Int) (itemProbPairVec : List (Int × F)) :
    ∃ file1 pargs pairs,
      readInputSample stof file allItems itemProbPairVec r.header = .ok (file1, pargs) ∧
      pargs.userId = intVal r.user ∧
      pargs.allItems = allItems ++ r.items.map intVal ∧
      pargs.expectedPredictedMaxRatingItem = intVal r.maxItem ∧
      stof r.maxProb = .ok pargs.expectedPredictedMaxRatingItemProb ∧
      pargs.itemProbPairVec = itemProbPairVec ++ pairs ∧ pairs.length = 10 ∧
      List.Forall₂ (fun (t : Str × Str) (q : Int × F) =>
        q.1 = intVal t.1 ∧ stof t.2 = .ok q.2) r.top pairs ∧
      r.body.count '\n' = 15 ∧
      file1 = { file with data := rest } ∧
      ∀ (r2 : RecordText) (rest2 line0 : Str), r2.wellFormedInt stof = true →
        rest = r2.text ++ rest2 →
        getline file1 line0 = ({ file1 with data := r2.body ++ rest2 }, r2.header, true) := by
  obtain ⟨v, hv, hread⟩ :=
    readInputSample_record_int stof r hwf file rest hgood hdata allItems itemProbPairVec
  have htopwf := ((wellFormedInt_iff stof r).mp hwf).2.2.2.2.2.2.2.2.2.2.2.2.1
  have hpairs := topPairsInt_forall₂ stof r.top (fun p hp => (htopwf p hp).2.2)
  have hlen : (topPairsInt stof r.top).length = 10 := by
    rw [← hpairs.length_eq]
    exact ((wellFormedInt_iff stof r).mp hwf).2.2.2.2.2.2.2.2.2.2.2.1
  refine ⟨_, _, topPairsInt stof r.top, hread, rfl, rfl, rfl, hv, rfl, hlen, hpairs,
    body_count_newline stof r hwf, rfl, ?_⟩
  intro r2 rest2 line0 hwf2 hrest
  exact getline_line { file with data := rest } line0 r2.header (r2.body ++ rest2) hgood
    (by show rest = _; rw [hrest, RecordText.text]; simp)
    (header_no_newline_int stof r2 hwf2)

/-- Witness of C11: `recordC`, with user -3 and item -12, followed by `recordB`. -/
theorem readInputSample_decodes_record_witness :
    ∃ file1 pargs pairs,
      readInputSample stofText (IFStream.ofFile (some (recordC.body ++ recordB.text)))
        [] [] recordC.header = .ok (file1, pargs) ∧
      pargs.userId = intVal recordC.user ∧
      pargs.allItems = [] ++ recordC.items.map intVal ∧
      pargs.expectedPredictedMaxRatingItem = intVal recordC.maxItem ∧
      stofText recordC.maxProb = .ok pargs.expectedPredictedMaxRatingItemProb ∧
      pargs.itemProbPairVec = [] ++ pairs ∧ pairs.length = 10 ∧
      List.Forall₂ (fun (t : Str × Str) (q : Int × Str) =>
        q.1 = intVal t.1 ∧ stofText t.2 = .ok q.2) recordC.top pairs ∧
      recordC.body.count '\n' = 15 ∧
      file1 = { IFStream.ofFile (some (recordC.body ++ recordB.text)) with
        data := recordB.text } ∧
      ∀ (r2 : RecordText) (rest2 line0 : Str), r2.wellFormedInt stofText = true →
        recordB.text = r2.text ++ rest2 →
        getline file1 line0 = ({ file1 with data := r2.body ++ rest2 }, r2.header, true) :=
  readInputSample_decodes_record stofText recordC (by decide!)
    (IFStream.ofFile (some (recordC.body ++ recordB.text))) recordB.text ⟨rfl, rfl⟩ rfl [] []

/-- The record `recordC` read by evaluation: user -3, items -12, 7, 305, expected
item -12, and the stream left at `recordB`. -/
theorem readInputSample_recordC :
    (readInputSample stofText (IFStream.ofFile (some (recordC.body ++ recordB.text)))
      [] [] recordC.header).map (fun x =>
        (x.2.userId, x.2.allItems, x.2.expectedPredictedMaxRatingItem)) =
      .ok (-3, [-12, 7, 305], -12) ∧
    (readInputSample stofText (IFStream.ofFile (some (recordC.body ++ recordB.text)))
      [] [] recordC.header).map (fun x => (x.1.data, x.2.itemProbPairVec.head?)) =
      .ok (recordB.text, some (-12, "0.9".toList)) := by
  decide!

/-! ### C12: the size of the segment -/

theorem reap_shmSize (w : World) (q : Nat) : (w.reap q).shmSize = w.shmSize := by
  unfold World.reap; split <;> rfl

theorem fresh_init (N pid0 : Int) : Fresh (init N pid0) := by
  intro p _ _
  exact ⟨by simp [MovieLensMPS.init, Published], rfl⟩

theorem fresh_step {w w' : World} {a : Action} (h : Inv w) (hf : Fresh w)
    (hs : step w a = some w') : Fresh w' := by
  unfold MovieLensMPS.step at hs
  cases hp : w.procs[a.proc]? with
  | none => simp [hp] at hs
  | some p =>
    have hok := h.procs_ok _ _ hp
    have hlt : a.proc < w.procs.length := by
      rcases List.getElem?_eq_some.mp hp with ⟨h1, _⟩
      exact h1
    simp only [hp] at hs
    obtain ⟨hk1, hk2, hk2b, hk3⟩ := hok
    by_cases ha : a.proc = 0
    · have hf0 := hf p (ha ▸ hp)
      cases hpc : p.pc <;> simp only [hpc] at hs hk3 <;> (repeat' split at hs) <;>
        cases hs <;> intro q hq hb
      all_goals (rw [ha] at hlt; simp [World.update, ha, hlt, List.getElem?_append, reap_length] at hq)
      all_goals (try subst hq)
      all_goals first
        | (simp [Pc.beforePublish] at hb; done)
        | (have hf1 := hf0 (by rw [hpc]; rfl)
           simp [World.update, published_cons, hf1])
    · cases hpc : p.pc <;> simp only [hpc] at hs hk3 <;> (repeat' split at hs) <;>
        cases hs <;> intro q hq hb
      all_goals first
        | exact absurd hk3.1 ha
        | (simp [World.update, ha, published_cons] at hq ⊢
           exact hf q hq hb)

theorem fresh_run {w w' : World} {sched : List Action} (h : Inv w) (hf : Fresh w)
    (hr : run w sched = some w') : Fresh w' := by
  induction sched generalizing w with
  | nil =>
    simp only [MovieLensMPS.run, Option.some.injEq] at hr
    exact hr ▸ hf
  | cons a rest ih =>
    simp only [MovieLensMPS.run] at hr
    cases hs : MovieLensMPS.step w a with
    | none => simp [hs] at hr
    | some w1 =>
      simp only [hs] at hr
      exact ih (h.step hs) (fresh_step h hf hs) hr

theorem publishes_step {s : Nat} {w w' : World} {a : Action} (h : Inv w) (hf : Fresh w)
    (hpub : Publishes s w) (hs : step w a = some w') : Publishes s w' := by
  unfold MovieLensMPS.step at hs
  cases hp : w.procs[a.proc]? with
  | none => simp [hp] at hs
  | some p =>
    have hok := h.procs_ok _ _ hp
    have hlt : a.proc < w.procs.length := by
      rcases List.getElem?_eq_some.mp hp with ⟨h1, _⟩
      exact h1
    simp only [hp] at hs
    obtain ⟨hk1, hk2, hk2b, hk3⟩ := hok
    by_cases ha : a.proc = 0
    · have hf0 := hf p (ha ▸ hp)
      rcases hpub with ⟨p0, hp0, hpc0⟩ | ⟨hP, hsz⟩
      · have hpp : p = p0 := by
          rw [ha] at hp
          rw [hp] at hp0
          exact Option.some.inj hp0
        subst hpp
        simp only [hpc0] at hs
        cases hs
        right
        have hf1 := hf0 (by rw [hpc0]; rfl)
        simp [World.update, published_cons, hf1, ha]
      · have hnb : p.pc.beforePublish = false := by
          cases hb : p.pc.beforePublish
          · rfl
          · exact absurd hP (hf0 hb).1
        cases hpc : p.pc <;> simp only [hpc] at hs hk3 hnb <;>
          simp only [Pc.beforePublish] at hnb <;> (repeat' split at hs) <;> cases hs
        all_goals first
          | exact Bool.noConfusion hnb
          | (right
             simp [World.update, published_cons, hP, hsz, reap_trace, reap_shmSize])
    · have hnc : ∀ sz, p.pc ≠ .publish sz ∧ p.pc ≠ .shmCreate sz := by
        intro sz
        constructor <;> intro hpc <;> simp only [hpc] at hk3 <;> exact ha hk3.1
      cases hpc : p.pc <;> simp only [hpc] at hs hk3 <;> (repeat' split at hs) <;>
        cases hs
      all_goals first
        | exact absurd hk3.1 ha
        | (rcases hpub with ⟨p0, hp0, hpc0⟩ | ⟨hP, hsz⟩
           · left
             refine ⟨p0, ?_, hpc0⟩
             simp [World.update, ha]
             exact hp0
           · right
             simp [World.update, published_cons, hP, hsz, reap_trace, reap_shmSize])

theorem publishes_run {s : Nat} {w w' : World} {sched : List Action} (h : Inv w)
    (hf : Fresh w) (hpub : Publishes s w) (hr : run w sched = some w') : Publishes s w' := by
  induction sched generalizing w with
  | nil =>
    simp only [MovieLensMPS.run, Option.some.injEq] at hr
    exact hr ▸ hpub
  | cons a rest ih =>
    simp only [MovieLensMPS.run] at hr
    cases hs : MovieLensMPS.step w a with
    | none => simp [hs] at hr
    | some w1 =>
      simp only [hs] at hr
      exact ih (h.step hs) (fresh_step h hf hs) (publishes_step h hf hpub hs) hr

theorem toInt32_of_lt (s : Nat) (h : s < 2147483648) : toInt32 s = s := by
  unfold toInt32
  omega

/-- C12 as stated fails for a serialized engine of 2^31 bytes or more, because the
worker keeps the size in an `int`: with `s = 2147483648` the segment has that size
when the worker reaches `fstat`, its `modelStreamSize` is negative and it raises,
although the segment size is not 0; with `s = 4294967301` its `modelStreamSize` is 5. -/
theorem worker_size_truncated :
    (run (init 1 0) (schedSize 2147483648)).map (fun w => (w.shmSize, w.procs.map Proc.pc)) =
      some (2147483648, [.postLoop 1, .fstat]) ∧
    (run (init 1 0) (schedSize 2147483648 ++ [⟨1, 0⟩])).map
      (fun w => (w.shmSize, w.procs.map Proc.pc)) =
      some (2147483648, [.postLoop 1, .aborted]) ∧
    (run (init 1 0) (schedSize 4294967301 ++ [⟨1, 0⟩])).map
      (fun w => (w.shmSize, w.procs.map Proc.pc)) =
      some (4294967301, [.postLoop 1, .mmap 5]) := by
  decide!

/-- C12, amended: let the parent be about to publish a serialized engine of `s` bytes
(it is at line 521 with `modelStreamSize = s`, the segment freshly created), and let a
worker later be at its `fstat` (lines 553-557).  Then the segment has exactly `s`
bytes; the worker's step is enabled and its `modelStreamSize` is `s` converted to
`int`: it raises when that `int` is not positive and goes on to `mmap` and
`doInference` with it otherwise.  For `0 < s < 2^31` the worker goes on with
`modelStreamSize = s`, and for `s < 2^31` it raises exactly when `s = 0`. -/
theorem worker_size_is_published (N : Nat) (pid0 : Int) (s : Nat)
    (schedA schedB : List Action) (w1 w2 : World) (p0 p : Proc) (i : Nat) (v : Int)
    (hA : run (init N pid0) schedA = some w1)
    (hp0 : w1.procs[0]? = some p0) (hpc0 : p0.pc = .publish s)
    (hB : run w1 schedB = some w2)
    (hp : w2.procs[i]? = some p) (hpc : p.pc = .fstat) :
    w2.shmSize = s ∧
    ∃ w3 p3, step w2 ⟨i, v⟩ = some w3 ∧ w3.procs[i]? = some p3 ∧
      p3.pc = (if toInt32 s ≤ 0 then Pc.aborted else Pc.mmap (toInt32 s)) ∧
      (0 < s → s < 2147483648 → p3.pc = .mmap s) ∧
      (s < 2147483648 → (p3.pc = .aborted ↔ s = 0)) := by
  have hi1 := (Inv.init N pid0).run hA
  have hf1 := fresh_run (Inv.init N pid0) (fresh_init N pid0) hA
  have hi2 := hi1.run hB
  have hf2 := fresh_run hi1 hf1 hB
  have hpub : Publishes s w2 := publishes_run hi1 hf1 (Or.inl ⟨p0, hp0, hpc0⟩) hB
  have hok := hi2.procs_ok i p hp
  obtain ⟨-, -, -, hk⟩ := hok
  simp only [hpc] at hk
  have hsz : w2.shmSize = s := by
    rcases hpub with ⟨q, hq, hqc⟩ | ⟨-, hsz⟩
    · exact absurd hk.2.1 (hf2 q hq (by rw [hqc]; rfl)).1
    · exact hsz
  have hlt : i < w2.procs.length := by
    rcases List.getElem?_eq_some.mp hp with ⟨h1, _⟩
    exact h1
  refine ⟨hsz, ?_⟩
  by_cases hneg : toInt32 s ≤ 0
  · refine ⟨w2.update i { p with pc := .aborted } [], { p with pc := .aborted }, ?_, ?_, ?_, ?_, ?_⟩
    · simp [MovieLensMPS.step, hp, hpc, hsz, hneg]
    · simp [World.update, hlt]
    · simp [hneg]
    · intro h0 hlt31
      rw [toInt32_of_lt s hlt31] at hneg
      omega
    · intro hlt31
      rw [toInt32_of_lt s hlt31] at hneg
      constructor
      · intro _; omega
      · intro _; rfl
  · refine ⟨w2.update i { p with pc := .mmap (toInt32 s) } [],
      { p with pc := .mmap (toInt32 s) }, ?_, ?_, ?_, ?_, ?_⟩
    · simp [MovieLensMPS.step, hp, hpc, hsz, hneg]
    · simp [World.update, hlt]
    · simp [hneg]
    · intro h0 hlt31
      rw [toInt32_of_lt s hlt31]
    · intro hlt31
      rw [toInt32_of_lt s hlt31] at hneg
      constructor
      · intro h; cases h
      · intro h0; omega

/-- Witness of C12: one worker and an engine of 64 bytes; after the first nine actions
of `schedSize 64` the parent is at line 521, after the other four the worker is at its
`fstat`, and it goes on with `modelStreamSize = 64`. -/
theorem worker_size_is_published_witness :
    ∃ w1 w2 p0 p,
      run (init (1 : Nat) 0) ((schedSize 64).take 9) = some w1 ∧
      w1.procs[0]? = some p0 ∧ p0.pc = .publish 64 ∧
      run w1 ((schedSize 64).drop 9) = some w2 ∧
      w2.procs[1]? = some p ∧ p.pc = .fstat ∧
      w2.shmSize = 64 ∧
      ∃ w3 p3, step w2 ⟨1, 0⟩ = some w3 ∧ w3.procs[1]? = some p3 ∧
        p3.pc = (if toInt32 ((64 : Nat) : Int) ≤ 0 then Pc.aborted
          else Pc.mmap (toInt32 ((64 : Nat) : Int))) ∧
        (0 < 64 → 64 < 2147483648 → p3.pc = .mmap ((64 : Nat) : Int)) ∧
        (64 < 2147483648 → (p3.pc = .aborted ↔ 64 = 0)) :=
  ⟨_, _, _, _, rfl, rfl, rfl, rfl, rfl, rfl,
    worker_size_is_published 1 0 64 ((schedSize 64).take 9) ((schedSize 64).drop 9)
      _ _ _ _ 1 0 rfl rfl rfl rfl rfl rfl⟩

/-! ### C13: the index of the value token -/

theorem parseArgsFrom_nullArg {F : Type} (appName : Str) :
    ∀ (n : Nat) (l : List Str), l.length ≤ n → ∀ (args : Args F) (i j : Nat),
      parseArgsFrom appName args i l = .nullArg j → j = i + l.length := by
  intro n
  induction n with
  | zero =>
    intro l hl args i j h
    obtain rfl : l = [] := List.length_eq_zero.mp (Nat.le_zero.mp hl)
    simp [parseArgsFrom] at h
  | succ n ih =>
    intro l hl args i j h
    cases l with
    | nil => simp [parseArgsFrom] at h
    | cons argStr rest =>
      have hlen : rest.length ≤ n := by simpa using hl
      unfold parseArgsFrom at h
      split at h
      · cases h
      · split at h
        · cases rest with
          | nil =>
            simp only [ParseArgsResult.nullArg.injEq] at h
            simp [← h]
          | cons v rest1 =>
            have := ih rest1 (by simp only [List.length_cons] at hlen; omega) _ _ _ h
            simp only [List.length_cons] at this ⊢
            omega
        · split at h
          · cases rest with
            | nil =>
              simp only [ParseArgsResult.nullArg.injEq] at h
              simp [← h]
            | cons v rest1 =>
              have := ih rest1 (by simp only [List.length_cons] at hlen; omega) _ _ _ h
              simp only [List.length_cons] at this ⊢
              omega
          · split at h
            · have := ih rest hlen _ _ _ h
              simp only [List.length_cons] at this ⊢
              omega
            · split at h
              · split at h
                · have := ih rest hlen _ _ _ h
                  simp only [List.length_cons] at this ⊢
                  omega
                · cases h
              · cases h

/-- C13 fails when "-b" or "-p" is the last argument: with `argc = 2` and
`argv = [prog, "-b"]` the loop increments `i` to 2 and passes `argv[2]` to `atoi`, and
with `argc = 3` and `argv = [prog, "--verbose", "-p"]` it passes `argv[3]`; the index
read is `argc`, where `argv` holds the terminating null pointer and no argument. -/
theorem parseArgs_reads_argv_at_argc :
    parseArgs ({} : Args Unit) ["sample_movielens_mps".toList, "-b".toList] = .nullArg 2 ∧
    ["sample_movielens_mps".toList, "-b".toList].length = 2 ∧
    parseArgs ({} : Args Unit)
      ["sample_movielens_mps".toList, "--verbose".toList, "-p".toList] = .nullArg 3 ∧
    ["sample_movielens_mps".toList, "--verbose".toList, "-p".toList].length = 3 := by
  decide!

theorem parseArgs_nullArg {F : Type} (args : Args F) (argv : List Str) (j : Nat)
    (h : parseArgs args argv = .nullArg j) : j = argv.length := by
  cases argv with
  | nil => simp [parseArgs] at h
  | cons appName rest =>
    have := parseArgsFrom_nullArg appName rest.length rest (Nat.le_refl _) args 1 j h
    simp only [List.length_cons]
    omega

/-! ### C14: the two copies of the ground truth -/

theorem mapAt_mapSet_self {V : Type} (key : Int) (value : V) (m : List (Int × V)) :
    mapAt (mapSet key value m) key = .ok value := by
  induction m with
  | nil => simp [mapSet, mapAt]
  | cons kv m ih =>
    obtain ⟨k, v⟩ := kv
    unfold mapSet
    split
    · simp [mapAt]
    · split
      · simp [mapAt]
      · next h1 h2 =>
        have hne : (k == key) = false := by
          simp only [beq_eq_false_iff_ne, ne_eq]
          exact fun h => h2 h.symm
        unfold mapAt at ih ⊢
        simp only [List.find?_cons, hne]
        exact ih

theorem mapAt_mapSet_ne {V : Type} (key j : Int) (value : V) (m : List (Int × V))
    (hj : j ≠ key) : mapAt (mapSet key value m) j = mapAt m j := by
  have hkj : (key == j) = false := by
    simp only [beq_eq_false_iff_ne, ne_eq]
    exact fun h => hj h.symm
  induction m with
  | nil => simp [mapSet, mapAt, hkj]
  | cons kv m ih =>
    obtain ⟨k, v⟩ := kv
    unfold mapSet
    split
    · simp [mapAt, List.find?_cons, hkj]
    · split
      · next h1 h2 =>
        subst h2
        simp [mapAt, List.find?_cons, hkj]
      · unfold mapAt at ih ⊢
        simp only [List.find?_cons]
        cases hkj2 : k == j
        · exact ih
        · rfl

theorem tablesAgree_push {F : Type} (k : Nat) (args : Args F) (pargs : OutputArgs F)
    (h : TablesAgree k args) :
    TablesAgree (k + 1)
      { args with
        pargsVec := args.pargsVec ++ [pargs]
        userToItemsMap := mapSet (k : Int) pargs.allItems args.userToItemsMap
        userToExpectedItemProbMap :=
          mapSet (k : Int) pargs.itemProbPairVec args.userToExpectedItemProbMap } := by
  obtain ⟨hlen, hall⟩ := h
  refine ⟨by simp [hlen], ?_⟩
  intro i hi
  by_cases hik : i = k
  · subst hik
    refine ⟨pargs, ?_, mapAt_mapSet_self _ _ _, mapAt_mapSet_self _ _ _⟩
    simp [← hlen]
  · have hlt : i < k := by omega
    obtain ⟨q, hq, h1, h2⟩ := hall i hlt
    have hne : (i : Int) ≠ (k : Int) := by omega
    refine ⟨q, ?_, ?_, ?_⟩
    · simp only
      rw [List.getElem?_append_left (by omega)]
      exact hq
    · simp only
      rw [mapAt_mapSet_ne _ _ _ _ hne]
      exact h1
    · simp only
      rw [mapAt_mapSet_ne _ _ _ _ hne]
      exact h2

/-- The loop of `parseMovieLensData` keeps the two copies in step, on every file and
with any amount of fuel: it leaves `numUsers` alone, and when it ends `userIdx` is the
number of records stored. -/
theorem parseLoop_agree {F : Type} (stof : Str → Except Exc F) :
    ∀ (fuel : Nat) (file : IFStream) (line : Str) (k : Nat) (args : Args F)
      (file1 : IFStream) (userIdx : Int) (args1 : Args F),
      TablesAgree k args →
      parseLoop stof fuel file line (k : Int) args = .ok (file1, userIdx, args1) →
      ∃ k1 : Nat, userIdx = (k1 : Int) ∧ TablesAgree k1 args1 ∧
        args1.numUsers = args.numUsers := by
  intro fuel
  induction fuel with
  | zero =>
    intro file line k args file1 userIdx args1 hag h
    simp only [parseLoop, Except.ok.injEq, Prod.mk.injEq] at h
    obtain ⟨-, h2, h3⟩ := h
    subst h2 h3
    exact ⟨k, rfl, hag, rfl⟩
  | succ fuel ih =>
    intro file line k args file1 userIdx args1 hag h
    unfold parseLoop at h
    simp only at h
    split at h
    · split at h
      · cases h
      · next file2 pargs hread =>
        have hk : ((k : Int) + 1) = ((k + 1 : Nat) : Int) := by push_cast; rfl
        rw [hk] at h
        obtain ⟨k1, h1, h2, h3⟩ := ih _ _ (k + 1) _ _ _ _ (tablesAgree_push k args pargs hag) h
        exact ⟨k1, h1, h2, h3⟩
    · simp only [Except.ok.injEq, Prod.mk.injEq] at h
      obtain ⟨-, h2, h3⟩ := h
      subst h2 h3
      exact ⟨k, rfl, hag, rfl⟩

/-- The fuel of `parseLoop` is enough: once `numUsers ≤ userIdx + fuel`, more fuel
does not change the result of `fuel + 1` rounds. -/
theorem parseLoop_fuel {F : Type} (stof : Str → Except Exc F) (extra : Nat) :
    ∀ (fuel : Nat) (file : IFStream) (line : Str) (userIdx : Int) (args : Args F),
      args.numUsers ≤ userIdx + fuel →
      parseLoop stof (fuel + 1 + extra) file line userIdx args =
        parseLoop stof (fuel + 1) file line userIdx args := by
  intro fuel
  induction fuel with
  | zero =>
    intro file line userIdx args h
    have hnot : ¬(userIdx < args.numUsers) := by
      simp only [Nat.cast_zero, add_zero] at h
      omega
    rw [show 0 + 1 + extra = extra + 1 by omega]
    simp only [parseLoop, hnot, decide_False, Bool.and_false, Bool.false_eq_true, if_false]
  | succ fuel ih =>
    intro file line userIdx args h
    rw [show fuel + 1 + 1 + extra = (fuel + 1 + extra) + 1 by omega]
    unfold parseLoop
    simp only
    split
    · split
      · rfl
      · apply ih
        simp only
        push_cast at h
        omega
    · rfl

/-- C14: when `parseMovieLensData`, called with an empty `pargsVec` as in `main`,
returns, `pargsVec` has `numUsers` entries and for every position `i < numUsers` the
entry `pargsVec[i]` holds the same `allItems` as `userToItemsMap.at(i)` and the same
`itemProbPairVec` as `userToExpectedItemProbMap.at(i)`; this holds whatever the file
contains. -/
theorem parseMovieLensData_copies_agree {F : Type} (stof : Str → Except Exc F)
    (content : Option Str) (args a : Args F) (hempty : args.pargsVec = [])
    (hret : parseMovieLensData stof content args = .returned a) :
    a.numUsers = args.numUsers ∧ (a.pargsVec.length : Int) = a.numUsers ∧
    ∀ i : Nat, (i : Int) < a.numUsers →
      ∃ pargs, a.pargsVec[i]? = some pargs ∧
        mapAt a.userToItemsMap (i : Int) = .ok pargs.allItems ∧
        mapAt a.userToExpectedItemProbMap (i : Int) = .ok pargs.itemProbPairVec := by
  unfold parseMovieLensData at hret
  split at hret
  · cases hret
  · next file1 userIdx args1 hloop =>
    split at hret
    · next hnum =>
      simp only [ParseDataResult.returned.injEq] at hret
      subst hret
      have h0 : TablesAgree 0 args := ⟨by rw [hempty]; rfl, fun i hi => absurd hi (by omega)⟩
      obtain ⟨k1, hk1, hag, hn⟩ := parseLoop_agree stof _ _ _ 0 args _ _ _ h0 hloop
      refine ⟨hn, ?_, ?_⟩
      · rw [hag.1, hnum, hk1]
      · intro i hi
        rw [hnum, hk1] at hi
        exact hag.2 i (by omega)
    · cases hret

/-- Witness of C14: the file of `recordA` and `recordB` read with `numUsers = 2`. -/
theorem parseMovieLensData_copies_agree_witness :
    parseMovieLensData stofText (some (fileText [recordA, recordB]))
      ({ numUsers := 2 } : Args Str) =
      .returned (storeRecords stofText [recordA, recordB] 0 { numUsers := 2 }) ∧
    (storeRecords stofText [recordA, recordB] 0 ({ numUsers := 2 } : Args Str)).numUsers =
      ({ numUsers := 2 } : Args Str).numUsers ∧
    ((storeRecords stofText [recordA, recordB] 0
      ({ numUsers := 2 } : Args Str)).pargsVec.length : Int) =
      (storeRecords stofText [recordA, recordB] 0 ({ numUsers := 2 } : Args Str)).numUsers ∧
    ∀ i : Nat,
      (i : Int) < (storeRecords stofText [recordA, recordB] 0
        ({ numUsers := 2 } : Args Str)).numUsers →
      ∃ pargs,
        (storeRecords stofText [recordA, recordB] 0
          ({ numUsers := 2 } : Args Str)).pargsVec[i]? = some pargs ∧
        mapAt (storeRecords stofText [recordA, recordB] 0
          ({ numUsers := 2 } : Args Str)).userToItemsMap (i : Int) = .ok pargs.allItems ∧
        mapAt (storeRecords stofText [recordA, recordB] 0
          ({ numUsers := 2 } : Args Str)).userToExpectedItemProbMap (i : Int) =
          .ok pargs.itemProbPairVec :=
  ⟨by decide!,
   parseMovieLensData_copies_agree stofText (some (fileText [recordA, recordB]))
     { numUsers := 2 } _ rfl (by decide!)⟩

end MovieLensMPS
